import Mathlib

/-! # cq-source-s3: table discovery and incremental sync

A shallow embedding of the discovery and cursor logic of the S3 source plugin
(`internal/naming/naming.go`, `client/discover.go`, `client/sync.go`) together
with theorems about it.

Go strings are modelled as lists of Unicode code points (`Str`).  S3 object keys
are UTF-8 text, and every byte the code inspects (`/`, `.`, `_`) is ASCII, so the
byte-indexed operations of the Go standard library act on code points in the
same way.
-/

namespace S3Source

/-- Go `string`, as a list of code points. -/
abbrev Str := List Char

/-! ## Standard-library string helpers used by the source -/

/-- Go `strings.HasSuffix(s, "/")`. -/
def hasSuffixSlash (s : Str) : Bool :=
  s.getLast? == some '/'

/-- Go `strings.TrimRight(s, "/")`: drop every trailing `/`. -/
def trimRightSlash (s : Str) : Str :=
  s.rdropWhile (· == '/')

/-- Go `strings.TrimSuffix(s, suffix)`. -/
def trimSuffix (s suffix : Str) : Str :=
  if suffix.isSuffixOf s then s.take (s.length - suffix.length) else s

/-- Go `strings.ReplaceAll(s, "/", "_")`. -/
def replaceSlashes (s : Str) : Str :=
  s.map (fun c => if c = '/' then '_' else c)

/-- Go `strings.Trim(s, "_")`: drop leading and trailing underscores. -/
def trimUnderscores (s : Str) : Str :=
  (s.dropWhile (· == '_')).rdropWhile (· == '_')

/-- Go string comparison `a < b` (lexicographic; code-point order coincides with
the byte order of the UTF-8 encoding). -/
def strLt : Str → Str → Bool
  | [], [] => false
  | [], _ :: _ => true
  | _ :: _, [] => false
  | a :: as, b :: bs =>
    if a.toNat < b.toNat then true
    else if b.toNat < a.toNat then false
    else strLt as bs

/-! ## Package `path` -/

/-- The backtracking loop of `path.Clean` for a `..` element: starting from write
index `w`, step back while `w > dotdot` and `out[w] != '/'`. -/
def cleanBacktrack (out : Str) (dotdot : Nat) : Nat → Nat
  | 0 => 0
  | w + 1 =>
    if w + 1 > dotdot ∧ out.get? (w + 1) ≠ some '/' then cleanBacktrack out dotdot w
    else w + 1

/-- The main loop of `path.Clean`.  `rest` is the unread input `path[r:]`, `out`
the bytes written so far (`out.w = out.length`), `dotdot` the index where `..`
must stop.  Every iteration consumes at least one byte of `rest`, so
`rest.length` units of fuel always suffice. -/
def cleanLoop (rooted : Bool) : Nat → Str → Str → Nat → Str
  | 0, _, out, _ => out
  | _ + 1, [], out, _ => out
  | fuel + 1, c :: rest, out, dotdot =>
    if c = '/' then
      -- empty path element
      cleanLoop rooted fuel rest out dotdot
    else if c = '.' ∧ (rest = [] ∨ rest.head? = some '/') then
      -- . element
      cleanLoop rooted fuel rest out dotdot
    else if c = '.' ∧ rest.head? = some '.' ∧
        (rest.tail = [] ∨ rest.tail.head? = some '/') then
      -- .. element: remove to last /
      if out.length > dotdot then
        cleanLoop rooted fuel rest.tail
          (out.take (cleanBacktrack out dotdot (out.length - 1))) dotdot
      else if !rooted then
        let out1 := (if out.length > 0 then out ++ ['/'] else out) ++ ['.', '.']
        cleanLoop rooted fuel rest.tail out1 out1.length
      else
        cleanLoop rooted fuel rest.tail out dotdot
    else
      -- real path element: add slash if needed, then copy the element
      let out1 :=
        if (rooted && out.length != 1) || (!rooted && out.length != 0) then out ++ ['/']
        else out
      cleanLoop rooted fuel ((c :: rest).dropWhile (· != '/'))
        (out1 ++ (c :: rest).takeWhile (· != '/')) dotdot

/-- Go `path.Clean`. -/
def pathClean (path : Str) : Str :=
  if path = [] then ['.']
  else
    let rooted := path.head? == some '/'
    let out :=
      if rooted then cleanLoop true path.length path.tail ['/'] 1
      else cleanLoop false path.length path [] 0
    if out.length = 0 then ['.'] else out

/-- Go `path.Split`: `dir` is everything up to and including the last `/`,
`file` everything after it. -/
def pathSplit (path : Str) : Str × Str :=
  (path.rdropWhile (· != '/'), path.rtakeWhile (· != '/'))

/-- Go `path.Dir`. -/
def pathDir (path : Str) : Str :=
  pathClean (pathSplit path).1

/-- Go `path.Base`. -/
def pathBase (path : Str) : Str :=
  if path = [] then ['.']
  else
    let p := (path.rdropWhile (· == '/')).rtakeWhile (· != '/')
    if p = [] then ['/'] else p

/-- Go `path.Ext`: the suffix beginning at the final dot in the final
slash-separated element, empty if there is no dot. -/
def pathExt (path : Str) : Str :=
  let last := path.rtakeWhile (· != '/')
  if '.' ∈ last then '.' :: last.rtakeWhile (· != '.') else []

/-! ## `internal/naming` -/

/-- Membership in the character class `[a-zA-Z0-9_]`. -/
def isNameChar (c : Char) : Bool :=
  ('a' ≤ c && c ≤ 'z') || ('A' ≤ c && c ≤ 'Z') || ('0' ≤ c && c ≤ '9') || c == '_'

/-- The source's `invalidChars.ReplaceAllString(raw, "_")` with
`invalidChars = [^a-zA-Z0-9_]`. -/
def replaceInvalidChars (s : Str) : Str :=
  s.map (fun c => if isNameChar c then c else '_')

/-- The source's `multiUnderscores.ReplaceAllString(raw, "_")` with
`multiUnderscores = _+`: every maximal run of underscores becomes one. -/
def collapseUnderscores : Str → Str
  | [] => []
  | [c] => [c]
  | c :: d :: rest =>
    if c = '_' ∧ d = '_' then collapseUnderscores (d :: rest)
    else c :: collapseUnderscores (d :: rest)

/-- The last four steps of `Normalize`, applied to the raw name. -/
def sanitize (raw : Str) : Str :=
  trimUnderscores (collapseUnderscores (replaceInvalidChars (replaceSlashes raw)))

/-- The raw name chosen by `Normalize` before sanitising. -/
def rawName (key0 : Str) : Str :=
  let isDir := hasSuffixSlash key0
  let key := trimRightSlash key0
  let dir := pathDir key
  let base := pathBase key
  if isDir then key
  else if dir = ['.'] ∨ dir = [] then trimSuffix base (pathExt base)
  else dir

/-- The source's `naming.Normalize`: converts an S3 object key into a table name. -/
def Normalize (key : Str) : Str :=
  sanitize (rawName key)

/-! ## Collaborator data: Arrow schemas and CloudQuery tables -/

/-- Library `arrow.Metadata`: the key-value pairs attached to a field, in the
order they are held. -/
abbrev Metadata := List (Str × Str)

/-- The order by which `sortedIndices` of `arrow.Metadata` arranges the pairs, read
as "`a` may stand before `b`": the key of `b` is not less than the key of `a`. -/
def metaLe (a b : Str × Str) : Prop :=
  strLt b.1 a.1 = false

instance : DecidableRel metaLe :=
  fun a b => inferInstanceAs (Decidable (strLt b.1 a.1 = false))

/-- Library `arrow.Metadata.Equal`: the two sides hold the same number of pairs
and, each side sorted by key, the same key and value at every position.  The
sort is a stable insertion sort, as `sort.Slice` is for fewer than 12 elements;
for pairwise distinct keys the sorted order does not depend on the algorithm. -/
def Metadata.Equal (md rhs : Metadata) : Bool :=
  if md.length ≠ rhs.length then false
  else decide (md.insertionSort metaLe = rhs.insertionSort metaLe)

/-- Library `arrow.Field`: name, type, nullability and metadata.  `DataType`
stands for the type as `arrow.TypeEqual` tells types apart. -/
structure Field where
  Name : Str
  DataType : Str
  Nullable : Bool
  Metadata : Metadata
  deriving DecidableEq, Repr, Inhabited

/-- Library `arrow.Field.Equal`: the names, the nullability, the types and the
metadata are equal. -/
def Field.Equal (f o : Field) : Bool :=
  if f.Name ≠ o.Name then false
  else if f.Nullable ≠ o.Nullable then false
  else if f.DataType ≠ o.DataType then false
  else if !(Metadata.Equal f.Metadata o.Metadata) then false
  else true

/-- Library `arrow.Schema`: the fields in order and the byte order
(`BigEndian`).  The metadata of the schema itself, which `Equal` does not
compare and the source never reads, is left out. -/
structure Schema where
  Fields : List Field
  BigEndian : Bool
  deriving DecidableEq, Repr, Inhabited

/-- Library `arrow.Schema.Equal`, called as `sc.Equal(sc2)`: the same number of
fields, the same byte order, and `Field.Equal` at every position. -/
def Schema.Equal (sc o : Schema) : Bool :=
  if sc.Fields.length ≠ o.Fields.length then false
  else if sc.BigEndian ≠ o.BigEndian then false
  else (List.zipWith Field.Equal sc.Fields o.Fields).all id

/-- A CloudQuery `schema.Column`. -/
structure Column where
  Name : Str
  DataType : Str
  NotNull : Bool
  deriving DecidableEq, Repr, Inhabited

/-- A CloudQuery `schema.Table`. -/
structure Table where
  Name : Str
  Columns : List Column
  IsIncremental : Bool
  deriving DecidableEq, Repr, Inhabited

/-- SDK `schema.NewColumnFromArrowField`: the column's name, type and
nullability.  The flags it also reads from the field metadata (primary key,
unique, incremental key) are not part of `Column` here. -/
def newColumnFromArrowField (f : Field) : Column :=
  { Name := f.Name, DataType := f.DataType, NotNull := !f.Nullable }

/-- SDK `schema.AddCqIDs`: puts the two synthetic identity columns in front. -/
def addCqIDs (t : Table) : Table :=
  { t with Columns :=
      { Name := "_cq_id".toList, DataType := "uuid".toList, NotNull := true } ::
      { Name := "_cq_parent_id".toList, DataType := "uuid".toList, NotNull := false } ::
      t.Columns }

/-! ## `client/discover.go`: data model and grouping -/

/-- The source's `S3Object`: metadata about a single S3 object. -/
structure S3Object where
  Key : Str
  Size : Int
  LastModified : Str
  deriving DecidableEq, Repr, Inhabited

/-- The source's `DiscoveredTable`: a logical table derived from S3 key prefixes. -/
structure DiscoveredTable where
  Name : Str
  Prefix : Str
  Objects : List S3Object
  ArrowSchema : Option Schema
  Table : Option Table
  deriving DecidableEq, Repr, Inhabited

/-- Go `filepath.Dir` on a slash-separated platform, where it agrees with
`path.Dir`. -/
def filepathDir (path : Str) : Str :=
  pathDir path

/-- One iteration of the first loop of `groupByPrefix`.  The Go map `byName` is an
association list from table name to table, kept in first-seen order. -/
def groupStep (byName : List (Str × DiscoveredTable)) (obj : S3Object) :
    List (Str × DiscoveredTable) :=
  let name := Normalize obj.Key
  if name = [] then byName
  else
    match byName.lookup name with
    | some _ =>
      byName.map (fun e =>
        if e.1 = name then (e.1, { e.2 with Objects := e.2.Objects ++ [obj] }) else e)
    | none =>
      let dir := filepathDir obj.Key
      let pfx := if dir ≠ ['.'] then dir ++ ['/'] else []
      byName ++ [(name,
        { Name := name, Prefix := pfx, Objects := [obj], ArrowSchema := none, Table := none })]

/-- The comparison handed to `sort.Slice`, read as "`a` may stand before `b`":
`b.Name < a.Name` does not hold. -/
def nameLe (a b : DiscoveredTable) : Prop :=
  strLt b.Name a.Name = false

instance : DecidableRel nameLe :=
  fun a b => inferInstanceAs (Decidable (strLt b.Name a.Name = false))

/-- The source's `groupByPrefix`: groups S3 objects by their normalized table name.
The map's values are collected and sorted by `Name`; the names being the map's
keys they are pairwise distinct, so the sorted order does not depend on the
map's iteration order nor on the sorting algorithm. -/
def groupByPrefix (objects : List S3Object) : List DiscoveredTable :=
  ((objects.foldl groupStep []).map Prod.snd).insertionSort nameLe

/-! ## Package `time`, as far as the source uses it -/

/-- Go `time.Time` as the source observes it: the instant, in nanoseconds since
`0001-01-01T00:00:00Z` (the zero value of `time.Time`), and the zone offset in
seconds east of UTC that `Format` prints. -/
structure Time where
  nsec : Int
  offset : Int
  deriving DecidableEq, Repr, Inhabited

/-- Go `time.Time{}`. -/
def Time.zero : Time :=
  { nsec := 0, offset := 0 }

/-- Go `t.IsZero()`: the instant is January 1, year 1, 00:00:00 UTC. -/
def Time.IsZero (t : Time) : Bool :=
  t.nsec == 0

/-- Go `t.After(u)`: the instant `t` is strictly later than `u`. -/
def Time.After (t u : Time) : Bool :=
  decide (u.nsec < t.nsec)

/-- Value of an ASCII decimal digit. -/
def digitVal (c : Char) : Option Nat :=
  if '0' ≤ c ∧ c ≤ '9' then some (c.toNat - '0'.toNat) else none

/-- Go `getnum(s, true)` of package `time`: exactly two decimal digits. -/
def getnum2 : Str → Option (Nat × Str)
  | a :: b :: rest =>
    match digitVal a, digitVal b with
    | some x, some y => some (10 * x + y, rest)
    | _, _ => none
  | _ => none

/-- Go `getnum(s, false)` of package `time`: one or two decimal digits. -/
def getnum1 : Str → Option (Nat × Str)
  | [] => none
  | a :: rest =>
    match digitVal a with
    | none => none
    | some x =>
      match rest with
      | b :: rest2 =>
        match digitVal b with
        | some y => some (10 * x + y, rest2)
        | none => some (x, rest)
      | [] => some (x, rest)

/-- The four-digit year of layout element `2006`. -/
def getYear : Str → Option (Nat × Str)
  | a :: b :: c :: d :: rest =>
    match digitVal a, digitVal b, digitVal c, digitVal d with
    | some w, some x, some y, some z => some (1000 * w + 100 * x + 10 * y + z, rest)
    | _, _, _, _ => none
  | _ => none

/-- Consume one expected literal character of the layout. -/
def expectChar (c : Char) : Str → Option Str
  | a :: rest => if a = c then some rest else none
  | [] => none

/-- Layout element `.999999999`: an optional fraction, introduced by `.` or `,`
and holding at least one digit; digits beyond the ninth are dropped.  Returns
the nanoseconds and the unread input. -/
def getFraction (s : Str) : Nat × Str :=
  match s with
  | sep :: d :: rest =>
    if (sep = '.' ∨ sep = ',') ∧ (digitVal d).isSome then
      let digits := (d :: rest).takeWhile (fun c => (digitVal c).isSome)
      let nine := (digits ++ List.replicate 9 '0').take 9
      (nine.foldl (fun acc c => 10 * acc + (digitVal c).getD 0) 0,
        (d :: rest).dropWhile (fun c => (digitVal c).isSome))
    else (0, s)
  | _ => (0, s)

/-- Layout element `Z07:00`: `Z`, or a sign, two digits, a colon and two digits.
Returns the offset in seconds east of UTC and the unread input. -/
def getZone (s : Str) : Option (Int × Str) :=
  match s with
  | 'Z' :: rest => some (0, rest)
  | sign :: h1 :: h2 :: colon :: m1 :: m2 :: rest =>
    if colon ≠ ':' then none
    else
      match getnum2 [h1, h2], getnum2 [m1, m2] with
      | some (hr, _), some (mm, _) =>
        if hr > 24 ∨ mm > 60 then none
        else if sign = '+' then some (((hr * 60 + mm) * 60 : Nat), rest)
        else if sign = '-' then some (-(((hr * 60 + mm) * 60 : Nat) : Int), rest)
        else none
      | _, _ => none
  | _ => none

/-- Gregorian leap-year rule. -/
def isLeap (year : Int) : Bool :=
  year % 4 == 0 && (year % 100 != 0 || year % 400 == 0)

/-- Number of days in a month (`1 ≤ month ≤ 12`). -/
def daysIn (month : Nat) (year : Int) : Nat :=
  if month = 2 then (if isLeap year then 29 else 28)
  else if month = 4 ∨ month = 6 ∨ month = 9 ∨ month = 11 then 30
  else 31

/-- Days from `0001-01-01` to the first day of the given month of the given year. -/
def daysBefore (year : Int) (month : Nat) : Int :=
  let y : Int := year - 1
  365 * y + y / 4 - y / 100 + y / 400 +
    (((List.range (month - 1)).map (fun m => daysIn (m + 1) year)).sum : Nat)

/-- Go `time.Parse(time.RFC3339Nano, value)`, following the layout
`2006-01-02T15:04:05.999999999Z07:00` element by element; `none` is a parse
error. -/
def parseRFC3339Nano (value : Str) : Option Time := do
  let (year, s) ← getYear value
  let s ← expectChar '-' s
  let (month, s) ← getnum2 s
  if month = 0 ∨ 12 < month then none
  let s ← expectChar '-' s
  let (day, s) ← getnum2 s
  let s ← expectChar 'T' s
  let (hour, s) ← getnum1 s
  if 24 ≤ hour then none
  let s ← expectChar ':' s
  let (min, s) ← getnum2 s
  if 60 ≤ min then none
  let s ← expectChar ':' s
  let (sec, s) ← getnum2 s
  if 60 ≤ sec then none
  let (frac, s) := getFraction s
  let (zone, s) ← getZone s
  if s ≠ [] then none
  if day < 1 ∨ daysIn month year < day then none
  let days : Int := daysBefore year month + ((day - 1 : Nat) : Int)
  let secs : Int := days * 86400 + ((hour * 3600 + min * 60 + sec : Nat) : Int) - zone
  some { nsec := secs * 1000000000 + (frac : Int), offset := zone }

/-- Decimal digits of a number, left-padded with zeros to the given width. -/
def padNat (width n : Nat) : Str :=
  let ds := (Nat.toDigits 10 n)
  List.replicate (width - ds.length) '0' ++ ds

/-- The year (counted from year 1) and the day within it of a day number counted
from `0001-01-01`. -/
def yearOfDays (days : Int) : Int × Nat :=
  let n400 := days / 146097
  let r := (days % 146097).toNat
  let n100 := min (r / 36524) 3
  let r := r - n100 * 36524
  let n4 := r / 1461
  let r := r - n4 * 1461
  let n1 := min (r / 365) 3
  (400 * n400 + ((100 * n100 + 4 * n4 + n1 + 1 : Nat) : Int), r - n1 * 365)

/-- The month and day of the month of the `yday`-th day (from 0) of a year,
searching from month `month` on. -/
def monthOfYday (year : Int) : Nat → Nat → Nat → Nat × Nat
  | 0, month, yday => (month, yday + 1)
  | fuel + 1, month, yday =>
    if yday < daysIn month year then (month, yday + 1)
    else monthOfYday year fuel (month + 1) (yday - daysIn month year)

/-- The fraction of layout element `.999999999`: nothing for zero, else a period
and nine digits without the trailing zeros. -/
def formatFraction (nanos : Nat) : Str :=
  if nanos = 0 then []
  else '.' :: (padNat 9 nanos).rdropWhile (· == '0')

/-- The zone of layout element `Z07:00`: `Z` for offset zero, else sign, hours,
colon, minutes. -/
def formatZone (offset : Int) : Str :=
  let zone := offset.tdiv 60
  if offset = 0 then ['Z']
  else
    (if zone < 0 then '-' else '+') ::
      (padNat 2 (zone.natAbs / 60) ++ [':'] ++ padNat 2 (zone.natAbs % 60))

/-- Go `t.Format(time.RFC3339Nano)`. -/
def formatRFC3339Nano (t : Time) : Str :=
  let loc := t.nsec + t.offset * 1000000000
  let secs := loc / 1000000000
  let nanos := (loc % 1000000000).toNat
  let days := secs / 86400
  let rem := (secs % 86400).toNat
  let (year, yday) := yearOfDays days
  let (month, day) := monthOfYday year 11 1 yday
  (if year < 0 then '-' :: padNat 4 year.natAbs else padNat 4 year.natAbs) ++ ['-'] ++
    padNat 2 month ++ ['-'] ++ padNat 2 day ++ ['T'] ++
    padNat 2 (rem / 3600) ++ [':'] ++ padNat 2 (rem % 3600 / 60) ++ [':'] ++
    padNat 2 (rem % 60) ++ formatFraction nanos ++ formatZone t.offset

/-! ## `client/discover.go`: cursor filtering -/

/-- The source's `filterObjectsByCursor`: objects with `LastModified` strictly
after the cursor; for a zero cursor all objects.  `parse` stands for
`time.Parse(time.RFC3339Nano, ·)`. -/
def filterObjectsByCursor (parse : Str → Option Time) (objects : List S3Object)
    (cursor : Time) : List S3Object :=
  if cursor.IsZero then objects
  else
    objects.foldl (fun filtered obj =>
      match parse obj.LastModified with
      | none => filtered ++ [obj]
      | some t => if t.After cursor then filtered ++ [obj] else filtered) []

/-- The source's `maxLastModified`: the maximum `LastModified` of a list of
objects, starting from the zero time and skipping values that do not parse. -/
def maxLastModified (parse : Str → Option Time) (objects : List S3Object) : Time :=
  objects.foldl (fun max obj =>
    match parse obj.LastModified with
    | none => max
    | some t => if t.After max then t else max) Time.zero

/-! ## Errors, messages and collaborators -/

/-- A Go `error` as the source inspects it: whether `errors.As` finds a
`*types.NoSuchKey` in its chain, and its `Error()` text. -/
structure Err where
  IsNoSuchKey : Bool
  Msg : Str
  deriving DecidableEq, Repr, Inhabited

/-- Go `fmt.Errorf(pfx + "%w", err)`: the text gets a prefix, the chain is kept. -/
def Err.wrap (pfx : Str) (e : Err) : Err :=
  { IsNoSuchKey := e.IsNoSuchKey, Msg := pfx ++ e.Msg }

/-- The errors `discover` returns. -/
inductive DiscoverError where
  /-- Text `failed to list objects: %w`. -/
  | listObjects (cause : Err)
  /-- Text `failed to read schema from <key>: %w`. -/
  | readSchema (key : Str) (cause : Err)
  /-- Text `schema mismatch in table <table>: file <file1> has <fields1>, file <file2>
  has <fields2>`. -/
  | schemaMismatch (table file1 : Str) (fields1 : List Field) (file2 : Str)
      (fields2 : List Field)
  deriving DecidableEq, Repr, Inhabited

/-- The errors `syncTables` returns. -/
inductive SyncError where
  /-- Text `failed to initialize state backend: %w`. -/
  | stateBackend (cause : Err)
  /-- Text `discovery failed: %w`. -/
  | discovery (cause : DiscoverError)
  /-- Text `failed to filter tables: %w`. -/
  | filterTables (cause : Err)
  /-- The context's error, returned as it is. -/
  | context (cause : Err)
  /-- Text `failed to sync table <name>: %w`. -/
  | table (name : Str) (cause : Err)
  deriving DecidableEq, Repr, Inhabited

/-- An Arrow record batch handed to the sink. -/
structure RecordBatch where
  Key : Str
  NumRows : Nat
  deriving DecidableEq, Repr, Inhabited

/-- SDK `message.SyncMessage`: the two variants the source emits. -/
inductive SyncMessage where
  | migrateTable (table : Table)
  | insert (record : RecordBatch)
  deriving DecidableEq, Repr, Inhabited

/-- The observable effects of a sync, in the order they happen: a message sent on
`res`, or a call `SetCursor(ctx, stateClient, bucket, tableName, cursor)`. -/
inductive Effect where
  | send (msg : SyncMessage)
  | setCursor (tableName : Str) (cursor : Time)
  deriving DecidableEq, Repr, Inhabited

/-- The key-value state backend: the stored pairs, latest first. -/
abbrev Store := List (Str × Str)

/-- The value `GetKey` finds for a key, the empty string if there is none. -/
def Store.get (s : Store) (key : Str) : Str :=
  (s.lookup key).getD []

/-- The store after a successful `SetKey`. -/
def Store.set (s : Store) (key value : Str) : Store :=
  (key, value) :: s

/-- The client's configuration and its external collaborators. -/
structure Env where
  /-- Field `c.spec.Bucket`. -/
  Bucket : Str
  /-- Field `c.spec.Concurrency`. -/
  Concurrency : Int
  /-- Go `time.Parse(time.RFC3339Nano, ·)`; `none` is a parse error. -/
  parse : Str → Option Time
  /-- Go `t.Format(time.RFC3339Nano)`. -/
  format : Time → Str
  /-- Go `unicode.ToLower` on the runes above ASCII (the Unicode case tables). -/
  lowerRune : Char → Char
  /-- Result of `c.listObjects(ctx)`. -/
  listObjects : Except Err (List S3Object)
  /-- Result of `c.readParquetSchema(ctx, key)`. -/
  readParquetSchema : Str → Except Err Schema
  /-- Result of `allTables.FilterDfs(options.Tables, options.SkipTables, ...)`. -/
  filterDfs : List Table → Except Err (List Table)
  /-- Result of `c.streamRecords(ctx, key, ...)`: the batches it delivers and the error it
  ends with. -/
  streamRecords : Str → List RecordBatch × Option Err
  /-- What the goroutine pool of `syncTableObjects` (concurrency other than 1) is
  observed to do for a list of objects: the batches sent on `res`, in the order
  of arrival, and the error returned. -/
  poolRun : List S3Object → List RecordBatch × Option Err
  /-- The error of `stateClient.GetKey` for a key, if it fails. -/
  getKeyErr : Str → Option Err
  /-- The error of `stateClient.SetKey` for a key, if it fails. -/
  setKeyErr : Str → Option Err
  /-- Value of `ctx.Err()` at the start of the `i`-th iteration of the table loop. -/
  ctxErr : Nat → Option Err
  /-- The error of `state.NewConnectedClient`, if it fails. -/
  stateClientErr : Option Err

/-! ## `client/cursor.go` -/

/-- The source's `CursorKey`: `"s3/<bucket>/<table>/last_modified_cursor"`. -/
def CursorKey (bucket tableName : Str) : Str :=
  "s3/".toList ++ bucket ++ "/".toList ++ tableName ++ "/last_modified_cursor".toList

/-- The source's `GetCursor`: the stored cursor of a table; the zero time if there
is none or it does not parse; an error only if `GetKey` fails. -/
def GetCursor (env : Env) (store : Store) (tableName : Str) : Time × Option Err :=
  let key := CursorKey env.Bucket tableName
  match env.getKeyErr key with
  | some err =>
    (Time.zero, some (err.wrap ("failed to get cursor for ".toList ++ tableName ++ ": ".toList)))
  | none =>
    let val := store.get key
    if val = [] then (Time.zero, none)
    else
      match env.parse val with
      | none => (Time.zero, none)
      | some t => (t, none)

/-- The source's `SetCursor`: stores the formatted cursor under the table's key. -/
def SetCursor (env : Env) (store : Store) (tableName : Str) (cursor : Time) :
    Store × Option Err :=
  let key := CursorKey env.Bucket tableName
  match env.setKeyErr key with
  | some err => (store, some err)
  | none => (store.set key (env.format cursor), none)

/-! ## `client/discover.go`: discovery -/

/-- The validation loop of `discover` over the members after the first: each
schema is read and compared with the schema `sc` of the first file. -/
def validateMembers (env : Env) (tableName : Str) (first : S3Object) (sc : Schema) :
    List S3Object → Except DiscoverError Unit
  | [] => Except.ok ()
  | obj :: rest =>
    match env.readParquetSchema obj.Key with
    | Except.error err => Except.error (DiscoverError.readSchema obj.Key err)
    | Except.ok sc2 =>
      if !sc.Equal sc2 then
        Except.error
          (DiscoverError.schemaMismatch tableName first.Key sc.Fields obj.Key sc2.Fields)
      else validateMembers env tableName first sc rest

/-- The body of the table loop of `discover`: read the first schema, validate the
other members against it, build the CloudQuery table. -/
def resolveTable (env : Env) (dt : DiscoveredTable) : Except DiscoverError DiscoveredTable :=
  match dt.Objects with
  | [] => Except.ok dt
  | first :: rest =>
    match env.readParquetSchema first.Key with
    | Except.error err => Except.error (DiscoverError.readSchema first.Key err)
    | Except.ok sc =>
      match validateMembers env dt.Name first sc rest with
      | Except.error err => Except.error err
      | Except.ok _ =>
        let columns := sc.Fields.map newColumnFromArrowField
        let table := addCqIDs { Name := dt.Name, Columns := columns, IsIncremental := true }
        Except.ok { dt with ArrowSchema := some sc, Table := some table }

/-- The table loop of `discover`: the first error ends it. -/
def resolveTables (env : Env) : List DiscoveredTable → Except DiscoverError (List DiscoveredTable)
  | [] => Except.ok []
  | dt :: rest =>
    match resolveTable env dt with
    | Except.error err => Except.error err
    | Except.ok dt2 =>
      match resolveTables env rest with
      | Except.error err => Except.error err
      | Except.ok rest2 => Except.ok (dt2 :: rest2)

/-- The source's `discover`: lists the objects, groups them into tables, reads
and validates the schemas and builds the CloudQuery tables. -/
def discover (env : Env) : Except DiscoverError (List DiscoveredTable) :=
  match env.listObjects with
  | Except.error err => Except.error (DiscoverError.listObjects err)
  | Except.ok objects => resolveTables env (groupByPrefix objects)

/-! ## `client/sync.go` -/

/-- Go `unicode.ToLower`: an ASCII rune is lowered when it is one of `A`..`Z`
and left alone otherwise; a rune above ASCII goes through the Unicode case
tables, here `lowerRune`. -/
def toLowerRune (lowerRune : Char → Char) (c : Char) : Char :=
  if c.toNat < 128 then c.toLower else lowerRune c

/-- Go `strings.ToLower`: every rune is mapped by `unicode.ToLower`. -/
def strToLower (lowerRune : Char → Char) (s : Str) : Str :=
  s.map (toLowerRune lowerRune)

/-- Go `strings.Contains(s, substr)`. -/
def strContains (s substr : Str) : Bool :=
  decide (substr <:+: s)

/-- The source's list `malformedPatterns`. -/
def malformedPatterns : List Str :=
  ["not a parquet file".toList, "invalid parquet".toList, "parquet: invalid".toList,
    "magic number".toList, "failed to open parquet".toList]

/-- The source's `isMalformedParquetError`. -/
def isMalformedParquetError (toLower : Str → Str) (err : Option Err) : Bool :=
  match err with
  | none => false
  | some e =>
    let msg := toLower e.Msg
    malformedPatterns.any (fun pattern => strContains msg pattern)

/-- The source's `syncObject`: the batches of one object are sent as inserts; a
vanished object or a malformed file is skipped (`nil`), any other failure is
returned. -/
def syncObject (env : Env) (obj : S3Object) : List Effect × Option Err :=
  let (records, err) := env.streamRecords obj.Key
  let sent := records.map (fun rec => Effect.send (SyncMessage.insert rec))
  match err with
  | none => (sent, none)
  | some e =>
    if e.IsNoSuchKey then (sent, none)
    else if isMalformedParquetError (strToLower env.lowerRune) (some e) then (sent, none)
    else (sent, some (e.wrap ("failed to sync object ".toList ++ obj.Key ++ ": ".toList)))

/-- The sequential branch of `syncTableObjects` (`concurrency == 1`): objects one
after the other, stopping at the first error. -/
def syncSequential (env : Env) : List S3Object → List Effect × Option Err
  | [] => ([], none)
  | obj :: rest =>
    match syncObject env obj with
    | (sent, some err) => (sent, some err)
    | (sent, none) =>
      let (sent2, err2) := syncSequential env rest
      (sent ++ sent2, err2)

/-- The source's `syncTableObjects`. -/
def syncTableObjects (env : Env) (objects : List S3Object) : List Effect × Option Err :=
  if env.Concurrency = 1 then syncSequential env objects
  else
    let (records, err) := env.poolRun objects
    (records.map (fun rec => Effect.send (SyncMessage.insert rec)), err)

/-- The result of one pass: the effects in order, the state store afterwards, and
the error returned (`none` for `nil`). -/
structure SyncResult where
  effects : List Effect
  store : Store
  err : Option SyncError
  deriving DecidableEq, Repr, Inhabited

/-- The body of the table loop of `syncTables` for one table, from `GetCursor`
on. -/
def syncTable (env : Env) (store : Store) (table : Table) (dt : DiscoveredTable) :
    SyncResult :=
  let (cursor0, err) := GetCursor env store table.Name
  let cursor := if err.isSome then Time.zero else cursor0
  let objects := filterObjectsByCursor env.parse dt.Objects cursor
  let announce := Effect.send (SyncMessage.migrateTable table)
  if objects.length = 0 then
    { effects := [announce], store := store, err := none }
  else
    match syncTableObjects env objects with
    | (sent, some e) =>
      { effects := announce :: sent, store := store,
        err := some (SyncError.table table.Name e) }
    | (sent, none) =>
      let maxMod := maxLastModified env.parse objects
      if !maxMod.IsZero then
        { effects := announce :: sent ++ [Effect.setCursor table.Name maxMod],
          store := (SetCursor env store table.Name maxMod).1, err := none }
      else
        { effects := announce :: sent, store := store, err := none }

/-- The table loop of `syncTables`; `i` is the index of the iteration. -/
def syncLoop (env : Env) (tableMap : List (Str × DiscoveredTable)) :
    Nat → Store → List Table → SyncResult
  | _, store, [] => { effects := [], store := store, err := none }
  | i, store, table :: rest =>
    match env.ctxErr i with
    | some e => { effects := [], store := store, err := some (SyncError.context e) }
    | none =>
      match tableMap.lookup table.Name with
      | none => syncLoop env tableMap (i + 1) store rest
      | some dt =>
        let r := syncTable env store table dt
        match r.err with
        | some e => { effects := r.effects, store := r.store, err := some e }
        | none =>
          let r2 := syncLoop env tableMap (i + 1) r.store rest
          { effects := r.effects ++ r2.effects, store := r2.store, err := r2.err }

/-- The source's `syncTables`: discover the tables, then for each selected table
announce it, stream the objects newer than its cursor and advance the cursor. -/
def syncTables (env : Env) (store : Store) : SyncResult :=
  match env.stateClientErr with
  | some err => { effects := [], store := store, err := some (SyncError.stateBackend err) }
  | none =>
    match discover env with
    | Except.error err =>
      { effects := [], store := store, err := some (SyncError.discovery err) }
    | Except.ok tables =>
      let allTables := tables.filterMap (fun dt => dt.Table)
      let tableMap := (tables.map (fun dt => (dt.Name, dt))).reverse
      match env.filterDfs allTables with
      | Except.error err =>
        { effects := [], store := store, err := some (SyncError.filterTables err) }
      | Except.ok filtered => syncLoop env tableMap 0 store filtered

/-! ## Predicates used in the statements -/

/-- The cursor `syncTables` works with for a table: what `GetCursor` returns, or
the zero time if `GetCursor` fails. -/
def cursorFor (env : Env) (store : Store) (tableName : Str) : Time :=
  if (GetCursor env store tableName).2.isSome then Time.zero
  else (GetCursor env store tableName).1

/-- The objects of a table that `syncTables` selects for streaming. -/
def selectedObjects (env : Env) (store : Store) (table : Table) (dt : DiscoveredTable) :
    List S3Object :=
  filterObjectsByCursor env.parse dt.Objects (cursorFor env store table.Name)

/-! ## Example configuration -/

/-- The example schema `id: int64`, not nullable, without metadata. -/
def schemaId : Schema :=
  { Fields := [{ Name := "id".toList, DataType := "int64".toList, Nullable := false,
                 Metadata := [] }],
    BigEndian := false }

/-- The example schema with the field id that a Parquet round trip attaches to
the field as metadata. -/
def schemaIdTagged : Schema :=
  { Fields := [{ Name := "id".toList, DataType := "int64".toList, Nullable := false,
                 Metadata := [("PARQUET:field_id".toList, "1".toList)] }],
    BigEndian := false }

/-- An example client on bucket `b` that streams sequentially (`concurrency = 1`):
the listing, the per-key stream results and the state-backend failures are given;
every file has the schema `id: int64`, no table is filtered out, the context is
never cancelled.  Its `lowerRune` leaves the runes above ASCII as they are. -/
def exampleEnv (objects : List S3Object) (stream : Str → List RecordBatch × Option Err)
    (getKeyErr : Str → Option Err) : Env :=
  { Bucket := ['b']
    Concurrency := 1
    parse := parseRFC3339Nano
    format := formatRFC3339Nano
    lowerRune := fun c => c
    listObjects := Except.ok objects
    readParquetSchema := fun _ =>
      Except.ok schemaId
    filterDfs := fun tables => Except.ok tables
    streamRecords := stream
    poolRun := fun _ => ([], none)
    getKeyErr := getKeyErr
    setKeyErr := fun _ => none
    ctxErr := fun _ => none
    stateClientErr := none }

/-- Example object `data/a.parquet`, last modified `2024-01-01T00:00:00Z`. -/
def objA : S3Object :=
  { Key := "data/a.parquet".toList, Size := 10, LastModified := "2024-01-01T00:00:00Z".toList }

/-- Example object `data/b.parquet`, last modified `2024-06-01T00:00:00Z`. -/
def objB : S3Object :=
  { Key := "data/b.parquet".toList, Size := 20, LastModified := "2024-06-01T00:00:00Z".toList }

/-- Example object `data/c.parquet` whose `LastModified` is not a timestamp. -/
def objC : S3Object :=
  { Key := "data/c.parquet".toList, Size := 30, LastModified := "not-a-time".toList }

/-- The instant `2024-01-01T00:00:00Z`. -/
def timeA : Time :=
  { nsec := 63839664000000000000, offset := 0 }

/-- The instant `2024-06-01T00:00:00Z`. -/
def timeB : Time :=
  { nsec := 63852796800000000000, offset := 0 }

/-- A stream in which every object delivers one batch of 100 rows. -/
def streamAll (key : Str) : List RecordBatch × Option Err :=
  ([{ Key := key, NumRows := 100 }], none)

/-- A stream in which `data/b.parquet` has vanished (`NoSuchKey`) and every other
object delivers one batch of 100 rows. -/
def streamBVanished (key : Str) : List RecordBatch × Option Err :=
  if key = objB.Key then
    ([], some { IsNoSuchKey := true, Msg := "NoSuchKey: The specified key does not exist.".toList })
  else ([{ Key := key, NumRows := 100 }], none)

/-- The CloudQuery table `discover` builds for the example table `data`. -/
def tableData : Table :=
  addCqIDs { Name := "data".toList,
             Columns := [{ Name := "id".toList, DataType := "int64".toList, NotNull := true }],
             IsIncremental := true }

/-- No two adjacent characters are both underscores. -/
def NoDoubleUnderscore (s : Str) : Prop :=
  List.Chain' (fun a b => ¬(a = '_' ∧ b = '_')) s

/-- What the map `byName` holds after the objects `objs` have been processed. -/
def GroupInv (objs : List S3Object) (m : List (Str × DiscoveredTable)) : Prop :=
  (m.map Prod.fst).Nodup ∧
  (∀ e ∈ m, e.2.Name = e.1 ∧ e.1 ≠ [] ∧
    e.2.Objects = objs.filter (fun o => Normalize o.Key = e.1)) ∧
  (∀ o ∈ objs, Normalize o.Key ≠ [] → Normalize o.Key ∈ m.map Prod.fst)

/-- The discovered table `data` holding the two example objects. -/
def dtData : DiscoveredTable :=
  { Name := "data".toList, Prefix := "data/".toList, Objects := [objA, objB],
    ArrowSchema := some schemaId,
    Table := some tableData }

/-- A state store holding the cursor `2024-01-01T00:00:00Z` for table `data` of
bucket `b`. -/
def storeA : Store :=
  [("s3/b/data/last_modified_cursor".toList, "2024-01-01T00:00:00Z".toList)]

/-- A state store holding the cursor `2024-06-01T00:00:00Z` for table `data` of
bucket `b`. -/
def storeB : Store :=
  [("s3/b/data/last_modified_cursor".toList, "2024-06-01T00:00:00Z".toList)]

/-- The example client with both example objects listed and every object
streaming one batch. -/
def envAll : Env :=
  exampleEnv [objA, objB] streamAll (fun _ => none)

/-- The example client in which `data/b.parquet` carries the Parquet field id as
field metadata and every other file carries none. -/
def envTagged : Env :=
  { envAll with
    readParquetSchema := fun key =>
      if key = objB.Key then Except.ok schemaIdTagged else Except.ok schemaId }

/-- The example client with both example objects listed, of which
`data/b.parquet` has vanished before it is read. -/
def envBVanished : Env :=
  exampleEnv [objA, objB] streamBVanished (fun _ => none)

/-- The selection rule of `filterObjectsByCursor` for a non-zero cursor: an
object is kept if its `LastModified` does not parse or is after the cursor. -/
def keptByCursor (parse : Str → Option Time) (cursor : Time) (obj : S3Object) : Bool :=
  match parse obj.LastModified with
  | none => true
  | some t => t.After cursor

/-- The loop of `maxLastModified` started from an arbitrary `max`. -/
def maxFrom (parse : Str → Option Time) (init : Time) (objects : List S3Object) : Time :=
  objects.foldl (fun max obj =>
    match parse obj.LastModified with
    | none => max
    | some t => if t.After max then t else max) init

/-- The map `tableMap` that `syncTables` builds from the discovered tables; for a
repeated name the later table wins. -/
def tableMapOf (tables : List DiscoveredTable) : List (Str × DiscoveredTable) :=
  (tables.map (fun dt => (dt.Name, dt))).reverse

/-- Example object `logs/x.parquet`, last modified `2024-03-01T00:00:00Z`. -/
def objX : S3Object :=
  { Key := "logs/x.parquet".toList, Size := 40, LastModified := "2024-03-01T00:00:00Z".toList }

/-- A stream in which reading `data/b.parquet` fails with a connection timeout and
every other object delivers one batch of 100 rows. -/
def streamBFatal (key : Str) : List RecordBatch × Option Err :=
  if key = objB.Key then
    ([], some { IsNoSuchKey := false, Msg := "connection timeout".toList })
  else ([{ Key := key, NumRows := 100 }], none)

/-- The example client with the objects of the tables `data` and `logs` listed,
of which `data/b.parquet` cannot be read. -/
def envBFatal : Env :=
  exampleEnv [objA, objB, objX] streamBFatal (fun _ => none)

/-- The CloudQuery table `discover` builds for the example table `logs`. -/
def tableLogs : Table :=
  addCqIDs { Name := "logs".toList,
             Columns := [{ Name := "id".toList, DataType := "int64".toList, NotNull := true }],
             IsIncremental := true }

/-- The discovered table `logs` holding the example object `logs/x.parquet`. -/
def dtLogs : DiscoveredTable :=
  { Name := "logs".toList, Prefix := "logs/".toList, Objects := [objX],
    ArrowSchema := some schemaId,
    Table := some tableLogs }

/-- The four corruption signatures the specification names. -/
def knownSignatures : List Str :=
  ["not a parquet file".toList, "invalid parquet".toList, "magic number".toList,
    "failed to open parquet".toList]

/-- The message contains the signature in some letter case: a piece of the
message becomes the signature when its letters `A`..`Z` are lowered. -/
def containsAnyCase (msg sig : Str) : Prop :=
  ∃ w, w <:+: msg ∧ w.map Char.toLower = sig

/-- A decoder failure whose text starts with `parquet: invalid`. -/
def errFooter : Err :=
  { IsNoSuchKey := false, Msg := "parquet: invalid footer length".toList }

/-- A decoder failure with a signature in upper case. -/
def errMagic : Err :=
  { IsNoSuchKey := false, Msg := "Bad MAGIC Number in file".toList }

/-- A failure that is neither a vanished object nor a malformed file. -/
def errTimeout : Err :=
  { IsNoSuchKey := false, Msg := "connection timeout".toList }

/-- The example client in which reading any object ends with the given error. -/
def envFailing (err : Err) : Env :=
  exampleEnv [objA] (fun _ => ([], some err)) (fun _ => none)

/-- The file name with only its final extension removed: the text before the last
`.` if there is one, else the whole name. -/
def stripFinalExt (name : Str) : Str :=
  if '.' ∈ name then (name.rdropWhile (· != '.')).dropLast else name
/-- An ASCII letter or digit. -/
def isAlnum (c : Char) : Bool :=
  ('a' ≤ c && c ≤ 'z') || ('A' ≤ c && c ≤ 'Z') || ('0' ≤ c && c ≤ '9')

/-- Example object whose key, two hyphens, a slash and `__.--`, has no letter and
no digit. -/
def objNoName : S3Object :=
  { Key := "--/__.--".toList, Size := 1, LastModified := "2024-01-01T00:00:00Z".toList }

/-- Example object last modified `0000-06-01T00:00:00Z`, before the zero time. -/
def objY : S3Object :=
  { Key := "data/y.parquet".toList, Size := 50, LastModified := "0000-06-01T00:00:00Z".toList }

/-! ## `client/spec.go` -/

/-- The source's `Spec`: the user-facing configuration of the plugin. -/
structure Spec where
  Bucket : Str
  Region : Str
  LocalProfile : Str
  PathPrefix : Str
  FileType : Str
  RowsPerRecord : Int
  Concurrency : Int
  Endpoint : Str
  PathStyle : Bool
  deriving DecidableEq, Repr, Inhabited

/-- The source's `Spec.SetDefaults`: default values for the optional fields that
hold their zero value. -/
def Spec.SetDefaults (s : Spec) : Spec :=
  let s1 := if s.FileType = [] then { s with FileType := "parquet".toList } else s
  let s2 := if s1.RowsPerRecord = 0 then { s1 with RowsPerRecord := 500 } else s1
  if s2.Concurrency = 0 then { s2 with Concurrency := 50 } else s2

/-- The errors `Spec.Validate` returns. -/
inductive ValidateError where
  /-- Text `bucket is required`. -/
  | bucketRequired
  /-- Text `region is required`. -/
  | regionRequired
  /-- Text `unsupported filetype: <filetype>; supported: parquet`. -/
  | unsupportedFiletype (fileType : Str)
  /-- Text `rows_per_record must be at least 1`. -/
  | rowsPerRecord
  deriving DecidableEq, Repr, Inhabited

/-- The source's `Spec.Validate`: `none` is `nil`. -/
def Spec.Validate (s : Spec) : Option ValidateError :=
  if s.Bucket = [] then some ValidateError.bucketRequired
  else if s.Region = [] then some ValidateError.regionRequired
  else if s.FileType ≠ "parquet".toList then some (ValidateError.unsupportedFiletype s.FileType)
  else if s.RowsPerRecord < 1 then some ValidateError.rowsPerRecord
  else none

/-! ## `client/parquet.go`: how a streaming failure is reported -/

/-- The step of `streamRecords` (or of `downloadToTemp`, which it calls first) at
which an underlying failure occurs. -/
inductive StreamStage where
  /-- Call `GetObject`: text `failed to download <key>: %w`. -/
  | download
  /-- Call `os.CreateTemp`: text `failed to create temp file: %w`. -/
  | createTemp
  /-- Call `io.Copy`: text `failed to write temp file for <key>: %w`. -/
  | writeTemp
  /-- Call `tmpFile.Seek`: text `failed to seek temp file for <key>: %w`. -/
  | seekTemp
  /-- Call `file.OpenParquetFile`: text `failed to open parquet file <key>: %w`. -/
  | openParquet
  /-- Call `pqarrow.NewFileReader`: text `failed to create arrow reader for <key>: %w`. -/
  | newFileReader
  /-- Call `reader.GetRecordReader`: text `failed to get record reader for <key>: %w`. -/
  | getRecordReader
  /-- Error of `rr.Err()`: text `error reading records from <key>: %w`. -/
  | readRecords
  /-- The context was cancelled while a batch was handed over: `ctx.Err()` as it is. -/
  | cancelled
  deriving DecidableEq, Repr, Inhabited

/-- The error `streamRecords` returns for an underlying failure `cause` at the
given step while reading the object `key`. -/
def streamFailure (stage : StreamStage) (key : Str) (cause : Err) : Err :=
  match stage with
  | StreamStage.download => cause.wrap ("failed to download ".toList ++ key ++ ": ".toList)
  | StreamStage.createTemp => cause.wrap "failed to create temp file: ".toList
  | StreamStage.writeTemp =>
    cause.wrap ("failed to write temp file for ".toList ++ key ++ ": ".toList)
  | StreamStage.seekTemp =>
    cause.wrap ("failed to seek temp file for ".toList ++ key ++ ": ".toList)
  | StreamStage.openParquet =>
    cause.wrap ("failed to open parquet file ".toList ++ key ++ ": ".toList)
  | StreamStage.newFileReader =>
    cause.wrap ("failed to create arrow reader for ".toList ++ key ++ ": ".toList)
  | StreamStage.getRecordReader =>
    cause.wrap ("failed to get record reader for ".toList ++ key ++ ": ".toList)
  | StreamStage.readRecords =>
    cause.wrap ("error reading records from ".toList ++ key ++ ": ".toList)
  | StreamStage.cancelled => cause

/-- The source's `streamRecords` in terms of what happens underneath: for each
key the batches delivered and, if it fails, the step and the underlying
failure. -/
def streamRecordsOf (outcome : Str → List RecordBatch × Option (StreamStage × Err))
    (key : Str) : List RecordBatch × Option Err :=
  ((outcome key).1, (outcome key).2.map (fun f => streamFailure f.1 key f.2))

/-- The example client in which reading any object fails at the given step with
the given underlying failure. -/
def envStage (stage : StreamStage) (cause : Err) : Env :=
  exampleEnv [objA] (streamRecordsOf (fun _ => ([], some (stage, cause)))) (fun _ => none)

/-- Example object whose key starts with the words `invalid parquet`. -/
def objTricky : S3Object :=
  { Key := "invalid parquet/a.parquet".toList, Size := 10,
    LastModified := "2024-01-01T00:00:00Z".toList }

/-- The `width` low decimal digits of a number, most significant first. -/
def digitsW : Nat → Nat → Str
  | 0, _ => []
  | width + 1, n => digitsW width (n / 10) ++ [Nat.digitChar (n % 10)]

/-- The instant `2024-06-01T00:00:00.123Z` in a zone five and a half hours east
of UTC, which prints as `2024-06-01T05:30:00.123+05:30`. -/
def timeZoned : Time :=
  { nsec := 63852796800123000000, offset := 19800 }

/-- The instant `10000-01-01T00:00:00Z`, the first of year 10000. -/
def timeYear10000 : Time :=
  { nsec := 315537897600000000000, offset := 0 }

/-- The local time `0000-01-01T00:00:00` in a zone 24 hours east of UTC, which
prints as `0000-01-01T00:00:00+24:00`. -/
def timeYear0 : Time :=
  { nsec := -31708800000000000, offset := 86400 }

/-! # Theorems -/

/-! ## Properties of name sanitising -/

theorem isNameChar_of_mem_replaceInvalidChars (s : Str) (c : Char)
    (h : c ∈ replaceInvalidChars s) : isNameChar c = true := by
  unfold replaceInvalidChars at h
  obtain ⟨a, _, rfl⟩ := List.mem_map.1 h
  by_cases ha : isNameChar a = true
  · simp [ha]
  · simp only [ha]
    exact (by decide : isNameChar '_' = true)

theorem collapseUnderscores_head (x : Char) (xs : Str) :
    ∃ tl, collapseUnderscores (x :: xs) = x :: tl := by
  induction xs generalizing x with
  | nil => exact ⟨[], rfl⟩
  | cons d rest ih =>
    by_cases h : x = '_' ∧ d = '_'
    · obtain ⟨tl, htl⟩ := ih d
      refine ⟨tl, ?_⟩
      rw [collapseUnderscores, if_pos h, htl, h.1, h.2]
    · exact ⟨collapseUnderscores (d :: rest), by rw [collapseUnderscores, if_neg h]⟩

theorem collapseUnderscores_sublist (s : Str) : (collapseUnderscores s).Sublist s := by
  induction s with
  | nil => exact List.Sublist.refl _
  | cons c rest ih =>
    cases rest with
    | nil => exact List.Sublist.refl _
    | cons d rest =>
      by_cases h : c = '_' ∧ d = '_'
      · rw [collapseUnderscores, if_pos h]
        exact ih.cons c
      · rw [collapseUnderscores, if_neg h]
        exact ih.cons₂ c

theorem collapseUnderscores_noDouble (s : Str) : NoDoubleUnderscore (collapseUnderscores s) := by
  unfold NoDoubleUnderscore
  induction s with
  | nil => exact List.chain'_nil
  | cons c rest ih =>
    cases rest with
    | nil => exact List.chain'_singleton c
    | cons d rest =>
      by_cases h : c = '_' ∧ d = '_'
      · rw [collapseUnderscores, if_pos h]
        exact ih
      · rw [collapseUnderscores, if_neg h]
        obtain ⟨tl, htl⟩ := collapseUnderscores_head d rest
        rw [htl] at ih ⊢
        exact List.chain'_cons.2 ⟨h, ih⟩

theorem noDouble_iff_no_pair (s : Str) :
    NoDoubleUnderscore s ↔ ¬ ['_', '_'] <:+: s := by
  unfold NoDoubleUnderscore
  induction s with
  | nil => simp
  | cons a rest ih =>
    cases rest with
    | nil =>
      simp only [List.chain'_singleton, true_iff]
      rintro ⟨p, q, h⟩
      have := congrArg List.length h
      simp at this
      omega
    | cons b rest =>
      rw [List.chain'_cons, ih]
      constructor
      · rintro ⟨hab, hrest⟩ ⟨p, q, h⟩
        cases p with
        | nil =>
          simp at h
          exact hab ⟨h.1.symm, h.2.1.symm⟩
        | cons x p =>
          simp at h
          exact hrest ⟨p, q, by simpa using h.2⟩
      · intro hn
        refine ⟨?_, ?_⟩
        · rintro ⟨rfl, rfl⟩
          exact hn ⟨[], rest, by simp⟩
        · rintro ⟨p, q, h⟩
          exact hn ⟨a :: p, q, by simp [← h]⟩

theorem trimUnderscores_within (s : Str) : trimUnderscores s <:+: s :=
  (List.rdropWhile_prefix _ _).isInfix.trans (List.dropWhile_suffix _).isInfix

theorem trimUnderscores_head (s : Str) : (trimUnderscores s).head? ≠ some '_' := by
  unfold trimUnderscores
  intro h
  obtain ⟨q, hq⟩ := List.rdropWhile_prefix (· == '_') (s.dropWhile (· == '_'))
  cases hr : List.rdropWhile (· == '_') (s.dropWhile (· == '_')) with
  | nil => rw [hr] at h; simp at h
  | cons a r =>
    rw [hr] at h hq
    simp at h
    subst h
    have h2 := List.head?_dropWhile_not (· == '_') s
    rw [← hq] at h2
    simp at h2
  
theorem trimUnderscores_getLast (s : Str) : (trimUnderscores s).getLast? ≠ some '_' := by
  unfold trimUnderscores
  intro h
  by_cases hne : List.rdropWhile (· == '_') (s.dropWhile (· == '_')) = []
  · rw [hne] at h; simp at h
  · have h2 := List.rdropWhile_last_not (· == '_') (s.dropWhile (· == '_')) hne
    rw [List.getLast?_eq_getLast _ hne] at h
    simp at h
    rw [h] at h2
    simp at h2

theorem pathClean_ne_nil (p : Str) : pathClean p ≠ [] := by
  unfold pathClean
  by_cases hp : p = []
  · simp [hp]
  · simp only [hp, if_false]
    generalize (if (p.head? == some '/') = true then cleanLoop true p.length p.tail ['/'] 1
      else cleanLoop false p.length p [] 0) = out
    by_cases ho : out.length = 0
    · simp [ho]
    · simp only [ho, if_false]
      intro h
      exact ho (by simp [h])

theorem rdropWhile_append_of_all (p : Char → Bool) (l f : Str) (hf : ∀ c ∈ f, p c = true) :
    (l ++ f).rdropWhile p = l.rdropWhile p := by
  unfold List.rdropWhile
  rw [List.reverse_append, List.dropWhile_append_of_pos]
  intro a ha
  exact hf a (List.mem_reverse.1 ha)

/-- For a key made of a directory part ending in `/` and a non-empty file name,
`path.Split` returns the directory part and the key is not taken for a directory. -/
theorem rawName_dir_file (d f : Str) (hd : d.getLast? = some '/') (hf : f ≠ [])
    (hs : '/' ∉ f) (hclean : pathClean d ≠ ['.']) : rawName (d ++ f) = pathClean d := by
  have hlast : ∀ h : d ++ f ≠ [], (d ++ f).getLast h ≠ '/' := by
    intro h
    rw [List.getLast_append_of_ne_nil hf]
    intro h2
    exact hs (h2 ▸ List.getLast_mem hf)
  have hne : d ++ f ≠ [] := by simp [hf]
  have h1 : hasSuffixSlash (d ++ f) = false := by
    unfold hasSuffixSlash
    rw [List.getLast?_eq_getLast _ hne]
    simpa using hlast hne
  have h2 : trimRightSlash (d ++ f) = d ++ f := by
    unfold trimRightSlash
    rw [List.rdropWhile_eq_self_iff]
    intro h
    simpa using hlast h
  have h3 : (pathSplit (d ++ f)).1 = d := by
    unfold pathSplit
    simp only
    rw [rdropWhile_append_of_all, List.rdropWhile_eq_self_iff]
    · intro h
      have : d.getLast h = '/' := by
        rw [List.getLast?_eq_getLast _ h] at hd
        simpa using hd
      simp [this]
    · intro c hc
      have : c ≠ '/' := fun h => hs (h ▸ hc)
      simpa using this
  unfold rawName
  simp only [h1, h2, pathDir, h3, hclean, pathClean_ne_nil, or_self, if_false, Bool.false_eq_true]

/-! ## Order lemmas for Go string comparison -/

theorem strLt_irrefl (a : Str) : strLt a a = false := by
  induction a with
  | nil => rfl
  | cons x xs ih => simp [strLt, ih]

theorem strLt_asymm (a b : Str) (h : strLt a b = true) : strLt b a = false := by
  induction a generalizing b with
  | nil => cases b <;> simp [strLt]
  | cons x xs ih =>
    cases b with
    | nil => simp [strLt] at h
    | cons y ys =>
      simp only [strLt] at h ⊢
      by_cases h1 : x.toNat < y.toNat
      · have h2 : ¬ y.toNat < x.toNat := by omega
        simp [h1, h2]
      · by_cases h2 : y.toNat < x.toNat
        · simp [h1, h2] at h
        · simp only [h1, h2, if_false] at h ⊢
          exact ih ys h

theorem strLt_trans (a b c : Str) (hab : strLt a b = true) (hbc : strLt b c = true) :
    strLt a c = true := by
  induction a generalizing b c with
  | nil =>
    cases c with
    | nil => cases b <;> simp [strLt] at hab hbc
    | cons z zs => rfl
  | cons x xs ih =>
    cases b with
    | nil => simp [strLt] at hab
    | cons y ys =>
      cases c with
      | nil => simp [strLt] at hbc
      | cons z zs =>
        simp only [strLt] at hab hbc ⊢
        by_cases h1 : x.toNat < y.toNat
        · by_cases h3 : y.toNat < z.toNat
          · have : x.toNat < z.toNat := by omega
            simp [this]
          · by_cases h4 : z.toNat < y.toNat
            · simp [h3, h4] at hbc
            · have : x.toNat < z.toNat := by omega
              simp [this]
        · by_cases h2 : y.toNat < x.toNat
          · simp [h1, h2] at hab
          · simp only [h1, h2, if_false] at hab
            by_cases h3 : y.toNat < z.toNat
            · have : x.toNat < z.toNat := by omega
              simp [this]
            · by_cases h4 : z.toNat < y.toNat
              · simp [h3, h4] at hbc
              · simp only [h3, h4, if_false] at hbc
                have e1 : ¬ x.toNat < z.toNat := by omega
                have e2 : ¬ z.toNat < x.toNat := by omega
                simp only [e1, e2, if_false]
                exact ih ys zs hab hbc

theorem strLt_connex (a b : Str) (hab : strLt a b = false) (hba : strLt b a = false) :
    a = b := by
  induction a generalizing b with
  | nil => cases b with
    | nil => rfl
    | cons y ys => simp [strLt] at hab
  | cons x xs ih =>
    cases b with
    | nil => simp [strLt] at hba
    | cons y ys =>
      simp only [strLt] at hab hba
      by_cases h1 : x.toNat < y.toNat
      · simp [h1] at hab
      · by_cases h2 : y.toNat < x.toNat
        · simp [h2] at hba
        · simp only [h1, h2, if_false] at hab hba
          have hxy : x = y := by
            apply Char.ext
            apply UInt32.ext
            show x.toNat = y.toNat
            omega
          rw [hxy, ih ys hab hba]

instance : IsTotal DiscoveredTable nameLe where
  total a b := by
    unfold nameLe
    cases h : strLt b.Name a.Name with
    | false => exact Or.inl rfl
    | true => exact Or.inr (strLt_asymm _ _ h)

instance : IsTrans DiscoveredTable nameLe where
  trans a b c hab hbc := by
    unfold nameLe at *
    cases h : strLt c.Name a.Name with
    | false => rfl
    | true =>
      -- c < a, ¬ b < a, ¬ c < b
      cases h2 : strLt a.Name b.Name with
      | true =>
        have := strLt_trans _ _ _ h h2
        rw [this] at hbc
        exact absurd hbc (by simp)
      | false =>
        have e := strLt_connex _ _ h2 hab
        rw [e] at h
        rw [h] at hbc
        exact absurd hbc (by simp)

/-! ## The grouping invariant -/

theorem groupInv_nil : GroupInv [] [] := by
  refine ⟨List.nodup_nil, ?_, ?_⟩ <;> simp

theorem groupInv_step (objs : List S3Object) (m : List (Str × DiscoveredTable))
    (o : S3Object) (h : GroupInv objs m) : GroupInv (objs ++ [o]) (groupStep m o) := by
  obtain ⟨hnd, hent, hcov⟩ := h
  unfold groupStep
  by_cases hname : Normalize o.Key = []
  · simp only [hname, if_true]
    refine ⟨hnd, ?_, ?_⟩
    · intro e he
      obtain ⟨h1, h2, h3⟩ := hent e he
      refine ⟨h1, h2, ?_⟩
      have : ¬ (Normalize o.Key = e.1) := by rw [hname]; exact fun h => h2 h.symm
      rw [List.filter_append, h3]
      simp [this]
    · intro o2 ho2 hne
      rcases List.mem_append.1 ho2 with h | h
      · exact hcov o2 h hne
      · simp at h; subst h; exact absurd hname hne
  · simp only [hname, if_false]
    cases hl : List.lookup (Normalize o.Key) m with
    | some v =>
      simp only
      have hkeys : (m.map (fun e => if e.1 = Normalize o.Key then
          (e.1, { e.2 with Objects := e.2.Objects ++ [o] }) else e)).map Prod.fst
          = m.map Prod.fst := by
        rw [List.map_map]
        refine List.map_congr_left (fun e _ => ?_)
        simp only [Function.comp]
        split <;> rfl
      have hmem : Normalize o.Key ∈ m.map Prod.fst := by
        have := List.lookup_eq_some_iff.1 hl
        obtain ⟨l1, l2, rfl, _⟩ := this
        simp
      refine ⟨hkeys ▸ hnd, ?_, ?_⟩
      · intro e he
        obtain ⟨e0, he0, rfl⟩ := List.mem_map.1 he
        obtain ⟨h1, h2, h3⟩ := hent e0 he0
        by_cases hk : e0.1 = Normalize o.Key
        · simp only [hk, if_true]
          refine ⟨by rw [← hk]; exact h1, hname, ?_⟩
          rw [List.filter_append, h3, hk]
          simp
        · simp only [hk, if_false]
          refine ⟨h1, h2, ?_⟩
          rw [List.filter_append, h3]
          have : ¬ (Normalize o.Key = e0.1) := fun h => hk h.symm
          simp [this]
      · intro o2 ho2 hne
        rw [hkeys]
        rcases List.mem_append.1 ho2 with h | h
        · exact hcov o2 h hne
        · simp at h; subst h; exact hmem
    | none =>
      simp only
      have hnot : Normalize o.Key ∉ m.map Prod.fst := by
        intro hin
        obtain ⟨e, he, hk⟩ := List.mem_map.1 hin
        have := List.lookup_eq_none_iff.1 hl e he
        simp [hk] at this
      refine ⟨?_, ?_, ?_⟩
      · rw [List.map_append, List.nodup_append]
        refine ⟨hnd, by simp, ?_⟩
        intro a ha hb
        simp at hb
        exact hnot (hb ▸ ha)
      · intro e he
        rcases List.mem_append.1 he with h | h
        · obtain ⟨h1, h2, h3⟩ := hent e h
          refine ⟨h1, h2, ?_⟩
          have : ¬ (Normalize o.Key = e.1) := by
            intro hk
            exact hnot (hk ▸ List.mem_map_of_mem Prod.fst h)
          rw [List.filter_append, h3]
          simp [this]
        · simp at h
          subst h
          refine ⟨rfl, hname, ?_⟩
          simp only
          rw [List.filter_append]
          have hnone : objs.filter (fun x => decide (Normalize x.Key = Normalize o.Key)) = [] := by
            rw [List.filter_eq_nil_iff]
            intro x hx hdec
            have hxe : Normalize x.Key = Normalize o.Key := by simpa using hdec
            exact hnot (hxe ▸ hcov x hx (hxe ▸ hname))
          rw [hnone]
          simp
      · intro o2 ho2 hne
        rw [List.map_append]
        rcases List.mem_append.1 ho2 with h | h
        · exact List.mem_append_left _ (hcov o2 h hne)
        · simp at h; subst h; simp

theorem groupInv_foldl (objs : List S3Object) : GroupInv objs (objs.foldl groupStep []) := by
  induction objs using List.reverseRecOn with
  | nil => exact groupInv_nil
  | append_singleton l a ih =>
    rw [List.foldl_append]
    exact groupInv_step l _ a ih

theorem groupByPrefix_perm (objs : List S3Object) :
    (groupByPrefix objs).Perm ((objs.foldl groupStep []).map Prod.snd) :=
  List.perm_insertionSort _ _

theorem groupByPrefix_names_nodup (objs : List S3Object) :
    ((groupByPrefix objs).map (fun t => t.Name)).Nodup := by
  have hinv := groupInv_foldl objs
  have hp := (groupByPrefix_perm objs).map (fun t => t.Name)
  rw [hp.nodup_iff, List.map_map]
  have : (objs.foldl groupStep []).map ((fun t => t.Name) ∘ Prod.snd)
      = (objs.foldl groupStep []).map Prod.fst := by
    exact List.map_congr_left (fun e he => (hinv.2.1 e he).1)
  rw [this]
  exact hinv.1

theorem mem_groupByPrefix (objs : List S3Object) (t : DiscoveredTable) :
    t ∈ groupByPrefix objs ↔ ∃ e ∈ objs.foldl groupStep [], e.2 = t := by
  rw [(groupByPrefix_perm objs).mem_iff, List.mem_map]

theorem groupByPrefix_pairwise_lt (objects : List S3Object) :
    List.Pairwise (fun a b => strLt a.Name b.Name = true) (groupByPrefix objects) := by
  have hs : List.Pairwise nameLe (groupByPrefix objects) :=
    List.sorted_insertionSort nameLe _
  have hn : List.Pairwise (fun a b : DiscoveredTable => a.Name ≠ b.Name)
      (groupByPrefix objects) :=
    List.pairwise_map.1 (groupByPrefix_names_nodup objects)
  refine (hs.and hn).imp ?_
  rintro a b ⟨hle, hne⟩
  cases h : strLt a.Name b.Name with
  | true => rfl
  | false => exact absurd (strLt_connex _ _ h hle) hne

/-- Adequacy of the sorting model: whatever order the map is iterated in and
whatever `sort.Slice` does internally, a permutation of the map's values in which
no element is less than an earlier one is the list `groupByPrefix` returns. -/
theorem groupByPrefix_sort_unique (objs : List S3Object) (l : List DiscoveredTable)
    (hp : l.Perm ((objs.foldl groupStep []).map Prod.snd))
    (hs : l.Pairwise (fun a b => strLt b.Name a.Name = false)) :
    l = groupByPrefix objs := by
  have hperm : l.Perm (groupByPrefix objs) := hp.trans (groupByPrefix_perm objs).symm
  have hnd : (l.map (fun t => t.Name)).Nodup :=
    ((hperm.map (fun t => t.Name)).nodup_iff).2 (groupByPrefix_names_nodup objs)
  have hne : l.Pairwise (fun a b : DiscoveredTable => a.Name ≠ b.Name) :=
    List.pairwise_map.1 hnd
  have hstrict : l.Pairwise (fun a b => strLt a.Name b.Name = true) := by
    refine (hs.and hne).imp ?_
    rintro a b ⟨hle, hab⟩
    cases h : strLt a.Name b.Name with
    | true => rfl
    | false => exact absurd (strLt_connex _ _ h hle) hab
  haveI : IsAntisymm DiscoveredTable (fun a b => strLt a.Name b.Name = true) :=
    ⟨fun a b h1 h2 => by rw [strLt_asymm _ _ h1] at h2; cases h2⟩
  exact List.eq_of_perm_of_sorted hperm hstrict (groupByPrefix_pairwise_lt objs)

/-! ## Claims about naming and grouping -/

/-- C1: `groupByPrefix` puts every object whose normalized name is non-empty in
exactly one returned table, the one named `Normalize(object.Key)`; the objects of
a table are exactly the input objects with that name, each as often as in the
input and in input order. -/
theorem groupByPrefix_partition (objects : List S3Object) :
    (∀ t ∈ groupByPrefix objects, t.Name ≠ [] ∧
      t.Objects = objects.filter (fun o => Normalize o.Key = t.Name)) ∧
    (∀ o ∈ objects, Normalize o.Key ≠ [] →
      ∃! t, t ∈ groupByPrefix objects ∧ t.Name = Normalize o.Key) ∧
    ((groupByPrefix objects).map (fun t => t.Name)).Nodup := by
  have hinv := groupInv_foldl objects
  have htab : ∀ t ∈ groupByPrefix objects, t.Name ≠ [] ∧
      t.Objects = objects.filter (fun o => Normalize o.Key = t.Name) := by
    intro t ht
    obtain ⟨e, he, rfl⟩ := (mem_groupByPrefix objects t).1 ht
    obtain ⟨h1, h2, h3⟩ := hinv.2.1 e he
    rw [h1]
    exact ⟨h2, h3⟩
  refine ⟨htab, ?_, groupByPrefix_names_nodup objects⟩
  intro o ho hne
  obtain ⟨e, he, hk⟩ := List.mem_map.1 (hinv.2.2 o ho hne)
  have het : e.2 ∈ groupByPrefix objects := (mem_groupByPrefix objects e.2).2 ⟨e, he, rfl⟩
  have hen : e.2.Name = Normalize o.Key := by rw [(hinv.2.1 e he).1, hk]
  refine ⟨e.2, ⟨het, hen⟩, ?_⟩
  rintro u ⟨hu, hun⟩
  exact List.inj_on_of_nodup_map (groupByPrefix_names_nodup objects) hu het (hun.trans hen.symm)

/-- C2: the tables returned by `groupByPrefix` are in strictly ascending order of
`Name` (Go string order), hence no two of them share a name. -/
theorem groupByPrefix_strictly_sorted (objects : List S3Object) :
    List.Pairwise (fun a b => strLt a.Name b.Name = true) (groupByPrefix objects) ∧
    ((groupByPrefix objects).map (fun t => t.Name)).Nodup :=
  ⟨groupByPrefix_pairwise_lt objects, groupByPrefix_names_nodup objects⟩

/-- C3: `Normalize(key)` contains only characters of `[A-Za-z0-9_]` (so no path
separator), neither starts nor ends with `_`, and has no two consecutive `_`. -/
theorem Normalize_charset (key : Str) :
    (∀ c ∈ Normalize key, isNameChar c = true) ∧
    '/' ∉ Normalize key ∧
    (Normalize key).head? ≠ some '_' ∧
    (Normalize key).getLast? ≠ some '_' ∧
    ¬ ['_', '_'] <:+: Normalize key := by
  have hall : ∀ c ∈ Normalize key, isNameChar c = true := by
    intro c hc
    unfold Normalize sanitize at hc
    have h1 := (trimUnderscores_within _).subset hc
    have h2 := (collapseUnderscores_sublist _).subset h1
    exact isNameChar_of_mem_replaceInvalidChars _ c h2
  refine ⟨hall, ?_, trimUnderscores_head _, trimUnderscores_getLast _, ?_⟩
  · intro h
    exact absurd (hall _ h) (by decide)
  · rw [← noDouble_iff_no_pair]
    unfold Normalize sanitize
    exact List.Chain'.infix (collapseUnderscores_noDouble _) (trimUnderscores_within _)

/-- C4 (as stated) fails: the keys `./a.parquet` and `./b.parquet` have the same
directory prefix `./` and non-empty file names, yet get the names `a` and `b`. -/
theorem Normalize_same_dir_counterexample :
    ['.', '/'].getLast? = some '/' ∧
    "a.parquet".toList ≠ [] ∧ '/' ∉ "a.parquet".toList ∧
    "b.parquet".toList ≠ [] ∧ '/' ∉ "b.parquet".toList ∧
    Normalize (['.', '/'] ++ "a.parquet".toList) = ['a'] ∧
    Normalize (['.', '/'] ++ "b.parquet".toList) = ['b'] ∧
    Normalize (['.', '/'] ++ "a.parquet".toList) ≠
      Normalize (['.', '/'] ++ "b.parquet".toList) := by
  decide

/-- C4 (amended): two keys with the same directory prefix `d` (the text up to and
including the last `/`) followed by non-empty file names get the same table name,
namely the sanitised `path.Clean(d)`, provided `path.Clean(d)` is not `.`. -/
theorem Normalize_same_dir (d f1 f2 : Str) (hd : d.getLast? = some '/')
    (hf1 : f1 ≠ []) (hs1 : '/' ∉ f1) (hf2 : f2 ≠ []) (hs2 : '/' ∉ f2)
    (hclean : pathClean d ≠ ['.']) :
    Normalize (d ++ f1) = Normalize (d ++ f2) ∧
    Normalize (d ++ f1) = sanitize (pathClean d) := by
  unfold Normalize
  rw [rawName_dir_file d f1 hd hf1 hs1 hclean, rawName_dir_file d f2 hd hf2 hs2 hclean]
  exact ⟨rfl, rfl⟩

theorem Normalize_same_dir_witness :
    Normalize ("data/2024/".toList ++ "file_a.parquet".toList) =
      Normalize ("data/2024/".toList ++ "file_b.parquet".toList) ∧
    Normalize ("data/2024/".toList ++ "file_a.parquet".toList) =
      sanitize (pathClean "data/2024/".toList) :=
  Normalize_same_dir "data/2024/".toList "file_a.parquet".toList "file_b.parquet".toList
    (by decide) (by decide) (by decide) (by decide) (by decide) (by decide)

/-! ## Cursor filtering and the maximum -/

theorem foldl_append_if {α : Type} (p : α → Bool) (l init : List α) :
    l.foldl (fun acc a => if p a then acc ++ [a] else acc) init = init ++ l.filter p := by
  induction l generalizing init with
  | nil => simp
  | cons a l ih =>
    rw [List.foldl_cons, ih]
    by_cases h : p a = true
    · simp [h, List.filter_cons]
    · simp [h, List.filter_cons]

theorem filterObjectsByCursor_nonzero (parse : Str → Option Time) (objects : List S3Object)
    (cursor : Time) (hc : cursor.IsZero = false) :
    filterObjectsByCursor parse objects cursor = objects.filter (keptByCursor parse cursor) := by
  unfold filterObjectsByCursor
  rw [hc]
  simp only [Bool.false_eq_true, if_false]
  have h := foldl_append_if (keptByCursor parse cursor) objects []
  rw [List.nil_append] at h
  rw [← h]
  congr 1
  funext acc obj
  unfold keptByCursor
  cases parse obj.LastModified with
  | none => simp
  | some t => simp

theorem filterObjectsByCursor_zero (parse : Str → Option Time) (objects : List S3Object)
    (cursor : Time) (hc : cursor.IsZero = true) :
    filterObjectsByCursor parse objects cursor = objects := by
  unfold filterObjectsByCursor
  rw [hc]
  simp

theorem maxFrom_mem (parse : Str → Option Time) (init : Time) (objects : List S3Object) :
    maxFrom parse init objects = init ∨
    ∃ o ∈ objects, parse o.LastModified = some (maxFrom parse init objects) := by
  induction objects generalizing init with
  | nil => exact Or.inl rfl
  | cons a l ih =>
    unfold maxFrom
    rw [List.foldl_cons]
    cases hp : parse a.LastModified with
    | none =>
      simp only
      rcases ih init with h | ⟨o, ho, h⟩
      · exact Or.inl h
      · exact Or.inr ⟨o, List.mem_cons_of_mem _ ho, h⟩
    | some t =>
      simp only
      by_cases ha : t.After init = true
      · simp only [ha, if_true]
        rcases ih t with h | ⟨o, ho, h⟩
        · right
          refine ⟨a, List.mem_cons_self _ _, ?_⟩
          rw [hp]
          exact congrArg some h.symm
        · exact Or.inr ⟨o, List.mem_cons_of_mem _ ho, h⟩
      · simp only [ha, if_false]
        rcases ih init with h | ⟨o, ho, h⟩
        · exact Or.inl h
        · exact Or.inr ⟨o, List.mem_cons_of_mem _ ho, h⟩

theorem maxFrom_ge (parse : Str → Option Time) (init : Time) (objects : List S3Object) :
    init.nsec ≤ (maxFrom parse init objects).nsec ∧
    ∀ o ∈ objects, ∀ t, parse o.LastModified = some t →
      t.nsec ≤ (maxFrom parse init objects).nsec := by
  induction objects generalizing init with
  | nil => exact ⟨le_refl _, by simp⟩
  | cons a l ih =>
    unfold maxFrom
    rw [List.foldl_cons]
    cases hp : parse a.LastModified with
    | none =>
      simp only
      refine ⟨(ih init).1, ?_⟩
      intro o ho t ht
      rcases List.mem_cons.1 ho with h | h
      · subst h; rw [hp] at ht; cases ht
      · exact (ih init).2 o h t ht
    | some u =>
      simp only
      by_cases ha : u.After init = true
      · simp only [ha, if_true]
        have hlt : init.nsec < u.nsec := by simpa [Time.After] using ha
        refine ⟨le_trans (le_of_lt hlt) (ih u).1, ?_⟩
        intro o ho t ht
        rcases List.mem_cons.1 ho with h | h
        · subst h; rw [hp] at ht; cases ht; exact (ih u).1
        · exact (ih u).2 o h t ht
      · simp only [ha, if_false]
        have hle : u.nsec ≤ init.nsec := by
          have : ¬ init.nsec < u.nsec := by simpa [Time.After] using ha
          omega
        refine ⟨(ih init).1, ?_⟩
        intro o ho t ht
        rcases List.mem_cons.1 ho with h | h
        · subst h; rw [hp] at ht; cases ht; exact le_trans hle (ih init).1
        · exact (ih init).2 o h t ht

theorem maxLastModified_eq_maxFrom (parse : Str → Option Time) (objects : List S3Object) :
    maxLastModified parse objects = maxFrom parse Time.zero objects := rfl

/-- The maximum over a filtered list is zero or after the cursor. -/
theorem max_filter_zero_or_after (parse : Str → Option Time) (objects : List S3Object)
    (c : Time) (hc : c.IsZero = false) :
    (maxLastModified parse (filterObjectsByCursor parse objects c)).IsZero = true ∨
    (maxLastModified parse (filterObjectsByCursor parse objects c)).After c = true := by
  rw [maxLastModified_eq_maxFrom]
  rcases maxFrom_mem parse Time.zero (filterObjectsByCursor parse objects c) with h | ⟨o, ho, h⟩
  · left; rw [h]; rfl
  · right
    rw [filterObjectsByCursor_nonzero parse objects c hc] at ho
    have hk := (List.mem_filter.1 ho).2
    unfold keptByCursor at hk
    rw [h] at hk
    exact hk

/-! ## The sync loop -/

theorem syncObject_sends (env : Env) (obj : S3Object) :
    ∀ e ∈ (syncObject env obj).1, ∃ r, e = Effect.send (SyncMessage.insert r) := by
  intro e he
  have hmem : e ∈ (env.streamRecords obj.Key).1.map
      (fun rec => Effect.send (SyncMessage.insert rec)) := by
    unfold syncObject at he
    rcases hs : env.streamRecords obj.Key with ⟨records, err⟩
    rw [hs] at he
    cases err with
    | none => exact he
    | some e0 =>
      simp only at he
      split at he
      · exact he
      · split at he <;> exact he
  obtain ⟨r, _, hr⟩ := List.mem_map.1 hmem
  exact ⟨r, hr.symm⟩

theorem syncSequential_sends (env : Env) (objects : List S3Object) :
    ∀ e ∈ (syncSequential env objects).1, ∃ r, e = Effect.send (SyncMessage.insert r) := by
  induction objects with
  | nil => intro e he; simp [syncSequential] at he
  | cons obj rest ih =>
    intro e he
    unfold syncSequential at he
    rcases hs : syncObject env obj with ⟨sent, err⟩
    have hobj := syncObject_sends env obj
    rw [hs] at he hobj
    cases err with
    | some e0 => exact hobj e he
    | none =>
      simp only at he
      rcases List.mem_append.1 he with h | h
      · exact hobj e h
      · exact ih e h

theorem syncTableObjects_sends (env : Env) (objects : List S3Object) :
    ∀ e ∈ (syncTableObjects env objects).1, ∃ r, e = Effect.send (SyncMessage.insert r) := by
  intro e he
  unfold syncTableObjects at he
  by_cases hc : env.Concurrency = 1
  · rw [if_pos hc] at he
    exact syncSequential_sends env objects e he
  · rw [if_neg hc] at he
    obtain ⟨r, _, hr⟩ := List.mem_map.1 he
    exact ⟨r, hr.symm⟩

theorem syncTable_eq (env : Env) (store : Store) (table : Table) (dt : DiscoveredTable) :
    syncTable env store table dt =
      if (selectedObjects env store table dt).length = 0 then
        { effects := [Effect.send (SyncMessage.migrateTable table)], store := store, err := none }
      else
        match syncTableObjects env (selectedObjects env store table dt) with
        | (sent, some e) =>
          { effects := Effect.send (SyncMessage.migrateTable table) :: sent, store := store,
            err := some (SyncError.table table.Name e) }
        | (sent, none) =>
          if !(maxLastModified env.parse (selectedObjects env store table dt)).IsZero then
            { effects := Effect.send (SyncMessage.migrateTable table) :: sent ++
                [Effect.setCursor table.Name
                  (maxLastModified env.parse (selectedObjects env store table dt))],
              store := (SetCursor env store table.Name
                (maxLastModified env.parse (selectedObjects env store table dt))).1,
              err := none }
          else
            { effects := Effect.send (SyncMessage.migrateTable table) :: sent, store := store,
              err := none } := by
  unfold syncTable selectedObjects cursorFor
  rcases GetCursor env store table.Name with ⟨c, e⟩
  rfl

/-- Within one table, `SetCursor` is called exactly when objects were selected,
streaming them returned no error and their maximum `LastModified` is non-zero;
the value is that maximum. -/
theorem syncTable_setCursor_iff (env : Env) (store : Store) (table : Table)
    (dt : DiscoveredTable) (name : Str) (t : Time) :
    Effect.setCursor name t ∈ (syncTable env store table dt).effects ↔
      name = table.Name ∧ selectedObjects env store table dt ≠ [] ∧
      (syncTableObjects env (selectedObjects env store table dt)).2 = none ∧
      t = maxLastModified env.parse (selectedObjects env store table dt) ∧
      t.IsZero = false := by
  rw [syncTable_eq]
  have hsend := syncTableObjects_sends env (selectedObjects env store table dt)
  generalize selectedObjects env store table dt = objects at *
  by_cases hlen : objects.length = 0
  · have hnil : objects = [] := List.length_eq_zero.1 hlen
    simp [hlen, hnil]
  · have hne : objects ≠ [] := fun h => hlen (by rw [h]; rfl)
    rw [if_neg hlen]
    rcases hs : syncTableObjects env objects with ⟨sent, err⟩
    rw [hs] at hsend
    have hnot : Effect.setCursor name t ∉ sent := by
      intro hin
      obtain ⟨r, hr⟩ := hsend _ hin
      cases hr
    cases err with
    | some e => simp [hnot]
    | none =>
      simp only
      by_cases hz : (maxLastModified env.parse objects).IsZero = true
      · simp only [hz, Bool.not_true, Bool.false_eq_true, if_false]
        constructor
        · intro h
          simp [hnot] at h
        · rintro ⟨_, _, _, rfl, h⟩
          rw [hz] at h
          cases h
      · have hz2 : (maxLastModified env.parse objects).IsZero = false := by
          simpa using hz
        simp only [hz2, Bool.not_false, if_true]
        constructor
        · intro h
          simp [hnot] at h
          obtain ⟨rfl, rfl⟩ := h
          exact ⟨rfl, hne, trivial, rfl, hz2⟩
        · rintro ⟨rfl, _, _, rfl, _⟩
          simp

/-- Every `SetCursor` call of the table loop is made by the loop body for one of
the tables, on the state store as it stands when the body starts. -/
theorem syncLoop_setCursor (env : Env) (tableMap : List (Str × DiscoveredTable))
    (i : Nat) (store : Store) (tables : List Table) (name : Str) (t : Time)
    (h : Effect.setCursor name t ∈ (syncLoop env tableMap i store tables).effects) :
    ∃ table ∈ tables, ∃ dt store1, tableMap.lookup table.Name = some dt ∧
      Effect.setCursor name t ∈ (syncTable env store1 table dt).effects := by
  induction tables generalizing i store with
  | nil => simp [syncLoop] at h
  | cons table rest ih =>
    unfold syncLoop at h
    cases hctx : env.ctxErr i with
    | some e => rw [hctx] at h; simp at h
    | none =>
      rw [hctx] at h
      simp only at h
      cases hl : tableMap.lookup table.Name with
      | none =>
        rw [hl] at h
        simp only at h
        obtain ⟨tb, htb, dt, s1, h1, h2⟩ := ih (i + 1) store h
        exact ⟨tb, List.mem_cons_of_mem _ htb, dt, s1, h1, h2⟩
      | some dt =>
        rw [hl] at h
        simp only at h
        cases he : (syncTable env store table dt).err with
        | some e =>
          rw [he] at h
          exact ⟨table, List.mem_cons_self _ _, dt, store, hl, h⟩
        | none =>
          rw [he] at h
          simp only at h
          rcases List.mem_append.1 h with h1 | h1
          · exact ⟨table, List.mem_cons_self _ _, dt, store, hl, h1⟩
          · obtain ⟨tb, htb, dt2, s1, h2, h3⟩ := ih (i + 1) _ h1
            exact ⟨tb, List.mem_cons_of_mem _ htb, dt2, s1, h2, h3⟩

theorem lookup_tableMap_mem (tables : List DiscoveredTable) (name : Str) (dt : DiscoveredTable)
    (h : ((tables.map (fun d => (d.Name, d))).reverse).lookup name = some dt) :
    dt ∈ tables ∧ dt.Name = name := by
  obtain ⟨l1, l2, heq, _⟩ := List.lookup_eq_some_iff.1 h
  have hmem : (name, dt) ∈ (tables.map (fun d => (d.Name, d))).reverse := by
    rw [heq]; simp
  rw [List.mem_reverse] at hmem
  obtain ⟨d, hd, hpair⟩ := List.mem_map.1 hmem
  simp only [Prod.mk.injEq] at hpair
  obtain ⟨h1, h2⟩ := hpair
  subst h2
  exact ⟨hd, h1⟩

/-- Every `SetCursor` call of `syncTables` is made by the loop body for a
discovered table. -/
theorem syncTables_setCursor (env : Env) (store : Store) (name : Str) (t : Time)
    (h : Effect.setCursor name t ∈ (syncTables env store).effects) :
    ∃ tables, discover env = Except.ok tables ∧
      ∃ dt ∈ tables, ∃ table store1, table.Name = dt.Name ∧
        Effect.setCursor name t ∈ (syncTable env store1 table dt).effects := by
  unfold syncTables at h
  cases hst : env.stateClientErr with
  | some e => rw [hst] at h; simp at h
  | none =>
    rw [hst] at h
    simp only at h
    cases hd : discover env with
    | error e => rw [hd] at h; simp at h
    | ok tables =>
      rw [hd] at h
      simp only at h
      cases hf : env.filterDfs (tables.filterMap (fun dt => dt.Table)) with
      | error e => rw [hf] at h; simp at h
      | ok filtered =>
        rw [hf] at h
        simp only at h
        obtain ⟨table, _, dt, s1, hl, hin⟩ := syncLoop_setCursor env _ 0 store filtered name t h
        obtain ⟨hmem, hname⟩ := lookup_tableMap_mem tables table.Name dt hl
        exact ⟨tables, rfl, dt, hmem, table, s1, hname.symm, hin⟩

/-! ## Claims about the cursor -/

theorem cursorFor_of_getCursor (env : Env) (store : Store) (name : Str) (c : Time)
    (h : GetCursor env store name = (c, none)) : cursorFor env store name = c := by
  unfold cursorFor
  rw [h]
  rfl

/-- C5: `filterObjectsByCursor` departs from its own comment, "returns objects
with LastModified strictly after the cursor": with the non-zero cursor
`2024-01-01T00:00:00Z` the object `data/c.parquet`, whose `LastModified` is
`not-a-time`, is returned, although no input object has a `LastModified`
strictly after the cursor. -/
theorem filterObjectsByCursor_keeps_unparsable :
    timeA.IsZero = false ∧
    parseRFC3339Nano objC.LastModified = none ∧
    filterObjectsByCursor parseRFC3339Nano [objC] timeA = [objC] ∧
    [objC].filter (fun o =>
      match parseRFC3339Nano o.LastModified with
      | some t => t.After timeA
      | none => false) = [] := by
  decide

/-- What the loop of `filterObjectsByCursor` computes for a non-zero cursor: in
input order, the input objects whose `LastModified` does not parse or is
strictly after the cursor; every returned object whose `LastModified` parses is
strictly later than the cursor, and an object whose `LastModified` equals the
cursor is excluded. -/
theorem filterObjectsByCursor_spec (parse : Str → Option Time) (objects : List S3Object)
    (cursor : Time) (hc : cursor.IsZero = false) :
    filterObjectsByCursor parse objects cursor =
      objects.filter (keptByCursor parse cursor) ∧
    (∀ o ∈ filterObjectsByCursor parse objects cursor, ∀ t,
      parse o.LastModified = some t → cursor.nsec < t.nsec) ∧
    (∀ o ∈ objects, ∀ t, parse o.LastModified = some t → t.nsec = cursor.nsec →
      o ∉ filterObjectsByCursor parse objects cursor) := by
  have key : ∀ o ∈ filterObjectsByCursor parse objects cursor, ∀ t,
      parse o.LastModified = some t → cursor.nsec < t.nsec := by
    intro o ho t ht
    rw [filterObjectsByCursor_nonzero parse objects cursor hc] at ho
    have hk := (List.mem_filter.1 ho).2
    unfold keptByCursor at hk
    rw [ht] at hk
    simpa [Time.After] using hk
  refine ⟨filterObjectsByCursor_nonzero parse objects cursor hc, key, ?_⟩
  intro o _ t ht heq hin
  have := key o hin t ht
  omega

theorem filterObjectsByCursor_spec_witness :
    timeA.IsZero = false ∧
    (filterObjectsByCursor parseRFC3339Nano [objA, objB, objC] timeA =
      [objA, objB, objC].filter (keptByCursor parseRFC3339Nano timeA) ∧
    (∀ o ∈ filterObjectsByCursor parseRFC3339Nano [objA, objB, objC] timeA, ∀ t,
      parseRFC3339Nano o.LastModified = some t → timeA.nsec < t.nsec) ∧
    (∀ o ∈ [objA, objB, objC], ∀ t, parseRFC3339Nano o.LastModified = some t →
      t.nsec = timeA.nsec →
      o ∉ filterObjectsByCursor parseRFC3339Nano [objA, objB, objC] timeA)) :=
  ⟨by decide, filterObjectsByCursor_spec parseRFC3339Nano [objA, objB, objC] timeA (by decide)⟩

/-- C6: for a non-zero cursor `c` the maximum `LastModified` of the filtered
objects is the zero time or strictly later than `c`; when it is zero the loop
body calls `SetCursor` not at all, and every value it passes to `SetCursor`
after reading `c` is strictly later than `c`. -/
theorem watermark_never_regresses (env : Env) (store : Store) (table : Table)
    (dt : DiscoveredTable) (c : Time) (hc : c.IsZero = false) :
    (∀ objects : List S3Object,
      (maxLastModified env.parse (filterObjectsByCursor env.parse objects c)).IsZero = true ∨
      (maxLastModified env.parse (filterObjectsByCursor env.parse objects c)).After c = true) ∧
    (GetCursor env store table.Name = (c, none) →
      ((maxLastModified env.parse (filterObjectsByCursor env.parse dt.Objects c)).IsZero = true →
        ∀ name t, Effect.setCursor name t ∉ (syncTable env store table dt).effects) ∧
      (∀ name t, Effect.setCursor name t ∈ (syncTable env store table dt).effects →
        t.After c = true)) := by
  refine ⟨fun objects => max_filter_zero_or_after env.parse objects c hc, ?_⟩
  intro hget
  have hsel : selectedObjects env store table dt =
      filterObjectsByCursor env.parse dt.Objects c := by
    unfold selectedObjects
    rw [cursorFor_of_getCursor env store table.Name c hget]
  constructor
  · intro hz name t hin
    obtain ⟨_, _, _, ht, hnz⟩ := (syncTable_setCursor_iff env store table dt name t).1 hin
    rw [ht, hsel, hz] at hnz
    cases hnz
  · intro name t hin
    obtain ⟨_, _, _, ht, hnz⟩ := (syncTable_setCursor_iff env store table dt name t).1 hin
    rw [ht, hsel] at hnz ⊢
    rcases max_filter_zero_or_after env.parse dt.Objects c hc with h | h
    · rw [h] at hnz; cases hnz
    · exact h

theorem watermark_never_regresses_witness :
    timeA.IsZero = false ∧
    GetCursor envAll storeA tableData.Name = (timeA, none) ∧
    ((∀ objects : List S3Object,
      (maxLastModified envAll.parse
        (filterObjectsByCursor envAll.parse objects timeA)).IsZero = true ∨
      (maxLastModified envAll.parse
        (filterObjectsByCursor envAll.parse objects timeA)).After timeA = true) ∧
    (GetCursor envAll storeA tableData.Name = (timeA, none) →
      ((maxLastModified envAll.parse
          (filterObjectsByCursor envAll.parse dtData.Objects timeA)).IsZero = true →
        ∀ name t, Effect.setCursor name t ∉ (syncTable envAll storeA tableData dtData).effects) ∧
      (∀ name t, Effect.setCursor name t ∈ (syncTable envAll storeA tableData dtData).effects →
        t.After timeA = true))) :=
  ⟨by decide, by decide,
    watermark_never_regresses envAll storeA tableData dtData timeA (by decide)⟩

/-- C7: if every `LastModified` parses and the maximum `m` of the objects selected
with cursor `c` is non-zero, then filtering the same objects with cursor `m`
selects nothing, and a pass that reads the cursor `m` emits the table announce
and nothing else. -/
theorem rerun_selects_nothing (env : Env) (store : Store) (table : Table)
    (dt : DiscoveredTable) (c : Time)
    (hall : ∀ o ∈ dt.Objects, (env.parse o.LastModified).isSome = true)
    (hm : (maxLastModified env.parse
      (filterObjectsByCursor env.parse dt.Objects c)).IsZero = false) :
    filterObjectsByCursor env.parse dt.Objects
      (maxLastModified env.parse (filterObjectsByCursor env.parse dt.Objects c)) = [] ∧
    (GetCursor env store table.Name =
        (maxLastModified env.parse (filterObjectsByCursor env.parse dt.Objects c), none) →
      (syncTable env store table dt).effects =
        [Effect.send (SyncMessage.migrateTable table)]) := by
  generalize hmdef : maxLastModified env.parse
    (filterObjectsByCursor env.parse dt.Objects c) = m at hm ⊢
  have hmem : ∃ o ∈ filterObjectsByCursor env.parse dt.Objects c,
      env.parse o.LastModified = some m := by
    rcases maxFrom_mem env.parse Time.zero (filterObjectsByCursor env.parse dt.Objects c)
      with h | h
    · rw [← maxLastModified_eq_maxFrom, hmdef] at h
      rw [h] at hm
      exact absurd hm (by decide)
    · rw [← maxLastModified_eq_maxFrom, hmdef] at h
      exact h
  have hge : ∀ o ∈ filterObjectsByCursor env.parse dt.Objects c, ∀ t,
      env.parse o.LastModified = some t → t.nsec ≤ m.nsec := by
    have := (maxFrom_ge env.parse Time.zero (filterObjectsByCursor env.parse dt.Objects c)).2
    rw [← maxLastModified_eq_maxFrom, hmdef] at this
    exact this
  have hbound : ∀ o ∈ dt.Objects, ∀ t, env.parse o.LastModified = some t →
      t.nsec ≤ m.nsec := by
    intro o ho t ht
    by_cases hc : c.IsZero = true
    · rw [filterObjectsByCursor_zero env.parse dt.Objects c hc] at hge
      exact hge o ho t ht
    · have hc2 : c.IsZero = false := by simpa using hc
      rw [filterObjectsByCursor_nonzero env.parse dt.Objects c hc2] at hge hmem
      by_cases hk : keptByCursor env.parse c o = true
      · exact hge o (List.mem_filter.2 ⟨ho, hk⟩) t ht
      · obtain ⟨o2, ho2, hp2⟩ := hmem
        have hk2 := (List.mem_filter.1 ho2).2
        unfold keptByCursor at hk hk2
        rw [ht] at hk
        rw [hp2] at hk2
        have h1 : ¬ c.nsec < t.nsec := by simpa [Time.After] using hk
        have h2 : c.nsec < m.nsec := by simpa [Time.After] using hk2
        omega
  have hempty : filterObjectsByCursor env.parse dt.Objects m = [] := by
    rw [filterObjectsByCursor_nonzero env.parse dt.Objects m hm, List.filter_eq_nil_iff]
    intro o ho hk
    unfold keptByCursor at hk
    cases hp : env.parse o.LastModified with
    | none =>
      have := hall o ho
      rw [hp] at this
      cases this
    | some t =>
      rw [hp] at hk
      have h1 : m.nsec < t.nsec := by simpa [Time.After] using hk
      have h2 := hbound o ho t hp
      omega
  refine ⟨hempty, ?_⟩
  intro hget
  rw [syncTable_eq]
  have hsel : selectedObjects env store table dt = [] := by
    unfold selectedObjects
    rw [cursorFor_of_getCursor env store table.Name m hget, hempty]
  rw [hsel]
  rfl

theorem rerun_selects_nothing_witness :
    (∀ o ∈ dtData.Objects, (envAll.parse o.LastModified).isSome = true) ∧
    (maxLastModified envAll.parse
      (filterObjectsByCursor envAll.parse dtData.Objects Time.zero)).IsZero = false ∧
    GetCursor envAll storeB tableData.Name =
      (maxLastModified envAll.parse
        (filterObjectsByCursor envAll.parse dtData.Objects Time.zero), none) ∧
    (filterObjectsByCursor envAll.parse dtData.Objects
      (maxLastModified envAll.parse
        (filterObjectsByCursor envAll.parse dtData.Objects Time.zero)) = [] ∧
    (GetCursor envAll storeB tableData.Name =
        (maxLastModified envAll.parse
          (filterObjectsByCursor envAll.parse dtData.Objects Time.zero), none) →
      (syncTable envAll storeB tableData dtData).effects =
        [Effect.send (SyncMessage.migrateTable tableData)])) :=
  ⟨by decide, by decide, by decide,
    rerun_selects_nothing envAll storeB tableData dtData Time.zero (by decide) (by decide)⟩

/-- Every `SetCursor` call of the table loop is made by the loop body for one of
the tables, on the state store as the iterations before it have left it. -/
theorem syncLoop_setCursor_at (env : Env) (tableMap : List (Str × DiscoveredTable))
    (i : Nat) (store : Store) (tables : List Table) (name : Str) (t : Time)
    (h : Effect.setCursor name t ∈ (syncLoop env tableMap i store tables).effects) :
    ∃ pre table post dt, tables = pre ++ table :: post ∧
      tableMap.lookup table.Name = some dt ∧
      (syncLoop env tableMap i store pre).err = none ∧
      Effect.setCursor name t ∈
        (syncTable env (syncLoop env tableMap i store pre).store table dt).effects := by
  induction tables generalizing i store with
  | nil => simp [syncLoop] at h
  | cons table rest ih =>
    unfold syncLoop at h
    cases hctx : env.ctxErr i with
    | some e => rw [hctx] at h; simp at h
    | none =>
      rw [hctx] at h
      simp only at h
      cases hl : tableMap.lookup table.Name with
      | none =>
        rw [hl] at h
        simp only at h
        obtain ⟨pre, tb, post, dt, h1, h2, h3, h4⟩ := ih (i + 1) store h
        refine ⟨table :: pre, tb, post, dt, by rw [h1]; rfl, h2, ?_, ?_⟩
        · simp only [syncLoop, hctx, hl]
          exact h3
        · simp only [syncLoop, hctx, hl]
          exact h4
      | some dt =>
        rw [hl] at h
        simp only at h
        have hnil : syncLoop env tableMap i store [] =
            { effects := [], store := store, err := none } := by
          cases i <;> rfl
        cases he : (syncTable env store table dt).err with
        | some e =>
          rw [he] at h
          exact ⟨[], table, rest, dt, rfl, hl, by rw [hnil], by rw [hnil]; exact h⟩
        | none =>
          rw [he] at h
          simp only at h
          rcases List.mem_append.1 h with h1 | h1
          · exact ⟨[], table, rest, dt, rfl, hl, by rw [hnil], by rw [hnil]; exact h1⟩
          · obtain ⟨pre, tb, post, dt2, h2, h3, h4, h5⟩ := ih (i + 1) _ h1
            refine ⟨table :: pre, tb, post, dt2, by rw [h2]; rfl, h3, ?_, ?_⟩
            · simp only [syncLoop, hctx, hl, he]
              exact h4
            · simp only [syncLoop, hctx, hl, he]
              exact h5

/-- C8: the loop body of `syncTables` calls `SetCursor` exactly when the objects
selected for the table are not empty, streaming them returned no error and their
maximum `LastModified` is non-zero, and the value written is that maximum; on a
pass that selected no object it emits the announce only and leaves the state
store as it was; and every `SetCursor` call of `syncTables` is such a call of
the loop body for a table of the filtered list, made on the state store as the
iterations for the tables before it have left it. -/
theorem cursor_written_only_after_success (env : Env) (store : Store) :
    (∀ (store1 : Store) (table : Table) (dt : DiscoveredTable) (name : Str) (t : Time),
      Effect.setCursor name t ∈ (syncTable env store1 table dt).effects ↔
        name = table.Name ∧ selectedObjects env store1 table dt ≠ [] ∧
        (syncTableObjects env (selectedObjects env store1 table dt)).2 = none ∧
        t = maxLastModified env.parse (selectedObjects env store1 table dt) ∧
        t.IsZero = false) ∧
    (∀ (store1 : Store) (table : Table) (dt : DiscoveredTable),
      selectedObjects env store1 table dt = [] →
        (syncTable env store1 table dt).effects =
          [Effect.send (SyncMessage.migrateTable table)] ∧
        (syncTable env store1 table dt).store = store1) ∧
    (∀ (name : Str) (t : Time), Effect.setCursor name t ∈ (syncTables env store).effects →
      ∃ tables filtered pre table post dt,
        discover env = Except.ok tables ∧
        env.filterDfs (tables.filterMap (fun d => d.Table)) = Except.ok filtered ∧
        filtered = pre ++ table :: post ∧
        (tableMapOf tables).lookup table.Name = some dt ∧
        (syncLoop env (tableMapOf tables) 0 store pre).err = none ∧
        name = table.Name ∧
        selectedObjects env (syncLoop env (tableMapOf tables) 0 store pre).store table dt ≠ [] ∧
        (syncTableObjects env (selectedObjects env
          (syncLoop env (tableMapOf tables) 0 store pre).store table dt)).2 = none ∧
        t = maxLastModified env.parse (selectedObjects env
          (syncLoop env (tableMapOf tables) 0 store pre).store table dt) ∧
        t.IsZero = false) := by
  refine ⟨fun store1 table dt name t => syncTable_setCursor_iff env store1 table dt name t,
    ?_, ?_⟩
  · intro store1 table dt hsel
    rw [syncTable_eq, hsel]
    exact ⟨rfl, rfl⟩
  · intro name t h
    unfold syncTables at h
    cases hst : env.stateClientErr with
    | some e => rw [hst] at h; simp at h
    | none =>
      rw [hst] at h
      simp only at h
      cases hd : discover env with
      | error e => rw [hd] at h; simp at h
      | ok tables =>
        rw [hd] at h
        simp only at h
        cases hf : env.filterDfs (tables.filterMap (fun dt => dt.Table)) with
        | error e => rw [hf] at h; simp at h
        | ok filtered =>
          rw [hf] at h
          simp only at h
          obtain ⟨pre, table, post, dt, h1, h2, h3, h4⟩ :=
            syncLoop_setCursor_at env _ 0 store filtered name t h
          exact ⟨tables, filtered, pre, table, post, dt, rfl, hf, h1, h2, h3,
            (syncTable_setCursor_iff env _ table dt name t).1 h4⟩

theorem cursor_written_only_after_success_witness :
    Effect.setCursor "data".toList timeB ∈ (syncTables envAll []).effects ∧
    selectedObjects envAll [] tableData dtData = [objA, objB] ∧
    selectedObjects envAll storeB tableData dtData = [] ∧
    (syncTable envAll storeB tableData dtData).effects =
      [Effect.send (SyncMessage.migrateTable tableData)] ∧
    ∃ tables filtered pre table post dt,
      discover envAll = Except.ok tables ∧
      envAll.filterDfs (tables.filterMap (fun d => d.Table)) = Except.ok filtered ∧
      filtered = pre ++ table :: post ∧
      (tableMapOf tables).lookup table.Name = some dt ∧
      (syncLoop envAll (tableMapOf tables) 0 [] pre).err = none ∧
      "data".toList = table.Name ∧
      selectedObjects envAll (syncLoop envAll (tableMapOf tables) 0 [] pre).store table dt ≠ [] ∧
      (syncTableObjects envAll (selectedObjects envAll
        (syncLoop envAll (tableMapOf tables) 0 [] pre).store table dt)).2 = none ∧
      timeB = maxLastModified envAll.parse (selectedObjects envAll
        (syncLoop envAll (tableMapOf tables) 0 [] pre).store table dt) ∧
      timeB.IsZero = false :=
  ⟨by decide, by decide, by decide,
    ((cursor_written_only_after_success envAll []).2.1 storeB tableData dtData (by decide)).1,
    (cursor_written_only_after_success envAll []).2.2 "data".toList timeB (by decide)⟩

/-- C9 (as stated) fails: `data/a.parquet` (last modified `2024-01-01`) is
streamed, `data/b.parquet` (last modified `2024-06-01`) is skipped as vanished,
and the watermark written is `2024-06-01`, above the latest streamed object. -/
theorem watermark_skipped_counterexample :
    envBVanished.Concurrency = 1 ∧
    syncObject envBVanished objA =
      ([Effect.send (SyncMessage.insert { Key := objA.Key, NumRows := 100 })], none) ∧
    syncObject envBVanished objB = ([], none) ∧
    envBVanished.parse objA.LastModified = some timeA ∧
    envBVanished.parse objB.LastModified = some timeB ∧
    timeB.After timeA = true ∧
    (syncTables envBVanished []).effects =
      [Effect.send (SyncMessage.migrateTable tableData),
       Effect.send (SyncMessage.insert { Key := objA.Key, NumRows := 100 }),
       Effect.setCursor "data".toList timeB] := by
  decide

/-- C9 (amended): the watermark the loop body writes for a table is the highest
`LastModified` among all objects selected by the cursor filter in that pass,
whatever `syncObject` did with them: it is the `LastModified` of a selected
object and no selected object has a later one. -/
theorem watermark_is_max_of_selected (env : Env) (store : Store) (table : Table)
    (dt : DiscoveredTable) (name : Str) (t : Time)
    (h : Effect.setCursor name t ∈ (syncTable env store table dt).effects) :
    t = maxLastModified env.parse (selectedObjects env store table dt) ∧
    (∃ o ∈ selectedObjects env store table dt, env.parse o.LastModified = some t) ∧
    (∀ o ∈ selectedObjects env store table dt, ∀ u,
      env.parse o.LastModified = some u → u.nsec ≤ t.nsec) := by
  obtain ⟨_, _, _, ht, hnz⟩ := (syncTable_setCursor_iff env store table dt name t).1 h
  refine ⟨ht, ?_, ?_⟩
  · rcases maxFrom_mem env.parse Time.zero (selectedObjects env store table dt) with h1 | h1
    · rw [← maxLastModified_eq_maxFrom, ← ht] at h1
      rw [h1] at hnz
      exact absurd hnz (by decide)
    · rw [← maxLastModified_eq_maxFrom, ← ht] at h1
      exact h1
  · have := (maxFrom_ge env.parse Time.zero (selectedObjects env store table dt)).2
    rw [← maxLastModified_eq_maxFrom, ← ht] at this
    exact this

theorem watermark_is_max_of_selected_witness :
    Effect.setCursor "data".toList timeB ∈
      (syncTable envBVanished [] tableData dtData).effects ∧
    (timeB = maxLastModified envBVanished.parse
        (selectedObjects envBVanished [] tableData dtData) ∧
    (∃ o ∈ selectedObjects envBVanished [] tableData dtData,
      envBVanished.parse o.LastModified = some timeB) ∧
    (∀ o ∈ selectedObjects envBVanished [] tableData dtData, ∀ u,
      envBVanished.parse o.LastModified = some u → u.nsec ≤ timeB.nsec)) :=
  ⟨by decide,
    watermark_is_max_of_selected envBVanished [] tableData dtData "data".toList timeB
      (by decide)⟩

/-! ## Discovery -/

theorem groupStep_keys_from_objects (objs : List S3Object) :
    ∀ e ∈ objs.foldl groupStep [], ∃ o ∈ objs, Normalize o.Key = e.1 := by
  induction objs using List.reverseRecOn with
  | nil => intro e he; simp at he
  | append_singleton l a ih =>
    intro e he
    rw [List.foldl_append] at he
    simp only [List.foldl_cons, List.foldl_nil] at he
    generalize l.foldl groupStep [] = m at he ih
    unfold groupStep at he
    by_cases hname : Normalize a.Key = []
    · simp only [hname, if_true] at he
      obtain ⟨o, ho, h⟩ := ih e he
      exact ⟨o, List.mem_append_left _ ho, h⟩
    · simp only [hname, if_false] at he
      cases hl : List.lookup (Normalize a.Key) m with
      | some v =>
        rw [hl] at he
        simp only at he
        obtain ⟨e0, he0, rfl⟩ := List.mem_map.1 he
        obtain ⟨o, ho, h⟩ := ih e0 he0
        refine ⟨o, List.mem_append_left _ ho, ?_⟩
        rw [h]
        split <;> rfl
      | none =>
        rw [hl] at he
        simp only at he
        rcases List.mem_append.1 he with h | h
        · obtain ⟨o, ho, h2⟩ := ih e h
          exact ⟨o, List.mem_append_left _ ho, h2⟩
        · simp only [List.mem_singleton] at h
          subst h
          exact ⟨a, List.mem_append_right _ (List.mem_singleton_self _), rfl⟩

/-- Every table of `groupByPrefix` has at least one object. -/
theorem groupByPrefix_objects_ne_nil (objs : List S3Object) :
    ∀ t ∈ groupByPrefix objs, t.Objects ≠ [] := by
  intro t ht
  obtain ⟨e, he, rfl⟩ := (mem_groupByPrefix objs t).1 ht
  obtain ⟨_, _, h3⟩ := (groupInv_foldl objs).2.1 e he
  obtain ⟨o, ho, hn⟩ := groupStep_keys_from_objects objs e he
  rw [h3]
  intro hnil
  have : o ∈ objs.filter (fun o => decide (Normalize o.Key = e.1)) :=
    List.mem_filter.2 ⟨ho, by simpa using hn⟩
  rw [hnil] at this
  cases this

theorem validateMembers_ok_iff (env : Env) (name : Str) (first : S3Object) (sc : Schema)
    (rest : List S3Object) :
    validateMembers env name first sc rest = Except.ok () ↔
      ∀ o ∈ rest, ∃ sc2, env.readParquetSchema o.Key = Except.ok sc2 ∧
        sc.Equal sc2 = true := by
  induction rest with
  | nil => simp [validateMembers]
  | cons obj rest ih =>
    unfold validateMembers
    cases hr : env.readParquetSchema obj.Key with
    | error e =>
      simp only
      constructor
      · intro h; cases h
      · intro h
        obtain ⟨sc2, h1, _⟩ := h obj (List.mem_cons_self _ _)
        rw [hr] at h1
        cases h1
    | ok sc2 =>
      simp only
      by_cases heq : sc.Equal sc2 = true
      · simp only [heq, Bool.not_true, Bool.false_eq_true, if_false]
        rw [ih]
        constructor
        · intro h o ho
          rcases List.mem_cons.1 ho with h1 | h1
          · subst h1; exact ⟨sc2, hr, heq⟩
          · exact h o h1
        · intro h o ho
          exact h o (List.mem_cons_of_mem _ ho)
      · have hf : sc.Equal sc2 = false := by simpa using heq
        simp only [hf, Bool.not_false, if_true]
        constructor
        · intro h; cases h
        · intro h
          obtain ⟨sc3, h1, h2⟩ := h obj (List.mem_cons_self _ _)
          rw [hr] at h1
          cases h1
          rw [hf] at h2
          cases h2

theorem metadata_Equal_refl (md : Metadata) : Metadata.Equal md md = true := by
  simp [Metadata.Equal]

theorem field_Equal_refl (f : Field) : f.Equal f = true := by
  simp [Field.Equal, metadata_Equal_refl]

theorem zipWith_Equal_refl (fs : List Field) :
    (List.zipWith Field.Equal fs fs).all id = true := by
  induction fs with
  | nil => rfl
  | cons f fs ih =>
    rw [List.zipWith_cons_cons, List.all_cons, field_Equal_refl, ih]
    rfl

theorem Schema.Equal_refl (sc : Schema) : sc.Equal sc = true := by
  unfold Schema.Equal
  rw [if_neg (fun h => h rfl), if_neg (fun h => h rfl)]
  exact zipWith_Equal_refl sc.Fields

/-- What a successful `resolveTable` means for a table with objects. -/
theorem resolveTable_ok (env : Env) (dt dt2 : DiscoveredTable) (first : S3Object)
    (rest : List S3Object) (hobj : dt.Objects = first :: rest)
    (h : resolveTable env dt = Except.ok dt2) :
    dt2.Name = dt.Name ∧ dt2.Objects = dt.Objects ∧
    ∃ sc, env.readParquetSchema first.Key = Except.ok sc ∧ dt2.ArrowSchema = some sc ∧
      ∀ o ∈ dt.Objects, ∃ sc2, env.readParquetSchema o.Key = Except.ok sc2 ∧
        sc.Equal sc2 = true := by
  unfold resolveTable at h
  rw [hobj] at h
  simp only at h
  cases hr : env.readParquetSchema first.Key with
  | error e => rw [hr] at h; cases h
  | ok sc =>
    rw [hr] at h
    simp only at h
    cases hv : validateMembers env dt.Name first sc rest with
    | error e => rw [hv] at h; cases h
    | ok u =>
      rw [hv] at h
      simp only at h
      cases h
      refine ⟨rfl, hobj.symm, sc, rfl, rfl, ?_⟩
      intro o ho
      rw [hobj] at ho
      rcases List.mem_cons.1 ho with h1 | h1
      · subst h1; exact ⟨sc, hr, Schema.Equal_refl sc⟩
      · exact (validateMembers_ok_iff env dt.Name first sc rest).1 hv o h1

/-- A member whose schema differs from the first member's makes `resolveTable`
fail. -/
theorem resolveTable_mismatch (env : Env) (dt : DiscoveredTable) (first : S3Object)
    (rest : List S3Object) (sc sc2 : Schema) (o : S3Object)
    (hobj : dt.Objects = first :: rest)
    (hfirst : env.readParquetSchema first.Key = Except.ok sc) (ho : o ∈ rest)
    (hread : env.readParquetSchema o.Key = Except.ok sc2) (hne : sc.Equal sc2 = false) :
    ∃ err, resolveTable env dt = Except.error err := by
  unfold resolveTable
  rw [hobj]
  simp only [hfirst]
  cases hv : validateMembers env dt.Name first sc rest with
  | error e => exact ⟨e, rfl⟩
  | ok u =>
    obtain ⟨sc3, h1, h2⟩ := (validateMembers_ok_iff env dt.Name first sc rest).1 hv o ho
    rw [hread] at h1
    cases h1
    rw [hne] at h2
    cases h2

theorem resolveTables_ok (env : Env) (l l2 : List DiscoveredTable)
    (h : resolveTables env l = Except.ok l2) :
    List.Forall₂ (fun dt dt2 => resolveTable env dt = Except.ok dt2) l l2 := by
  induction l generalizing l2 with
  | nil =>
    unfold resolveTables at h
    cases h
    exact List.Forall₂.nil
  | cons dt rest ih =>
    unfold resolveTables at h
    cases hr : resolveTable env dt with
    | error e => rw [hr] at h; cases h
    | ok dt2 =>
      rw [hr] at h
      simp only at h
      cases hrest : resolveTables env rest with
      | error e => rw [hrest] at h; cases h
      | ok rest2 =>
        rw [hrest] at h
        simp only at h
        cases h
        exact List.Forall₂.cons hr (ih rest2 hrest)

theorem resolveTables_error (env : Env) (l : List DiscoveredTable) (g : DiscoveredTable)
    (hg : g ∈ l) (herr : ∃ err, resolveTable env g = Except.error err) :
    ∃ err, resolveTables env l = Except.error err := by
  induction l with
  | nil => cases hg
  | cons dt rest ih =>
    unfold resolveTables
    cases hr : resolveTable env dt with
    | error e => exact ⟨e, rfl⟩
    | ok dt2 =>
      simp only
      rcases List.mem_cons.1 hg with h | h
      · subst h
        obtain ⟨err, he⟩ := herr
        rw [hr] at he
        cases he
      · obtain ⟨err, he⟩ := ih h
        rw [he]
        exact ⟨err, rfl⟩

theorem resolveTables_mem (env : Env) (l l2 : List DiscoveredTable)
    (h : resolveTables env l = Except.ok l2) (t : DiscoveredTable) (ht : t ∈ l2) :
    ∃ g ∈ l, resolveTable env g = Except.ok t := by
  have hall := resolveTables_ok env l l2 h
  clear h
  induction hall with
  | nil => cases ht
  | cons hab _ ih =>
    rcases List.mem_cons.1 ht with h1 | h1
    · subst h1
      exact ⟨_, List.mem_cons_self _ _, hab⟩
    · obtain ⟨g, hg, hres⟩ := ih h1
      exact ⟨g, List.mem_cons_of_mem _ hg, hres⟩

/-- Schemas that differ in the metadata of a field only are not `Equal`, whatever
the order of the metadata pairs, and `discover` aborts on two such files of one
table. -/
theorem discover_metadata_mismatch :
    schemaId.Equal schemaIdTagged = false ∧
    Metadata.Equal [("a".toList, "1".toList), ("b".toList, "2".toList)]
      [("b".toList, "2".toList), ("a".toList, "1".toList)] = true ∧
    discover envTagged =
      Except.error (DiscoverError.schemaMismatch "data".toList objA.Key schemaId.Fields
        objB.Key schemaIdTagged.Fields) :=
  ⟨by decide, by decide, by rfl⟩

/-- C10: `discover` returns tables only if every returned table has a first
object whose schema is the table's `ArrowSchema` and equals the schema of every
member; and if in some table a member's schema differs from the first member's,
`discover` returns an error (and so no tables at all). -/
theorem discover_all_or_nothing (env : Env) :
    (∀ tables, discover env = Except.ok tables →
      ∀ t ∈ tables, ∃ first rest sc, t.Objects = first :: rest ∧
        env.readParquetSchema first.Key = Except.ok sc ∧ t.ArrowSchema = some sc ∧
        ∀ o ∈ t.Objects, ∃ sc2, env.readParquetSchema o.Key = Except.ok sc2 ∧
          sc.Equal sc2 = true) ∧
    (∀ objects, env.listObjects = Except.ok objects →
      (∃ g ∈ groupByPrefix objects, ∃ first rest sc, g.Objects = first :: rest ∧
        env.readParquetSchema first.Key = Except.ok sc ∧
        ∃ o ∈ rest, ∃ sc2, env.readParquetSchema o.Key = Except.ok sc2 ∧
          sc.Equal sc2 = false) →
      ∃ err, discover env = Except.error err) := by
  constructor
  · intro tables h t ht
    unfold discover at h
    cases hl : env.listObjects with
    | error e => rw [hl] at h; cases h
    | ok objects =>
      rw [hl] at h
      simp only at h
      obtain ⟨g, hg, hres⟩ := resolveTables_mem env _ _ h t ht
      have hne := groupByPrefix_objects_ne_nil objects g hg
      cases hobj : g.Objects with
      | nil => exact absurd hobj hne
      | cons first rest =>
        obtain ⟨_, h2, sc, h3, h4, h5⟩ := resolveTable_ok env g t first rest hobj hres
        refine ⟨first, rest, sc, by rw [h2, hobj], h3, h4, ?_⟩
        intro o ho
        rw [h2] at ho
        exact h5 o ho
  · intro objects hl hbad
    obtain ⟨g, hg, first, rest, sc, hobj, hfirst, o, ho, sc2, hread, hne⟩ := hbad
    unfold discover
    rw [hl]
    exact resolveTables_error env _ g hg
      (resolveTable_mismatch env g first rest sc sc2 o hobj hfirst ho hread hne)

/-! ## Abort on a streaming error, and the table announce -/

/-- The table loop over a list of tables followed by another: the second part
runs, with the index and the store left by the first, only if the first part
ended without an error. -/
theorem syncLoop_append (env : Env) (tableMap : List (Str × DiscoveredTable))
    (i : Nat) (store : Store) (pre suf : List Table) :
    syncLoop env tableMap i store (pre ++ suf) =
      match (syncLoop env tableMap i store pre).err with
      | some _ => syncLoop env tableMap i store pre
      | none =>
        { effects := (syncLoop env tableMap i store pre).effects ++
            (syncLoop env tableMap (i + pre.length)
              (syncLoop env tableMap i store pre).store suf).effects,
          store := (syncLoop env tableMap (i + pre.length)
            (syncLoop env tableMap i store pre).store suf).store,
          err := (syncLoop env tableMap (i + pre.length)
            (syncLoop env tableMap i store pre).store suf).err } := by
  induction pre generalizing i store with
  | nil => simp [syncLoop]
  | cons table rest ih =>
    have hidx : i + 1 + rest.length = i + (table :: rest).length := by
      simp only [List.length_cons]; omega
    rw [List.cons_append]
    cases hctx : env.ctxErr i with
    | some e => simp [syncLoop, hctx]
    | none =>
      cases hl : tableMap.lookup table.Name with
      | none =>
        simp only [syncLoop, hctx, hl]
        rw [ih (i + 1) store, hidx]
      | some dt =>
        cases he : (syncTable env store table dt).err with
        | some e => simp [syncLoop, hctx, hl, he]
        | none =>
          simp only [syncLoop, hctx, hl, he]
          rw [ih (i + 1) (syncTable env store table dt).store, hidx]
          cases hr : (syncLoop env tableMap (i + 1)
              (syncTable env store table dt).store rest).err with
          | some e2 => simp [hr]
          | none => simp [hr]

/-- The table loop started at a table whose streaming fails. -/
theorem syncLoop_stream_error (env : Env) (tableMap : List (Str × DiscoveredTable))
    (i : Nat) (store : Store) (table : Table) (rest : List Table) (dt : DiscoveredTable)
    (e : Err) (hctx : env.ctxErr i = none) (hl : tableMap.lookup table.Name = some dt)
    (hsel : selectedObjects env store table dt ≠ [])
    (herr : (syncTableObjects env (selectedObjects env store table dt)).2 = some e) :
    syncLoop env tableMap i store (table :: rest) =
      { effects := Effect.send (SyncMessage.migrateTable table) ::
          (syncTableObjects env (selectedObjects env store table dt)).1,
        store := store,
        err := some (SyncError.table table.Name e) } := by
  have hbody : syncTable env store table dt =
      { effects := Effect.send (SyncMessage.migrateTable table) ::
          (syncTableObjects env (selectedObjects env store table dt)).1,
        store := store,
        err := some (SyncError.table table.Name e) } := by
    rw [syncTable_eq]
    have hlen : (selectedObjects env store table dt).length ≠ 0 := by
      intro h
      exact hsel (List.length_eq_zero.1 h)
    rw [if_neg hlen]
    rcases hs : syncTableObjects env (selectedObjects env store table dt) with ⟨sent, err⟩
    rw [hs] at herr
    simp only at herr
    subst herr
    rfl
  simp only [syncLoop, hctx, hl, hbody]

theorem syncTables_eq_loop (env : Env) (store : Store) (tables : List DiscoveredTable)
    (filtered : List Table) (hst : env.stateClientErr = none)
    (hd : discover env = Except.ok tables)
    (hf : env.filterDfs (tables.filterMap (fun dt => dt.Table)) = Except.ok filtered) :
    syncTables env store = syncLoop env (tableMapOf tables) 0 store filtered := by
  unfold syncTables
  simp only [hst, hd, hf]
  rfl

/-- C11: if the loop of `syncTables` reaches a table whose streaming returns an
error, `syncTables` returns an error at once: its effects are those of the
earlier tables followed by the failing table's announce and the inserts sent
before the failure; nothing is emitted for a later table, and every `SetCursor`
call was made for an earlier table. -/
theorem stream_error_aborts (env : Env) (store : Store) (tables : List DiscoveredTable)
    (pre : List Table) (table : Table) (rest : List Table) (dt : DiscoveredTable) (e : Err)
    (hst : env.stateClientErr = none)
    (hd : discover env = Except.ok tables)
    (hf : env.filterDfs (tables.filterMap (fun dt => dt.Table)) =
      Except.ok (pre ++ table :: rest))
    (hpre : (syncLoop env (tableMapOf tables) 0 store pre).err = none)
    (hctx : env.ctxErr pre.length = none)
    (hl : (tableMapOf tables).lookup table.Name = some dt)
    (hsel : selectedObjects env
      (syncLoop env (tableMapOf tables) 0 store pre).store table dt ≠ [])
    (herr : (syncTableObjects env (selectedObjects env
      (syncLoop env (tableMapOf tables) 0 store pre).store table dt)).2 = some e) :
    syncTables env store =
      { effects := (syncLoop env (tableMapOf tables) 0 store pre).effects ++
          Effect.send (SyncMessage.migrateTable table) ::
            (syncTableObjects env (selectedObjects env
              (syncLoop env (tableMapOf tables) 0 store pre).store table dt)).1,
        store := (syncLoop env (tableMapOf tables) 0 store pre).store,
        err := some (SyncError.table table.Name e) } ∧
    (∀ name t, Effect.setCursor name t ∈ (syncTables env store).effects →
      Effect.setCursor name t ∈ (syncLoop env (tableMapOf tables) 0 store pre).effects) := by
  have hctx0 : env.ctxErr (0 + pre.length) = none := by rw [Nat.zero_add]; exact hctx
  have heq : syncTables env store =
      { effects := (syncLoop env (tableMapOf tables) 0 store pre).effects ++
          Effect.send (SyncMessage.migrateTable table) ::
            (syncTableObjects env (selectedObjects env
              (syncLoop env (tableMapOf tables) 0 store pre).store table dt)).1,
        store := (syncLoop env (tableMapOf tables) 0 store pre).store,
        err := some (SyncError.table table.Name e) } := by
    rw [syncTables_eq_loop env store tables _ hst hd hf, syncLoop_append, hpre]
    simp only
    rw [syncLoop_stream_error env (tableMapOf tables) (0 + pre.length) _ table rest dt e
      hctx0 hl hsel herr]
  refine ⟨heq, ?_⟩
  intro name t hin
  rw [heq] at hin
  simp only at hin
  rcases List.mem_append.1 hin with h | h
  · exact h
  · rcases List.mem_cons.1 h with h1 | h1
    · cases h1
    · obtain ⟨r, hr⟩ := syncTableObjects_sends env _ _ h1
      cases hr

theorem stream_error_aborts_witness :
    syncTables envBFatal [] =
      { effects := (syncLoop envBFatal (tableMapOf [dtData, dtLogs]) 0 [] []).effects ++
          Effect.send (SyncMessage.migrateTable tableData) ::
            (syncTableObjects envBFatal (selectedObjects envBFatal
              (syncLoop envBFatal (tableMapOf [dtData, dtLogs]) 0 [] []).store
              tableData dtData)).1,
        store := (syncLoop envBFatal (tableMapOf [dtData, dtLogs]) 0 [] []).store,
        err := some (SyncError.table tableData.Name
          { IsNoSuchKey := false,
            Msg := "failed to sync object data/b.parquet: connection timeout".toList }) } ∧
    (∀ name t, Effect.setCursor name t ∈ (syncTables envBFatal []).effects →
      Effect.setCursor name t ∈
        (syncLoop envBFatal (tableMapOf [dtData, dtLogs]) 0 [] []).effects) :=
  stream_error_aborts envBFatal [] [dtData, dtLogs] [] tableData [tableLogs] dtData
    { IsNoSuchKey := false,
      Msg := "failed to sync object data/b.parquet: connection timeout".toList }
    (by decide) (by rfl) (by rfl) (by decide) (by decide) (by decide) (by decide)
    (by decide)

/-- C12: the loop body of `syncTables` emits the table's announce first and
exactly once: everything after it is an insert or the `SetCursor` call; when the
cursor filter selects no object the announce is all that is emitted; and in the
loop the effects of a processed table are followed only by those of later
tables. -/
theorem announce_once_first (env : Env) (store : Store) (table : Table)
    (dt : DiscoveredTable) :
    (∃ tail, (syncTable env store table dt).effects =
        Effect.send (SyncMessage.migrateTable table) :: tail ∧
      (∀ e ∈ tail, (∃ r, e = Effect.send (SyncMessage.insert r)) ∨
        ∃ name t, e = Effect.setCursor name t) ∧
      (selectedObjects env store table dt = [] → tail = [])) ∧
    (∀ (tableMap : List (Str × DiscoveredTable)) (i : Nat) (rest : List Table),
      env.ctxErr i = none → tableMap.lookup table.Name = some dt →
      ∃ later, (syncLoop env tableMap i store (table :: rest)).effects =
        (syncTable env store table dt).effects ++ later ∧
        (later = [] ∨ later =
          (syncLoop env tableMap (i + 1) (syncTable env store table dt).store rest).effects)) := by
  constructor
  · rw [syncTable_eq]
    have hsend := syncTableObjects_sends env (selectedObjects env store table dt)
    by_cases hlen : (selectedObjects env store table dt).length = 0
    · rw [if_pos hlen]
      exact ⟨[], rfl, by simp, fun _ => rfl⟩
    · have hne : selectedObjects env store table dt ≠ [] := fun h => hlen (by rw [h]; rfl)
      rw [if_neg hlen]
      rcases hs : syncTableObjects env (selectedObjects env store table dt) with ⟨sent, err⟩
      rw [hs] at hsend
      cases err with
      | some e =>
        exact ⟨sent, rfl, fun e he => Or.inl (hsend e he), fun h => absurd h hne⟩
      | none =>
        simp only
        by_cases hz : (maxLastModified env.parse (selectedObjects env store table dt)).IsZero
            = true
        · simp only [hz, Bool.not_true, Bool.false_eq_true, if_false]
          exact ⟨sent, rfl, fun e he => Or.inl (hsend e he), fun h => absurd h hne⟩
        · have hz2 : (maxLastModified env.parse
              (selectedObjects env store table dt)).IsZero = false := by simpa using hz
          simp only [hz2, Bool.not_false, if_true]
          refine ⟨_, rfl, ?_, fun h => absurd h hne⟩
          intro e he
          rcases List.mem_append.1 he with h | h
          · exact Or.inl (hsend e h)
          · simp only [List.mem_singleton] at h
            exact Or.inr ⟨_, _, h⟩
  · intro tableMap i rest hctx hl
    cases he : (syncTable env store table dt).err with
    | some e =>
      refine ⟨[], ?_, Or.inl rfl⟩
      simp [syncLoop, hctx, hl, he]
    | none =>
      refine ⟨_, ?_, Or.inr rfl⟩
      simp [syncLoop, hctx, hl, he]

/-! ## Error classification -/

theorem toLower_ascii_of_lower (c : Char) (h : c.toLower.toNat < 128) : c.toNat < 128 := by
  unfold Char.toLower at h
  simp only at h
  split at h
  · rename_i hc
    omega
  · exact h

theorem strToLower_of_variant (lowerRune : Char → Char) (w sig : Str)
    (hsig : ∀ d ∈ sig, d.toNat < 128) (hw : w.map Char.toLower = sig) :
    strToLower lowerRune w = sig := by
  unfold strToLower
  rw [← hw]
  apply List.map_congr_left
  intro c hc
  have hlow : c.toLower ∈ sig := by
    rw [← hw]
    exact List.mem_map_of_mem _ hc
  have := toLower_ascii_of_lower c (hsig _ hlow)
  simp [toLowerRune, this]

theorem strToLower_append (lowerRune : Char → Char) (a b : Str) :
    strToLower lowerRune (a ++ b) = strToLower lowerRune a ++ strToLower lowerRune b := by
  simp [strToLower]

theorem knownSignatures_ascii : ∀ sig ∈ knownSignatures, ∀ d ∈ sig, d.toNat < 128 := by
  decide

theorem knownSignatures_sub : ∀ sig ∈ knownSignatures, sig ∈ malformedPatterns := by
  decide

theorem isMalformed_iff (toLower : Str → Str) (e : Err) :
    isMalformedParquetError toLower (some e) = true ↔
      ∃ p ∈ malformedPatterns, p <:+: toLower e.Msg := by
  simp [isMalformedParquetError, strContains, List.any_eq_true]

/-- C13 (as stated) fails: the failure `parquet: invalid footer length` is no
`NoSuchKey` and contains none of the four signatures, in any letter case, yet
`isMalformedParquetError` returns true for it and `syncObject` returns `nil`. -/
theorem fatal_classification_counterexample :
    errFooter.IsNoSuchKey = false ∧
    (∀ sig ∈ knownSignatures, ¬ sig <:+: errFooter.Msg) ∧
    (∀ sig ∈ knownSignatures,
      ¬ sig <:+: strToLower (envFailing errFooter).lowerRune errFooter.Msg) ∧
    isMalformedParquetError (strToLower (envFailing errFooter).lowerRune)
      (some errFooter) = true ∧
    syncObject (envFailing errFooter) objA = ([], none) := by
  decide

/-- C13 (amended): a streaming failure that is no `NoSuchKey` and whose
lower-cased text contains none of the five patterns of `malformedPatterns` is
fatal: `isMalformedParquetError` returns false and `syncObject` returns the
error, wrapped. -/
theorem fatal_classification (env : Env) (obj : S3Object) (recs : List RecordBatch)
    (e : Err) (hns : e.IsNoSuchKey = false)
    (hnone : ∀ p ∈ malformedPatterns, ¬ p <:+: strToLower env.lowerRune e.Msg) :
    isMalformedParquetError (strToLower env.lowerRune) (some e) = false ∧
    (env.streamRecords obj.Key = (recs, some e) →
      (syncObject env obj).2 =
        some (e.wrap ("failed to sync object ".toList ++ obj.Key ++ ": ".toList))) := by
  have hm : isMalformedParquetError (strToLower env.lowerRune) (some e) = false := by
    cases h : isMalformedParquetError (strToLower env.lowerRune) (some e) with
    | false => rfl
    | true =>
      obtain ⟨p, hp, hin⟩ := (isMalformed_iff _ e).1 h
      exact absurd hin (hnone p hp)
  refine ⟨hm, ?_⟩
  intro hs
  unfold syncObject
  rw [hs]
  simp only [hns, hm, Bool.false_eq_true, if_false]

theorem fatal_classification_witness :
    isMalformedParquetError (strToLower (envFailing errTimeout).lowerRune)
      (some errTimeout) = false ∧
    ((envFailing errTimeout).streamRecords objA.Key = ([], some errTimeout) →
      (syncObject (envFailing errTimeout) objA).2 =
        some (errTimeout.wrap ("failed to sync object ".toList ++ objA.Key ++ ": ".toList))) :=
  fatal_classification (envFailing errTimeout) objA [] errTimeout (by decide) (by decide)

/-- C14: for a non-nil error whose message contains one of the four signatures in
some letter case `isMalformedParquetError` returns true, and `syncObject` skips
the object (returns `nil`), as it also does for a `NoSuchKey`; for a nil error
`isMalformedParquetError` returns false. -/
theorem malformed_classification (env : Env) (obj : S3Object) (recs : List RecordBatch)
    (e : Err) (h : ∃ sig ∈ knownSignatures, containsAnyCase e.Msg sig) :
    isMalformedParquetError (strToLower env.lowerRune) (some e) = true ∧
    (env.streamRecords obj.Key = (recs, some e) → (syncObject env obj).2 = none) ∧
    isMalformedParquetError (strToLower env.lowerRune) none = false := by
  have hm : isMalformedParquetError (strToLower env.lowerRune) (some e) = true := by
    obtain ⟨sig, hsig, w, ⟨pre, post, hmsg⟩, hcase⟩ := h
    rw [isMalformed_iff]
    refine ⟨sig, knownSignatures_sub sig hsig, ?_⟩
    refine ⟨strToLower env.lowerRune pre, strToLower env.lowerRune post, ?_⟩
    rw [← hmsg, strToLower_append, strToLower_append,
      strToLower_of_variant env.lowerRune w sig (knownSignatures_ascii sig hsig) hcase]
  refine ⟨hm, ?_, rfl⟩
  intro hs
  unfold syncObject
  rw [hs]
  simp only [hm, if_true]
  split <;> rfl

theorem malformed_classification_witness :
    (∃ sig ∈ knownSignatures, containsAnyCase errMagic.Msg sig) ∧
    (isMalformedParquetError (strToLower (envFailing errMagic).lowerRune)
      (some errMagic) = true ∧
    ((envFailing errMagic).streamRecords objA.Key = ([], some errMagic) →
      (syncObject (envFailing errMagic) objA).2 = none) ∧
    isMalformedParquetError (strToLower (envFailing errMagic).lowerRune) none = false) :=
  ⟨⟨"magic number".toList, by decide, "MAGIC Number".toList, by decide, by decide⟩,
    malformed_classification (envFailing errMagic) objA [] errMagic
      ⟨"magic number".toList, by decide, "MAGIC Number".toList, by decide, by decide⟩⟩

/-! ## Root-level keys and idempotence -/

theorem rdropWhile_append_rtakeWhile (p : Char → Bool) (l : Str) :
    l.rdropWhile p ++ l.rtakeWhile p = l := by
  unfold List.rdropWhile List.rtakeWhile
  rw [← List.reverse_append, List.takeWhile_append_dropWhile, List.reverse_reverse]

/-- For a key without `/`, `Normalize` takes the root-level branch and the raw
name is the key without its final extension. -/
theorem rawName_root (key : Str) (hs : '/' ∉ key) : rawName key = stripFinalExt key := by
  by_cases hnil : key = []
  · subst hnil
    decide
  have hall : ∀ x ∈ key, (x != '/') = true := by
    intro x hx
    have : x ≠ '/' := fun h => hs (h ▸ hx)
    simpa using this
  have hlast : ∀ h : key ≠ [], ¬ ((key.getLast h == '/') = true) := by
    intro h h2
    have : key.getLast h = '/' := by simpa using h2
    exact hs (this ▸ List.getLast_mem h)
  have h1 : hasSuffixSlash key = false := by
    unfold hasSuffixSlash
    rw [List.getLast?_eq_getLast _ hnil]
    simpa using hlast hnil
  have h2 : trimRightSlash key = key := by
    unfold trimRightSlash
    rw [List.rdropWhile_eq_self_iff]
    exact hlast
  have h3 : pathDir key = ['.'] := by
    unfold pathDir pathSplit
    simp only
    rw [List.rdropWhile_eq_nil_iff.2 hall]
    rfl
  have h4 : pathBase key = key := by
    unfold pathBase
    simp only [hnil, if_false]
    rw [List.rdropWhile_eq_self_iff.2 hlast, List.rtakeWhile_eq_self_iff.2 hall]
    simp [hnil]
  have h5 : pathExt key = if '.' ∈ key then '.' :: key.rtakeWhile (· != '.') else [] := by
    unfold pathExt
    simp only
    rw [List.rtakeWhile_eq_self_iff.2 hall]
  unfold rawName
  simp only [h1, h2, h3, h4, h5, Bool.false_eq_true, if_false, true_or, if_true]
  unfold stripFinalExt trimSuffix
  by_cases hdot : '.' ∈ key
  · simp only [hdot, if_true]
    have hsplit := rdropWhile_append_rtakeWhile (· != '.') key
    have hne : key.rdropWhile (· != '.') ≠ [] := by
      intro h
      have := List.rdropWhile_eq_nil_iff.1 h '.' hdot
      simp at this
    have hl := List.rdropWhile_last_not (· != '.') key hne
    have hlast2 : (key.rdropWhile (· != '.')).getLast hne = '.' := by simpa using hl
    have hD := List.dropLast_append_getLast hne
    rw [hlast2] at hD
    have hkey : key = (key.rdropWhile (· != '.')).dropLast ++
        ('.' :: key.rtakeWhile (· != '.')) := by
      conv_lhs => rw [← hsplit, ← hD]
      simp
    generalize key.rtakeWhile (· != '.') = S at hkey ⊢
    generalize (key.rdropWhile (· != '.')).dropLast = D at hkey ⊢
    have hsuf : ('.' :: S).isSuffixOf key = true := by
      rw [List.isSuffixOf_iff_suffix]
      exact ⟨D, hkey.symm⟩
    rw [if_pos hsuf, hkey]
    simp
  · simp [hdot]

/-- What the sanitising steps guarantee of their result. -/
theorem sanitize_facts (raw : Str) :
    (∀ c ∈ sanitize raw, isNameChar c = true) ∧ (sanitize raw).head? ≠ some '_' ∧
    (sanitize raw).getLast? ≠ some '_' ∧ NoDoubleUnderscore (sanitize raw) := by
  refine ⟨?_, trimUnderscores_head _, trimUnderscores_getLast _, ?_⟩
  · intro c hc
    unfold sanitize at hc
    have h1 := (trimUnderscores_within _).subset hc
    have h2 := (collapseUnderscores_sublist _).subset h1
    exact isNameChar_of_mem_replaceInvalidChars _ c h2
  · unfold sanitize
    exact List.Chain'.infix (collapseUnderscores_noDouble _) (trimUnderscores_within _)

theorem collapseUnderscores_fixed (s : Str) (h : NoDoubleUnderscore s) :
    collapseUnderscores s = s := by
  unfold NoDoubleUnderscore at h
  induction s with
  | nil => rfl
  | cons c rest ih =>
    cases rest with
    | nil => rfl
    | cons d rest =>
      rw [List.chain'_cons] at h
      rw [collapseUnderscores, if_neg h.1, ih h.2]

theorem trimUnderscores_fixed (s : Str) (h1 : s.head? ≠ some '_')
    (h2 : s.getLast? ≠ some '_') : trimUnderscores s = s := by
  unfold trimUnderscores
  have hd : s.dropWhile (· == '_') = s := by
    cases s with
    | nil => rfl
    | cons a rest =>
      have : a ≠ '_' := by
        intro h
        apply h1
        simp [h]
      simp [List.dropWhile_cons, this]
  rw [hd, List.rdropWhile_eq_self_iff]
  intro hne hlast
  apply h2
  rw [List.getLast?_eq_getLast _ hne]
  simpa using hlast

/-- A name made of name characters, without underscores at its ends or doubled,
is left as it is by the sanitising steps. -/
theorem sanitize_fixed (n : Str) (h1 : ∀ c ∈ n, isNameChar c = true)
    (h2 : n.head? ≠ some '_') (h3 : n.getLast? ≠ some '_') (h4 : NoDoubleUnderscore n) :
    sanitize n = n := by
  have hs : replaceSlashes n = n := by
    unfold replaceSlashes
    conv_rhs => rw [← List.map_id n]
    apply List.map_congr_left
    intro c hc
    have : c ≠ '/' := by
      intro h
      have := h1 c hc
      rw [h] at this
      exact absurd this (by decide)
    simp [this]
  have hi : replaceInvalidChars n = n := by
    unfold replaceInvalidChars
    conv_rhs => rw [← List.map_id n]
    apply List.map_congr_left
    intro c hc
    simp [h1 c hc]
  unfold sanitize
  rw [hs, hi, collapseUnderscores_fixed n h4, trimUnderscores_fixed n h2 h3]

/-- C16: `Normalize` is idempotent: `Normalize(Normalize(key)) = Normalize(key)`. -/
theorem Normalize_idempotent (key : Str) : Normalize (Normalize key) = Normalize key := by
  obtain ⟨h1, h2, h3, h4⟩ := sanitize_facts (rawName key)
  have hslash : '/' ∉ Normalize key := by
    intro h
    exact absurd (h1 _ h) (by decide)
  have hdot : '.' ∉ Normalize key := by
    intro h
    exact absurd (h1 _ h) (by decide)
  have hraw : rawName (Normalize key) = Normalize key := by
    rw [rawName_root _ hslash]
    unfold stripFinalExt
    rw [if_neg hdot]
  show sanitize (rawName (Normalize key)) = Normalize key
  rw [hraw]
  exact sanitize_fixed _ h1 h2 h3 h4

/-- C17: for a key without `/` (a root-level key), `Normalize(key)` is the
sanitised file name with only its final extension, the text from the last `.`,
removed. -/
theorem Normalize_root_level (key : Str) (hs : '/' ∉ key) :
    Normalize key = sanitize (stripFinalExt key) := by
  unfold Normalize
  rw [rawName_root key hs]

theorem Normalize_root_level_witness :
    '/' ∉ "data.v2.parquet".toList ∧
    stripFinalExt "data.v2.parquet".toList = "data.v2".toList ∧
    sanitize (stripFinalExt "data.v2.parquet".toList) = "data_v2".toList ∧
    Normalize "data.v2.parquet".toList = sanitize (stripFinalExt "data.v2.parquet".toList) :=
  ⟨by decide, by decide, by decide, Normalize_root_level "data.v2.parquet".toList (by decide)⟩

/-! ## Keys without letters or digits -/

/-- The loop of `path.Clean` writes only bytes of its input, `/` and `.`. -/
theorem cleanLoop_pred (P : Char → Prop) (hslash : P '/') (hdot : P '.') (rooted : Bool)
    (fuel : Nat) (rest out : Str) (dotdot : Nat)
    (hrest : ∀ c ∈ rest, P c) (hout : ∀ c ∈ out, P c) :
    ∀ c ∈ cleanLoop rooted fuel rest out dotdot, P c := by
  induction fuel generalizing rest out dotdot with
  | zero =>
    intro c hc
    unfold cleanLoop at hc
    exact hout c hc
  | succ fuel ih =>
    cases rest with
    | nil =>
      intro c hc
      unfold cleanLoop at hc
      exact hout c hc
    | cons a rest =>
      have hrest2 : ∀ c ∈ rest, P c := fun c hc => hrest c (List.mem_cons_of_mem _ hc)
      have htail : ∀ c ∈ rest.tail, P c := fun c hc => hrest2 c (List.mem_of_mem_tail hc)
      unfold cleanLoop
      split
      · exact ih rest out dotdot hrest2 hout
      · split
        · exact ih rest out dotdot hrest2 hout
        · split
          · split
            · apply ih _ _ _ htail
              intro c hc
              exact hout c (List.mem_of_mem_take hc)
            · split
              · apply ih _ _ _ htail
                intro c hc
                rcases List.mem_append.1 hc with h | h
                · split at h
                  · rcases List.mem_append.1 h with h2 | h2
                    · exact hout c h2
                    · simp only [List.mem_singleton] at h2
                      rw [h2]; exact hslash
                  · exact hout c h
                · simp only [List.mem_cons, List.mem_singleton, List.not_mem_nil,
                    or_false, or_self] at h
                  rw [h]; exact hdot
              · exact ih _ _ _ htail hout
          · apply ih
            · intro c hc
              exact hrest c ((List.dropWhile_suffix _).subset hc)
            · intro c hc
              rcases List.mem_append.1 hc with h | h
              · split at h
                · rcases List.mem_append.1 h with h2 | h2
                  · exact hout c h2
                  · simp only [List.mem_singleton] at h2
                    rw [h2]; exact hslash
                · exact hout c h
              · exact hrest c ((List.takeWhile_prefix _).subset h)

theorem pathClean_pred (P : Char → Prop) (hslash : P '/') (hdot : P '.') (path : Str)
    (hpath : ∀ c ∈ path, P c) : ∀ c ∈ pathClean path, P c := by
  have hsingle : ∀ c ∈ ['.'], P c := by
    intro c hc
    simp only [List.mem_singleton] at hc
    rw [hc]; exact hdot
  have hsl : ∀ c ∈ ['/'], P c := by
    intro c hc
    simp only [List.mem_singleton] at hc
    rw [hc]; exact hslash
  have htail : ∀ c ∈ path.tail, P c := fun c hc => hpath c (List.mem_of_mem_tail hc)
  unfold pathClean
  by_cases hp : path = []
  · rw [if_pos hp]
    exact hsingle
  · rw [if_neg hp]
    simp only
    have hout : ∀ c ∈ (if (path.head? == some '/') = true then
        cleanLoop true path.length path.tail ['/'] 1
        else cleanLoop false path.length path [] 0), P c := by
      split
      · exact cleanLoop_pred P hslash hdot true _ _ _ _ htail hsl
      · exact cleanLoop_pred P hslash hdot false _ _ _ _ hpath (by simp)
    generalize (if (path.head? == some '/') = true then
        cleanLoop true path.length path.tail ['/'] 1
        else cleanLoop false path.length path [] 0) = out at hout ⊢
    split
    · exact hsingle
    · exact hout

theorem rawName_pred (P : Char → Prop) (hslash : P '/') (hdot : P '.') (key : Str)
    (hkey : ∀ c ∈ key, P c) : ∀ c ∈ rawName key, P c := by
  have htrim : ∀ c ∈ trimRightSlash key, P c := fun c hc =>
    hkey c ((List.rdropWhile_prefix _ _).subset hc)
  have hbase : ∀ c ∈ pathBase (trimRightSlash key), P c := by
    unfold pathBase
    split
    · intro c hc
      simp only [List.mem_singleton] at hc
      rw [hc]; exact hdot
    · simp only
      split
      · intro c hc
        simp only [List.mem_singleton] at hc
        rw [hc]; exact hslash
      · intro c hc
        exact htrim c ((List.rdropWhile_prefix _ _).subset ((List.rtakeWhile_suffix _ _).subset hc))
  have hdir : ∀ c ∈ pathDir (trimRightSlash key), P c := by
    unfold pathDir pathSplit
    apply pathClean_pred P hslash hdot
    intro c hc
    exact htrim c ((List.rdropWhile_prefix _ _).subset hc)
  unfold rawName
  simp only
  split
  · exact htrim
  · split
    · intro c hc
      unfold trimSuffix at hc
      split at hc
      · exact hbase c (List.mem_of_mem_take hc)
      · exact hbase c hc
    · exact hdir

theorem sanitize_no_alnum (raw : Str) (h : ∀ c ∈ raw, isAlnum c = false) :
    sanitize raw = [] := by
  have hall : ∀ c ∈ collapseUnderscores (replaceInvalidChars (replaceSlashes raw)),
      (c == '_') = true := by
    intro c hc
    have h1 := (collapseUnderscores_sublist _).subset hc
    unfold replaceInvalidChars replaceSlashes at h1
    rw [List.map_map] at h1
    obtain ⟨a, ha, rfl⟩ := List.mem_map.1 h1
    have hna := h a ha
    simp only [Function.comp]
    by_cases hs : a = '/'
    · subst hs
      decide
    · simp only [hs, if_false]
      by_cases hn : isNameChar a = true
      · simp only [hn, if_true]
        unfold isNameChar at hn
        unfold isAlnum at hna
        rw [hna] at hn
        simpa using hn
      · simp [hn]
  unfold sanitize trimUnderscores
  rw [List.dropWhile_eq_nil_iff.2 hall]
  rfl

/-- C18: a key without ASCII letters and digits normalizes to the empty string,
and an object with such a key is in no table that `groupByPrefix` returns. -/
theorem Normalize_no_alnum (key : Str) (hk : ∀ c ∈ key, isAlnum c = false) :
    Normalize key = [] ∧
    ∀ (objects : List S3Object) (o : S3Object), o.Key = key →
      ∀ t ∈ groupByPrefix objects, o ∉ t.Objects := by
  have hn : Normalize key = [] :=
    sanitize_no_alnum _
      (rawName_pred (fun c => isAlnum c = false) (by decide) (by decide) key hk)
  refine ⟨hn, ?_⟩
  intro objects o hkey t ht hin
  obtain ⟨e, he, rfl⟩ := (mem_groupByPrefix objects t).1 ht
  obtain ⟨_, hne, hobjs⟩ := (groupInv_foldl objects).2.1 e he
  rw [hobjs] at hin
  have := (List.mem_filter.1 hin).2
  simp only [decide_eq_true_eq] at this
  rw [hkey, hn] at this
  exact hne this.symm

theorem Normalize_no_alnum_witness :
    (∀ c ∈ objNoName.Key, isAlnum c = false) ∧
    (Normalize objNoName.Key = [] ∧
    ∀ (objects : List S3Object) (o : S3Object), o.Key = objNoName.Key →
      ∀ t ∈ groupByPrefix objects, o ∉ t.Objects) :=
  ⟨by decide, Normalize_no_alnum objNoName.Key (by decide)⟩

/-! ## Order independence, the zero cursor and the maximum -/

theorem mem_groupByPrefix_names (objs : List S3Object) (n : Str) :
    n ∈ (groupByPrefix objs).map (fun t => t.Name) ↔
      n ≠ [] ∧ ∃ o ∈ objs, Normalize o.Key = n := by
  have hinv := groupInv_foldl objs
  constructor
  · intro h
    obtain ⟨t, ht, rfl⟩ := List.mem_map.1 h
    obtain ⟨e, he, rfl⟩ := (mem_groupByPrefix objs t).1 ht
    obtain ⟨h1, h2, _⟩ := hinv.2.1 e he
    obtain ⟨o, ho, hn⟩ := groupStep_keys_from_objects objs e he
    rw [h1]
    exact ⟨h2, o, ho, hn⟩
  · rintro ⟨hne, o, ho, rfl⟩
    obtain ⟨e, he, hk⟩ := List.mem_map.1 (hinv.2.2 o ho hne)
    refine List.mem_map.2 ⟨e.2, (mem_groupByPrefix objs e.2).2 ⟨e, he, rfl⟩, ?_⟩
    rw [(hinv.2.1 e he).1, hk]

theorem groupByPrefix_objects_eq (objs : List S3Object) (t : DiscoveredTable)
    (ht : t ∈ groupByPrefix objs) :
    t.Objects = objs.filter (fun o => Normalize o.Key = t.Name) := by
  obtain ⟨e, he, rfl⟩ := (mem_groupByPrefix objs t).1 ht
  obtain ⟨h1, _, h3⟩ := (groupInv_foldl objs).2.1 e he
  rw [h1]
  exact h3

/-- C15: grouping does not depend on the order of the input: for a permutation
of the object list `groupByPrefix` returns the same sequence of table names, and
tables of the same name hold the same objects up to order. -/
theorem groupByPrefix_order_independent (objs objs2 : List S3Object)
    (h : objs2.Perm objs) :
    (groupByPrefix objs2).map (fun t => t.Name) =
      (groupByPrefix objs).map (fun t => t.Name) ∧
    ∀ t ∈ groupByPrefix objs, ∀ t2 ∈ groupByPrefix objs2, t2.Name = t.Name →
      t2.Objects.Perm t.Objects := by
  constructor
  · have hperm : ((groupByPrefix objs2).map (fun t => t.Name)).Perm
        ((groupByPrefix objs).map (fun t => t.Name)) := by
      rw [List.perm_ext_iff_of_nodup (groupByPrefix_names_nodup objs2)
        (groupByPrefix_names_nodup objs)]
      intro n
      rw [mem_groupByPrefix_names, mem_groupByPrefix_names]
      constructor
      · rintro ⟨hne, o, ho, hn⟩
        exact ⟨hne, o, h.mem_iff.1 ho, hn⟩
      · rintro ⟨hne, o, ho, hn⟩
        exact ⟨hne, o, h.mem_iff.2 ho, hn⟩
    haveI : IsAntisymm Str (fun a b => strLt a b = true) :=
      ⟨fun a b h1 h2 => by rw [strLt_asymm _ _ h1] at h2; cases h2⟩
    have hs2 : List.Sorted (fun a b : Str => strLt a b = true)
        ((groupByPrefix objs2).map (fun t => t.Name)) :=
      List.pairwise_map.2 (groupByPrefix_pairwise_lt objs2)
    have hs1 : List.Sorted (fun a b : Str => strLt a b = true)
        ((groupByPrefix objs).map (fun t => t.Name)) :=
      List.pairwise_map.2 (groupByPrefix_pairwise_lt objs)
    exact List.eq_of_perm_of_sorted hperm hs2 hs1
  · intro t ht t2 ht2 hname
    rw [groupByPrefix_objects_eq objs t ht, groupByPrefix_objects_eq objs2 t2 ht2, hname]
    exact h.filter _

theorem groupByPrefix_order_independent_witness :
    [objX, objB, objA].Perm [objA, objB, objX] ∧
    ((groupByPrefix [objX, objB, objA]).map (fun t => t.Name) =
      (groupByPrefix [objA, objB, objX]).map (fun t => t.Name) ∧
    ∀ t ∈ groupByPrefix [objA, objB, objX], ∀ t2 ∈ groupByPrefix [objX, objB, objA],
      t2.Name = t.Name → t2.Objects.Perm t.Objects) :=
  ⟨by decide, groupByPrefix_order_independent [objA, objB, objX] [objX, objB, objA]
    (by decide)⟩

/-- C19: for the zero-time cursor, and for any cursor that `IsZero`,
`filterObjectsByCursor` returns the input list unchanged, whatever the
`LastModified` values are. -/
theorem filterObjectsByCursor_zero_cursor (parse : Str → Option Time)
    (objects : List S3Object) :
    filterObjectsByCursor parse objects Time.zero = objects ∧
    ∀ cursor : Time, cursor.IsZero = true →
      filterObjectsByCursor parse objects cursor = objects := by
  refine ⟨?_, ?_⟩
  · unfold filterObjectsByCursor
    rw [if_pos (by rfl)]
  · intro cursor hc
    unfold filterObjectsByCursor
    rw [if_pos hc]

/-- C20: `maxLastModified` departs from its own comment, "returns the maximum
LastModified timestamp from a list of objects": for the one-object list whose
`LastModified` is `0000-06-01T00:00:00Z`, which parses, it returns the zero
time `0001-01-01T00:00:00Z`, which is the `LastModified` of no object of the
list. -/
theorem maxLastModified_before_zero_time :
    [objY] ≠ [] ∧
    (∀ o ∈ [objY], (parseRFC3339Nano o.LastModified).isSome = true) ∧
    parseRFC3339Nano objY.LastModified = some { nsec := -18489600000000000, offset := 0 } ∧
    maxLastModified parseRFC3339Nano [objY] = Time.zero ∧
    (∀ o ∈ [objY], ∀ t, parseRFC3339Nano o.LastModified = some t →
      t.nsec ≠ (maxLastModified parseRFC3339Nano [objY]).nsec) := by
  refine ⟨by decide, by decide, by decide, by decide, ?_⟩
  intro o ho t ht
  simp only [List.mem_singleton] at ho
  subst ho
  rw [show parseRFC3339Nano objY.LastModified =
    some { nsec := -18489600000000000, offset := 0 } from by decide] at ht
  cases ht
  decide

/-- The loop of `maxLastModified` returns its start value or the `LastModified` of
an object that is after the start value. -/
theorem maxFrom_mem_after (parse : Str → Option Time) (init : Time)
    (objects : List S3Object) :
    maxFrom parse init objects = init ∨
    ∃ o ∈ objects, parse o.LastModified = some (maxFrom parse init objects) ∧
      init.nsec < (maxFrom parse init objects).nsec := by
  induction objects generalizing init with
  | nil => exact Or.inl rfl
  | cons a l ih =>
    unfold maxFrom
    rw [List.foldl_cons]
    cases hp : parse a.LastModified with
    | none =>
      simp only
      rcases ih init with h | ⟨o, ho, h, hlt⟩
      · exact Or.inl h
      · exact Or.inr ⟨o, List.mem_cons_of_mem _ ho, h, hlt⟩
    | some t =>
      simp only
      by_cases ha : t.After init = true
      · simp only [ha, if_true]
        have hlt : init.nsec < t.nsec := by simpa [Time.After] using ha
        rcases ih t with h | ⟨o, ho, h, hlt2⟩
        · right
          refine ⟨a, List.mem_cons_self _ _, ?_, ?_⟩
          · rw [hp]
            exact congrArg some h.symm
          · have h2 : maxFrom parse t l = t := h
            show init.nsec < (maxFrom parse t l).nsec
            rw [h2]
            exact hlt
        · refine Or.inr ⟨o, List.mem_cons_of_mem _ ho, h, ?_⟩
          exact lt_trans hlt hlt2
      · simp only [ha, if_false]
        rcases ih init with h | ⟨o, ho, h, hlt⟩
        · exact Or.inl h
        · exact Or.inr ⟨o, List.mem_cons_of_mem _ ho, h, hlt⟩

/-- What the loop of `maxLastModified` computes: for an object list whose
`LastModified` values all parse and of which one is later than the zero time,
it returns the maximum:
the `LastModified` of some object of the list, not earlier than that of any
object; if no value is later than the zero time, as for the empty list, it
returns the zero time. -/
theorem maxLastModified_spec (parse : Str → Option Time) (objects : List S3Object)
    (hall : ∀ o ∈ objects, (parse o.LastModified).isSome = true) :
    ((∃ o ∈ objects, ∃ t, parse o.LastModified = some t ∧ 0 < t.nsec) →
      (∃ o ∈ objects, parse o.LastModified = some (maxLastModified parse objects)) ∧
      ∀ o ∈ objects, ∃ t, parse o.LastModified = some t ∧
        t.nsec ≤ (maxLastModified parse objects).nsec) ∧
    ((∀ o ∈ objects, ∀ t, parse o.LastModified = some t → t.nsec ≤ 0) →
      maxLastModified parse objects = Time.zero) ∧
    maxLastModified parse [] = Time.zero := by
  have hge := maxFrom_ge parse Time.zero objects
  have hmem := maxFrom_mem parse Time.zero objects
  rw [← maxLastModified_eq_maxFrom] at hge hmem
  refine ⟨?_, ?_, rfl⟩
  · rintro ⟨o, ho, t, ht, hpos⟩
    refine ⟨?_, fun o2 ho2 => ?_⟩
    swap
    · have hs := hall o2 ho2
      cases hp : parse o2.LastModified with
      | none => rw [hp] at hs; cases hs
      | some t2 => exact ⟨t2, rfl, hge.2 o2 ho2 t2 hp⟩
    rcases hmem with h | h
    · have := hge.2 o ho t ht
      rw [h] at this
      have hz : Time.zero.nsec = 0 := rfl
      omega
    · exact h
  · intro hle
    rcases maxFrom_mem_after parse Time.zero objects with h | ⟨o, ho, h, hlt⟩
    · exact h
    · have h1 := hle o ho _ h
      have hz : Time.zero.nsec = 0 := rfl
      omega

theorem maxLastModified_spec_witness :
    (∀ o ∈ [objA, objB], (parseRFC3339Nano o.LastModified).isSome = true) ∧
    (∃ o ∈ [objA, objB], ∃ t, parseRFC3339Nano o.LastModified = some t ∧ 0 < t.nsec) ∧
    maxLastModified parseRFC3339Nano [objA, objB] = timeB ∧
    (((∃ o ∈ [objA, objB], ∃ t, parseRFC3339Nano o.LastModified = some t ∧ 0 < t.nsec) →
      (∃ o ∈ [objA, objB], parseRFC3339Nano o.LastModified =
        some (maxLastModified parseRFC3339Nano [objA, objB])) ∧
      ∀ o ∈ [objA, objB], ∃ t, parseRFC3339Nano o.LastModified = some t ∧
        t.nsec ≤ (maxLastModified parseRFC3339Nano [objA, objB]).nsec) ∧
    ((∀ o ∈ [objA, objB], ∀ t, parseRFC3339Nano o.LastModified = some t → t.nsec ≤ 0) →
      maxLastModified parseRFC3339Nano [objA, objB] = Time.zero) ∧
    maxLastModified parseRFC3339Nano [] = Time.zero) :=
  ⟨by decide, ⟨objA, by decide, timeA, by decide, by decide⟩, by decide,
    maxLastModified_spec parseRFC3339Nano [objA, objB] (by decide)⟩

/-! ## Configuration -/

/-- C24: `Spec.Validate` returns no error exactly when `Bucket` and `Region` are
non-empty, `FileType` is `parquet` and `RowsPerRecord` is at least 1; the value of
`Concurrency` has no influence on the result. -/
theorem Spec_Validate_iff (s : Spec) :
    (s.Validate = none ↔
      s.Bucket ≠ [] ∧ s.Region ≠ [] ∧ s.FileType = "parquet".toList ∧ 1 ≤ s.RowsPerRecord) ∧
    ∀ c : Int, ({ s with Concurrency := c } : Spec).Validate = s.Validate := by
  refine ⟨?_, fun c => rfl⟩
  unfold Spec.Validate
  generalize "parquet".toList = pq
  by_cases hb : s.Bucket = []
  · simp [hb]
  · by_cases hr : s.Region = []
    · simp [hb, hr]
    · by_cases hf : s.FileType = pq
      · by_cases hn : s.RowsPerRecord < 1
        · simp only [hb, hr, hf, hn, if_true, if_false, ne_eq, not_true_eq_false]
          constructor
          · intro h; cases h
          · rintro ⟨_, _, _, h⟩
            omega
        · simp only [hb, hr, hf, hn, if_false, ne_eq, not_true_eq_false, not_false_eq_true,
            true_and, true_iff]
          omega
      · simp [hb, hr, hf]

/-- C25: `Spec.SetDefaults` puts `parquet`, 500 and 50 into those of `FileType`,
`RowsPerRecord` and `Concurrency` that hold their zero value, leaves every set
value and every other field as it is, and applying it twice is the same as
applying it once. -/
theorem Spec_SetDefaults_frame (s : Spec) :
    s.SetDefaults.FileType = (if s.FileType = [] then "parquet".toList else s.FileType) ∧
    s.SetDefaults.RowsPerRecord = (if s.RowsPerRecord = 0 then 500 else s.RowsPerRecord) ∧
    s.SetDefaults.Concurrency = (if s.Concurrency = 0 then 50 else s.Concurrency) ∧
    s.SetDefaults.Bucket = s.Bucket ∧ s.SetDefaults.Region = s.Region ∧
    s.SetDefaults.LocalProfile = s.LocalProfile ∧ s.SetDefaults.PathPrefix = s.PathPrefix ∧
    s.SetDefaults.Endpoint = s.Endpoint ∧ s.SetDefaults.PathStyle = s.PathStyle ∧
    s.SetDefaults.SetDefaults = s.SetDefaults := by
  unfold Spec.SetDefaults
  by_cases h1 : s.FileType = [] <;> by_cases h2 : s.RowsPerRecord = 0 <;>
    by_cases h3 : s.Concurrency = 0 <;> simp [h1, h2, h3]

/-! ## The cursor store -/

/-- C21: `GetCursor` returns the zero time and no error when `GetKey` succeeds and
the stored value is empty or does not parse; it returns an error exactly when
`GetKey` fails. -/
theorem GetCursor_zero_or_error (env : Env) (store : Store) (tableName : Str) :
    (env.getKeyErr (CursorKey env.Bucket tableName) = none →
      (store.get (CursorKey env.Bucket tableName) = [] ∨
        env.parse (store.get (CursorKey env.Bucket tableName)) = none) →
      GetCursor env store tableName = (Time.zero, none)) ∧
    ((GetCursor env store tableName).2 ≠ none ↔
      env.getKeyErr (CursorKey env.Bucket tableName) ≠ none) := by
  cases hk : env.getKeyErr (CursorKey env.Bucket tableName) with
  | some e => simp [GetCursor, hk]
  | none =>
    by_cases hv : store.get (CursorKey env.Bucket tableName) = []
    · simp [GetCursor, hk, hv]
    · cases hp : env.parse (store.get (CursorKey env.Bucket tableName)) with
      | none => simp [GetCursor, hk, hv, hp]
      | some t => simp [GetCursor, hk, hv, hp]

theorem rtakeWhile_after_slash (b t : Str) (ht : '/' ∉ t) :
    (b ++ '/' :: t).rtakeWhile (· != '/') = t := by
  unfold List.rtakeWhile
  rw [List.reverse_append, List.reverse_cons, List.append_assoc]
  rw [List.takeWhile_append_of_pos]
  · simp
  · intro c hc
    have : c ≠ '/' := fun h => ht (h ▸ List.mem_reverse.1 hc)
    simpa using this

/-- C23: `CursorKey(bucket, table)` is `s3/<bucket>/<table>/last_modified_cursor`;
for table names without `/` two different pairs of bucket and table never give
the same key, and storing under the key of one pair leaves the value read under
the key of another as it was. -/
theorem CursorKey_injective (b1 t1 b2 t2 : Str) (h1 : '/' ∉ t1) (h2 : '/' ∉ t2) :
    CursorKey b1 t1 =
      "s3/".toList ++ b1 ++ "/".toList ++ t1 ++ "/last_modified_cursor".toList ∧
    (CursorKey b1 t1 = CursorKey b2 t2 → b1 = b2 ∧ t1 = t2) ∧
    ((b1, t1) ≠ (b2, t2) → ∀ (s : Store) (v : Str),
      (s.set (CursorKey b1 t1) v).get (CursorKey b2 t2) = s.get (CursorKey b2 t2)) ∧
    (∀ k : Str, '/' ∉ Normalize k) := by
  have hnorm : ∀ k : Str, '/' ∉ Normalize k := by
    intro k h
    exact absurd ((sanitize_facts (rawName k)).1 _ h) (by decide)
  have hinj : CursorKey b1 t1 = CursorKey b2 t2 → b1 = b2 ∧ t1 = t2 := by
    intro h
    unfold CursorKey at h
    have h3 := List.append_cancel_right h
    simp only [List.append_assoc] at h3
    have h4 := List.append_cancel_left h3
    have h5 : b1 ++ '/' :: t1 = b2 ++ '/' :: t2 := h4
    have ht : t1 = t2 := by
      have := congrArg (List.rtakeWhile (· != '/')) h5
      rwa [rtakeWhile_after_slash b1 t1 h1, rtakeWhile_after_slash b2 t2 h2] at this
    subst ht
    exact ⟨List.append_cancel_right h5, rfl⟩
  refine ⟨rfl, hinj, ?_, hnorm⟩
  intro hne s v
  have hk : CursorKey b2 t2 ≠ CursorKey b1 t1 := by
    intro h
    obtain ⟨hb, ht⟩ := hinj h.symm
    exact hne (by rw [hb, ht])
  unfold Store.set Store.get
  rw [List.lookup_cons]
  have : (CursorKey b2 t2 == CursorKey b1 t1) = false := by simpa using hk
  rw [this]

theorem CursorKey_injective_witness :
    '/' ∉ "data_2024".toList ∧ '/' ∉ "logs".toList ∧
    (CursorKey "my-bucket".toList "data_2024".toList =
      "s3/".toList ++ "my-bucket".toList ++ "/".toList ++ "data_2024".toList ++
        "/last_modified_cursor".toList ∧
    (CursorKey "my-bucket".toList "data_2024".toList = CursorKey "my-bucket".toList "logs".toList →
      "my-bucket".toList = "my-bucket".toList ∧ "data_2024".toList = "logs".toList) ∧
    (("my-bucket".toList, "data_2024".toList) ≠ ("my-bucket".toList, "logs".toList) →
      ∀ (s : Store) (v : Str),
        (s.set (CursorKey "my-bucket".toList "data_2024".toList) v).get
            (CursorKey "my-bucket".toList "logs".toList) =
          s.get (CursorKey "my-bucket".toList "logs".toList)) ∧
    (∀ k : Str, '/' ∉ Normalize k)) :=
  ⟨by decide, by decide,
    CursorKey_injective "my-bucket".toList "data_2024".toList "my-bucket".toList "logs".toList
      (by decide) (by decide)⟩

/-! ## Sequential streaming and the key in the failure text -/

/-- The effects of streaming a list of objects one after the other. -/
theorem syncSequential_all_ok (env : Env) (objects : List S3Object)
    (h : ∀ o ∈ objects, (syncObject env o).2 = none) :
    syncSequential env objects =
      ((objects.map (fun o => (syncObject env o).1)).flatten, none) := by
  induction objects with
  | nil => rfl
  | cons o rest ih =>
    have ho := h o (List.mem_cons_self _ _)
    have hrest := ih (fun p hp => h p (List.mem_cons_of_mem _ hp))
    unfold syncSequential
    rcases hs : syncObject env o with ⟨sent, err⟩
    rw [hs] at ho
    simp only at ho
    subst ho
    simp only [hrest, List.map_cons, List.flatten_cons, hs]

theorem syncSequential_first_error (env : Env) (pre : List S3Object) (o : S3Object)
    (post : List S3Object) (e : Err) (hpre : ∀ p ∈ pre, (syncObject env p).2 = none)
    (ho : (syncObject env o).2 = some e) :
    syncSequential env (pre ++ o :: post) =
      ((pre.map (fun p => (syncObject env p).1)).flatten ++ (syncObject env o).1, some e) := by
  induction pre with
  | nil =>
    unfold syncSequential
    rcases hs : syncObject env o with ⟨sent, err⟩
    rw [hs] at ho
    simp only at ho
    subst ho
    simp [hs]
  | cons p rest ih =>
    have hp := hpre p (List.mem_cons_self _ _)
    have hrest := ih (fun q hq => hpre q (List.mem_cons_of_mem _ hq))
    rw [List.cons_append]
    unfold syncSequential
    rcases hs : syncObject env p with ⟨sent, err⟩
    rw [hs] at hp
    simp only at hp
    subst hp
    simp only [hrest, List.map_cons, List.flatten_cons, hs, List.append_assoc]

/-- C26: with `concurrency = 1`, `syncTableObjects` handles the objects one at a
time in input order: if an object fails after the objects before it succeeded or
were skipped, its error is returned and the effects are those of the objects up
to and including it, nothing of a later object; if no object fails, `nil` is
returned and the effects are those of all objects in order. -/
theorem syncTableObjects_sequential (env : Env) (hc : env.Concurrency = 1) :
    (∀ (pre : List S3Object) (o : S3Object) (post : List S3Object) (e : Err),
      (∀ p ∈ pre, (syncObject env p).2 = none) → (syncObject env o).2 = some e →
      syncTableObjects env (pre ++ o :: post) =
        ((pre.map (fun p => (syncObject env p).1)).flatten ++ (syncObject env o).1, some e)) ∧
    (∀ objects : List S3Object, (∀ o ∈ objects, (syncObject env o).2 = none) →
      syncTableObjects env objects =
        ((objects.map (fun o => (syncObject env o).1)).flatten, none)) := by
  constructor
  · intro pre o post e hpre ho
    unfold syncTableObjects
    rw [if_pos hc]
    exact syncSequential_first_error env pre o post e hpre ho
  · intro objects h
    unfold syncTableObjects
    rw [if_pos hc]
    exact syncSequential_all_ok env objects h

theorem syncTableObjects_sequential_witness :
    envBFatal.Concurrency = 1 ∧
    syncTableObjects envBFatal [objA, objB, objX] =
      ([Effect.send (SyncMessage.insert { Key := objA.Key, NumRows := 100 })],
        some { IsNoSuchKey := false,
               Msg := "failed to sync object data/b.parquet: connection timeout".toList }) ∧
    syncTableObjects envBVanished [objA, objB, objX] =
      ([Effect.send (SyncMessage.insert { Key := objA.Key, NumRows := 100 }),
        Effect.send (SyncMessage.insert { Key := objX.Key, NumRows := 100 })], none) ∧
    (∀ (pre : List S3Object) (o : S3Object) (post : List S3Object) (e : Err),
      (∀ p ∈ pre, (syncObject envBFatal p).2 = none) → (syncObject envBFatal o).2 = some e →
      syncTableObjects envBFatal (pre ++ o :: post) =
        ((pre.map (fun p => (syncObject envBFatal p).1)).flatten ++ (syncObject envBFatal o).1,
          some e)) :=
  ⟨by decide, by decide, by decide, (syncTableObjects_sequential envBFatal (by decide)).1⟩

/-- C28: the classification by `syncObject` depends on the object's key.  The same
underlying failure, a connection timeout while downloading, is returned as a
fatal error for the key `data/a.parquet` and skipped for the key
`invalid parquet/a.parquet`, because the failure text that
`isMalformedParquetError` searches contains the key. -/
theorem classification_depends_on_key :
    (envStage StreamStage.download errTimeout).streamRecords objA.Key =
      ([], some { IsNoSuchKey := false,
                  Msg := "failed to download data/a.parquet: connection timeout".toList }) ∧
    (envStage StreamStage.download errTimeout).streamRecords objTricky.Key =
      ([], some { IsNoSuchKey := false,
                  Msg := "failed to download invalid parquet/a.parquet: connection timeout".toList }) ∧
    syncObject (envStage StreamStage.download errTimeout) objA =
      ([], some { IsNoSuchKey := false,
                  Msg := ("failed to sync object data/a.parquet: " ++
                    "failed to download data/a.parquet: connection timeout").toList }) ∧
    syncObject (envStage StreamStage.download errTimeout) objTricky = ([], none) := by
  decide

/-! ## Decimal digits -/

theorem toDigitsCore_append (fuel n : Nat) (ds : Str) :
    Nat.toDigitsCore 10 fuel n ds = Nat.toDigitsCore 10 fuel n [] ++ ds := by
  induction fuel generalizing n ds with
  | zero => simp [Nat.toDigitsCore]
  | succ fuel ih =>
    unfold Nat.toDigitsCore
    simp only
    split
    · simp
    · rw [ih (n / 10) (Nat.digitChar (n % 10) :: ds), ih (n / 10) [Nat.digitChar (n % 10)]]
      simp

theorem toDigitsCore_step (fuel n : Nat) (hf : n < fuel) :
    Nat.toDigitsCore 10 fuel n [] =
      if n < 10 then [Nat.digitChar n]
      else Nat.toDigitsCore 10 (fuel - 1) (n / 10) [] ++ [Nat.digitChar (n % 10)] := by
  cases fuel with
  | zero => omega
  | succ fuel =>
    conv_lhs => unfold Nat.toDigitsCore
    simp only
    by_cases h : n < 10
    · have h0 : n / 10 = 0 := by omega
      have h1 : n % 10 = n := by omega
      simp [h, h0, h1]
    · have h0 : ¬ n / 10 = 0 := by omega
      simp only [h, h0, if_false, Nat.add_sub_cancel]
      rw [toDigitsCore_append]

theorem toDigitsCore_fuel (fuel1 fuel2 n : Nat) (h1 : n < fuel1) (h2 : n < fuel2) :
    Nat.toDigitsCore 10 fuel1 n [] = Nat.toDigitsCore 10 fuel2 n [] := by
  induction n using Nat.strong_induction_on generalizing fuel1 fuel2 with
  | _ n ih =>
    rw [toDigitsCore_step fuel1 n h1, toDigitsCore_step fuel2 n h2]
    by_cases h : n < 10
    · simp [h]
    · simp only [h, if_false]
      rw [ih (n / 10) (by omega) (fuel1 - 1) (fuel2 - 1) (by omega) (by omega)]

theorem toDigits_step (n : Nat) :
    Nat.toDigits 10 n =
      if n < 10 then [Nat.digitChar n]
      else Nat.toDigits 10 (n / 10) ++ [Nat.digitChar (n % 10)] := by
  unfold Nat.toDigits
  rw [toDigitsCore_step (n + 1) n (by omega)]
  by_cases h : n < 10
  · simp [h]
  · simp only [h, if_false]
    rw [toDigitsCore_fuel (n + 1 - 1) (n / 10 + 1) (n / 10) (by omega) (by omega)]

theorem digitsW_zero (width : Nat) : digitsW width 0 = List.replicate width '0' := by
  induction width with
  | zero => rfl
  | succ w ih =>
    unfold digitsW
    rw [show 0 / 10 = 0 from rfl, ih, show Nat.digitChar (0 % 10) = '0' from rfl]
    rw [List.replicate_succ']

theorem digitsW_length (width n : Nat) : (digitsW width n).length = width := by
  induction width generalizing n with
  | zero => rfl
  | succ w ih => simp [digitsW, ih]

theorem toDigits_length_le (width n : Nat) (h : n < 10 ^ width) (hw : 0 < width) :
    (Nat.toDigits 10 n).length ≤ width := by
  induction width generalizing n with
  | zero => omega
  | succ w ih =>
    rw [toDigits_step]
    by_cases h10 : n < 10
    · simp [h10]
    · simp only [h10, if_false, List.length_append, List.length_singleton]
      have hw0 : 0 < w := by
        rcases Nat.eq_zero_or_pos w with h0 | h0
        · subst h0
          simp at h
          omega
        · exact h0
      have : n / 10 < 10 ^ w := by
        rw [Nat.pow_succ] at h
        omega
      have := ih (n / 10) this hw0
      omega

/-- A number below `10 ^ width` is printed by `padNat` as its `width` digits. -/
theorem padNat_eq_digitsW (width n : Nat) (h : n < 10 ^ width) (hw : 0 < width) :
    padNat width n = digitsW width n := by
  induction width generalizing n with
  | zero => omega
  | succ w ih =>
    unfold padNat digitsW
    simp only
    rw [toDigits_step]
    by_cases h10 : n < 10
    · have h0 : n / 10 = 0 := by omega
      have h1 : n % 10 = n := by omega
      simp only [h10, if_true, List.length_singleton, Nat.add_sub_cancel, h0, h1, digitsW_zero]
    · simp only [h10, if_false, List.length_append, List.length_singleton]
      have hw0 : 0 < w := by
        rcases Nat.eq_zero_or_pos w with h0 | h0
        · subst h0
          simp at h
          omega
        · exact h0
      have hlt : n / 10 < 10 ^ w := by
        rw [Nat.pow_succ] at h
        omega
      have := ih (n / 10) hlt hw0
      unfold padNat at this
      simp only at this
      rw [← this, Nat.add_sub_add_right, List.append_assoc]

theorem digitVal_digitChar : ∀ d : Nat, d < 10 → digitVal (Nat.digitChar d) = some d := by
  decide

theorem digitsW_two (n : Nat) :
    digitsW 2 n = [Nat.digitChar (n / 10 % 10), Nat.digitChar (n % 10)] := by
  simp [digitsW]

theorem digitsW_four (n : Nat) :
    digitsW 4 n = [Nat.digitChar (n / 10 / 10 / 10 % 10), Nat.digitChar (n / 10 / 10 % 10),
      Nat.digitChar (n / 10 % 10), Nat.digitChar (n % 10)] := by
  simp [digitsW]

theorem getnum2_digits (n : Nat) (rest : Str) (h : n < 100) :
    getnum2 (digitsW 2 n ++ rest) = some (n, rest) := by
  rw [digitsW_two]
  simp only [List.cons_append, List.nil_append, getnum2]
  rw [digitVal_digitChar _ (by omega), digitVal_digitChar _ (by omega)]
  simp only [Option.some.injEq, Prod.mk.injEq, and_true]
  omega

theorem getnum1_digits (n : Nat) (rest : Str) (h : n < 100) :
    getnum1 (digitsW 2 n ++ rest) = some (n, rest) := by
  rw [digitsW_two]
  simp only [List.cons_append, List.nil_append, getnum1]
  rw [digitVal_digitChar _ (by omega), digitVal_digitChar _ (by omega)]
  simp only [Option.some.injEq, Prod.mk.injEq, and_true]
  omega

theorem getYear_digits (n : Nat) (rest : Str) (h : n < 10000) :
    getYear (digitsW 4 n ++ rest) = some (n, rest) := by
  rw [digitsW_four]
  simp only [List.cons_append, List.nil_append, getYear]
  rw [digitVal_digitChar _ (by omega), digitVal_digitChar _ (by omega),
    digitVal_digitChar _ (by omega), digitVal_digitChar _ (by omega)]
  simp only [Option.some.injEq, Prod.mk.injEq, and_true]
  omega

theorem digitsW_isDigit (width n : Nat) :
    ∀ c ∈ digitsW width n, (digitVal c).isSome = true := by
  induction width generalizing n with
  | zero => intro c hc; simp [digitsW] at hc
  | succ w ih =>
    intro c hc
    unfold digitsW at hc
    rcases List.mem_append.1 hc with h | h
    · exact ih _ c h
    · simp only [List.mem_singleton] at h
      rw [h, digitVal_digitChar _ (by omega)]
      rfl

theorem digitsW_value (width n : Nat) (h : n < 10 ^ width) :
    (digitsW width n).foldl (fun acc c => 10 * acc + (digitVal c).getD 0) 0 = n := by
  induction width generalizing n with
  | zero =>
    simp at h
    subst h
    rfl
  | succ w ih =>
    unfold digitsW
    rw [List.foldl_append, ih (n / 10) (by rw [Nat.pow_succ] at h; omega)]
    simp only [List.foldl_cons, List.foldl_nil]
    rw [digitVal_digitChar _ (by omega)]
    simp only [Option.getD_some]
    omega

theorem foldl_zeros (k : Nat) :
    (List.replicate k '0').foldl (fun acc c => 10 * acc + (digitVal c).getD 0) 0 = 0 := by
  induction k with
  | zero => rfl
  | succ k ih =>
    rw [List.replicate_succ', List.foldl_append, ih]
    rfl

theorem eq_replicate_zero (l : Str) (h : ∀ c ∈ l, (c == '0') = true) :
    l = List.replicate l.length '0' := by
  rw [List.eq_replicate_iff]
  exact ⟨rfl, fun c hc => by simpa using h c hc⟩

/-- Reading back the fraction that `formatFraction` writes, followed by a zone. -/
theorem getFraction_formatFraction (nanos : Nat) (z : Char) (zs : Str)
    (hn : nanos < 10 ^ 9) (hz : digitVal z = none) (hz1 : z ≠ '.') (hz2 : z ≠ ',') :
    getFraction (formatFraction nanos ++ z :: zs) = (nanos, z :: zs) := by
  unfold formatFraction
  by_cases h0 : nanos = 0
  · subst h0
    simp only [if_true, List.nil_append]
    unfold getFraction
    cases zs with
    | nil => rfl
    | cons d rest => simp [hz1, hz2]
  · simp only [h0, if_false]
    rw [padNat_eq_digitsW 9 nanos hn (by decide)]
    have hsplit := rdropWhile_append_rtakeWhile (· == '0') (digitsW 9 nanos)
    have hR : ∀ c ∈ (digitsW 9 nanos).rtakeWhile (· == '0'), (c == '0') = true :=
      fun c hc => @List.mem_rtakeWhile_imp _ (fun x => x == '0') _ c hc
    have hRrep := eq_replicate_zero _ hR
    generalize hT : (digitsW 9 nanos).rdropWhile (· == '0') = T at hsplit
    generalize hRdef : (digitsW 9 nanos).rtakeWhile (· == '0') = R at hsplit hRrep
    have hlen : T.length + R.length = 9 := by
      have := congrArg List.length hsplit
      rw [List.length_append, digitsW_length] at this
      exact this
    have hTdig : ∀ c ∈ T, (digitVal c).isSome = true := by
      intro c hc
      apply digitsW_isDigit 9 nanos
      rw [← hsplit]
      exact List.mem_append_left _ hc
    have hTne : T ≠ [] := by
      intro hnil
      rw [hnil, List.nil_append] at hsplit
      have hv := digitsW_value 9 nanos hn
      rw [← hsplit, hRrep, foldl_zeros] at hv
      exact h0 hv.symm
    cases T with
    | nil => exact absurd rfl hTne
    | cons d T2 =>
      have hd : (digitVal d).isSome = true := hTdig d (List.mem_cons_self _ _)
      have htake : List.takeWhile (fun c => (digitVal c).isSome) (d :: T2 ++ z :: zs) =
          d :: T2 := by
        rw [List.takeWhile_append_of_pos hTdig]
        simp [List.takeWhile_cons, hz]
      have hdrop : List.dropWhile (fun c => (digitVal c).isSome) (d :: T2 ++ z :: zs) =
          z :: zs := by
        rw [List.dropWhile_append_of_pos hTdig]
        simp [List.dropWhile_cons, hz]
      have hnine : ((d :: T2) ++ List.replicate 9 '0').take 9 = digitsW 9 nanos := by
        rw [← hsplit, hRrep, List.take_append_eq_append_take]
        have h1 : (d :: T2).length ≤ 9 := by omega
        rw [List.take_of_length_le h1, List.take_replicate]
        congr 2
        omega
      unfold getFraction
      simp only [List.cons_append, true_or, hd, and_self, if_true]
      rw [show d :: (T2 ++ z :: zs) = d :: T2 ++ z :: zs from rfl, htake, hdrop]
      rw [hnine, digitsW_value 9 nanos hn]

/-! ## Zone and calendar -/

theorem formatZone_head (offset : Int) :
    ∃ z zs, formatZone offset = z :: zs ∧ digitVal z = none ∧ z ≠ '.' ∧ z ≠ ',' := by
  unfold formatZone
  simp only
  by_cases h0 : offset = 0
  · rw [if_pos h0]
    exact ⟨'Z', [], rfl, by decide, by decide, by decide⟩
  · rw [if_neg h0]
    by_cases hneg : offset.tdiv 60 < 0
    · rw [if_pos hneg]
      exact ⟨'-', _, rfl, by decide, by decide, by decide⟩
    · rw [if_neg hneg]
      exact ⟨'+', _, rfl, by decide, by decide, by decide⟩

theorem getZone_signed (sign : Char) (hs : sign ≠ 'Z') (c1 c2 c3 c4 : Char) :
    getZone (sign :: c1 :: c2 :: ':' :: c3 :: [c4]) =
      match getnum2 [c1, c2], getnum2 [c3, c4] with
      | some (hr, _), some (mm, _) =>
        if hr > 24 ∨ mm > 60 then none
        else if sign = '+' then some (((hr * 60 + mm) * 60 : Nat), [])
        else if sign = '-' then some (-(((hr * 60 + mm) * 60 : Nat) : Int), [])
        else none
      | _, _ => none := by
  unfold getZone
  split
  · rename_i rest heq
    simp only [List.cons.injEq] at heq
    exact absurd heq.1 hs
  · rename_i heq
    simp only [List.cons.injEq] at heq
    obtain ⟨rfl, rfl, rfl, rfl, rfl, rfl, rfl⟩ := heq
    rw [if_neg (by simp)]
  · rename_i h1 h2
    exact absurd rfl (h2 _ _ _ _ _ _ _)

theorem isLeap_iff (year : Int) :
    isLeap year = true ↔ year % 4 = 0 ∧ (year % 100 ≠ 0 ∨ year % 400 = 0) := by
  simp [isLeap]

theorem min_three_cases (a : Nat) : min a 3 = a ∧ a ≤ 3 ∨ min a 3 = 3 ∧ 3 ≤ a := by
  rcases Nat.le_total a 3 with h | h
  · exact Or.inl ⟨Nat.min_eq_left h, h⟩
  · exact Or.inr ⟨Nat.min_eq_right h, h⟩

/-- The arithmetic of `yearOfDays`: with the cycle counts `n400`, `n100`, `n4`,
`n1` taken from a day number, the days before the year found and the day of the
year add up to the day number, and the day of the year is within the year. -/
theorem year_arith (n400 : Int) (r n100 n4 n1 : Nat) (hr : r < 146097)
    (h100 : n100 = r / 36524 ∧ r / 36524 ≤ 3 ∨ n100 = 3 ∧ 3 ≤ r / 36524)
    (h4 : n4 = (r - n100 * 36524) / 1461)
    (h1 : n1 = (r - n100 * 36524 - n4 * 1461) / 365 ∧
        (r - n100 * 36524 - n4 * 1461) / 365 ≤ 3 ∨
      n1 = 3 ∧ 3 ≤ (r - n100 * 36524 - n4 * 1461) / 365)
    (y : Int) (hy : y = 400 * n400 + ((100 * n100 + 4 * n4 + n1 + 1 : Nat) : Int) - 1) :
    365 * y + y / 4 - y / 100 + y / 400 +
        ((r - n100 * 36524 - n4 * 1461 - n1 * 365 : Nat) : Int) = 146097 * n400 + r ∧
    (((y + 1) % 4 = 0 ∧ ((y + 1) % 100 ≠ 0 ∨ (y + 1) % 400 = 0)) →
      r - n100 * 36524 - n4 * 1461 - n1 * 365 < 366) ∧
    (¬ ((y + 1) % 4 = 0 ∧ ((y + 1) % 100 ≠ 0 ∨ (y + 1) % 400 = 0)) →
      r - n100 * 36524 - n4 * 1461 - n1 * 365 < 365) := by
  have b100 : n100 ≤ 3 := by omega
  have br1 : r - n100 * 36524 ≤ 36524 := by omega
  have hr1 : r - n100 * 36524 + n100 * 36524 = r := by omega
  generalize r - n100 * 36524 = r1 at *
  have b4 : n4 ≤ 24 := by omega
  have hr2 : r1 - n4 * 1461 + n4 * 1461 = r1 := by omega
  have br2 : r1 - n4 * 1461 ≤ 1460 := by omega
  generalize r1 - n4 * 1461 = r2 at *
  have b1 : n1 ≤ 3 := by omega
  have hr3 : r2 - n1 * 365 + n1 * 365 = r2 := by omega
  have br3 : r2 - n1 * 365 ≤ 365 := by omega
  have br3b : n1 < 3 → r2 - n1 * 365 < 365 := by omega
  generalize r2 - n1 * 365 = yd at *
  have e4 : y / 4 = 100 * n400 + 25 * n100 + n4 := by omega
  have e100 : y / 100 = 4 * n400 + n100 := by omega
  have e400 : y / 400 = n400 := by omega
  have l4 : (y + 1) % 4 = 0 ↔ n1 = 3 := by omega
  have l100 : (y + 1) % 100 = 0 ↔ n1 = 3 ∧ n4 = 24 := by omega
  have l400 : (y + 1) % 400 = 0 ↔ n1 = 3 ∧ n4 = 24 ∧ n100 = 3 := by omega
  refine ⟨?_, ?_, ?_⟩
  · rw [e4, e100, e400]
    omega
  · intro _
    omega
  · simp only [l4, l100, l400, ne_eq]
    intro hnl
    by_cases h3 : n1 = 3
    · by_cases h24 : n4 = 24
      · have : ¬ n100 = 3 := fun h => hnl ⟨h3, Or.inr ⟨h3, h24, h⟩⟩
        omega
      · exact absurd ⟨h3, Or.inl (fun h => h24 h.2)⟩ hnl
    · omega

/-- The year and day of the year that `yearOfDays` computes count back to the day
number. -/
theorem yearOfDays_spec (days : Int) :
    daysBefore (yearOfDays days).1 1 + ((yearOfDays days).2 : Int) = days ∧
    (yearOfDays days).2 < (if isLeap (yearOfDays days).1 then 366 else 365) := by
  have hr : (days % 146097).toNat < 146097 := by omega
  have hrv : ((days % 146097).toNat : Int) = days % 146097 := by omega
  have key := year_arith (days / 146097) (days % 146097).toNat
    (min ((days % 146097).toNat / 36524) 3)
    (((days % 146097).toNat - min ((days % 146097).toNat / 36524) 3 * 36524) / 1461)
    (min (((days % 146097).toNat - min ((days % 146097).toNat / 36524) 3 * 36524 -
      ((days % 146097).toNat - min ((days % 146097).toNat / 36524) 3 * 36524) / 1461 * 1461)
      / 365) 3) hr (min_three_cases _) rfl (min_three_cases _) ((yearOfDays days).1 - 1) rfl
  have hyd : (yearOfDays days).2 =
      (days % 146097).toNat - min ((days % 146097).toNat / 36524) 3 * 36524 -
        ((days % 146097).toNat - min ((days % 146097).toNat / 36524) 3 * 36524) / 1461 * 1461 -
        min (((days % 146097).toNat - min ((days % 146097).toNat / 36524) 3 * 36524 -
          ((days % 146097).toNat - min ((days % 146097).toNat / 36524) 3 * 36524) / 1461 * 1461)
          / 365) 3 * 365 := rfl
  have hsum : daysBefore (yearOfDays days).1 1 =
      365 * ((yearOfDays days).1 - 1) + ((yearOfDays days).1 - 1) / 4 -
        ((yearOfDays days).1 - 1) / 100 + ((yearOfDays days).1 - 1) / 400 := by
    simp [daysBefore]
  obtain ⟨k1, k2, k3⟩ := key
  rw [← hyd] at k1 k2 k3
  rw [Int.sub_add_cancel] at k2 k3
  refine ⟨?_, ?_⟩
  · rw [hsum, k1]
    omega
  · by_cases hl : isLeap (yearOfDays days).1 = true
    · rw [if_pos hl]
      exact k2 ((isLeap_iff _).1 hl)
    · rw [if_neg hl]
      exact k3 (fun h => hl ((isLeap_iff _).2 h))

/-! ## Month and day -/

theorem daysIn_congr (m : Nat) (y1 y2 : Int) (h : isLeap y1 = isLeap y2) :
    daysIn m y1 = daysIn m y2 := by
  unfold daysIn
  rw [h]

theorem monthOfYday_congr (y1 y2 : Int) (h : isLeap y1 = isLeap y2) :
    ∀ fuel m yd, monthOfYday y1 fuel m yd = monthOfYday y2 fuel m yd := by
  intro fuel
  induction fuel with
  | zero => intro m yd; rfl
  | succ n ih =>
    intro m yd
    rw [monthOfYday, monthOfYday, daysIn_congr m y1 y2 h, ih]

set_option maxRecDepth 1000000 in
theorem monthOfYday_leap : ∀ yd, yd < 366 →
    1 ≤ (monthOfYday 4 11 1 yd).1 ∧ (monthOfYday 4 11 1 yd).1 ≤ 12 ∧
    1 ≤ (monthOfYday 4 11 1 yd).2 ∧
    (monthOfYday 4 11 1 yd).2 ≤ daysIn (monthOfYday 4 11 1 yd).1 4 ∧
    ((List.range ((monthOfYday 4 11 1 yd).1 - 1)).map (fun m => daysIn (m + 1) 4)).sum +
      ((monthOfYday 4 11 1 yd).2 - 1) = yd := by
  decide

set_option maxRecDepth 1000000 in
theorem monthOfYday_common : ∀ yd, yd < 365 →
    1 ≤ (monthOfYday 1 11 1 yd).1 ∧ (monthOfYday 1 11 1 yd).1 ≤ 12 ∧
    1 ≤ (monthOfYday 1 11 1 yd).2 ∧
    (monthOfYday 1 11 1 yd).2 ≤ daysIn (monthOfYday 1 11 1 yd).1 1 ∧
    ((List.range ((monthOfYday 1 11 1 yd).1 - 1)).map (fun m => daysIn (m + 1) 1)).sum +
      ((monthOfYday 1 11 1 yd).2 - 1) = yd := by
  decide

/-- The month and day that `monthOfYday` finds for a day of the year are a valid
calendar date of that year and count back to the day of the year. -/
theorem monthOfYday_spec (year : Int) (yd : Nat)
    (h : yd < (if isLeap year then 366 else 365)) :
    1 ≤ (monthOfYday year 11 1 yd).1 ∧ (monthOfYday year 11 1 yd).1 ≤ 12 ∧
    1 ≤ (monthOfYday year 11 1 yd).2 ∧
    (monthOfYday year 11 1 yd).2 ≤ daysIn (monthOfYday year 11 1 yd).1 year ∧
    ((List.range ((monthOfYday year 11 1 yd).1 - 1)).map (fun m => daysIn (m + 1) year)).sum +
      ((monthOfYday year 11 1 yd).2 - 1) = yd := by
  by_cases hl : isLeap year = true
  · rw [if_pos hl] at h
    have hc : isLeap year = isLeap 4 := by rw [hl]; rfl
    have hf : (fun m => daysIn (m + 1) year) = (fun m => daysIn (m + 1) 4) :=
      funext (fun m => daysIn_congr _ _ _ hc)
    rw [monthOfYday_congr year 4 hc, daysIn_congr _ year 4 hc, hf]
    exact monthOfYday_leap yd h
  · rw [if_neg hl] at h
    have hc : isLeap year = isLeap 1 := by
      rw [Bool.not_eq_true] at hl
      rw [hl]; rfl
    have hf : (fun m => daysIn (m + 1) year) = (fun m => daysIn (m + 1) 1) :=
      funext (fun m => daysIn_congr _ _ _ hc)
    rw [monthOfYday_congr year 1 hc, daysIn_congr _ year 1 hc, hf]
    exact monthOfYday_common yd h

theorem daysBefore_one (year : Int) :
    daysBefore year 1 =
      365 * (year - 1) + (year - 1) / 4 - (year - 1) / 100 + (year - 1) / 400 := by
  simp [daysBefore]

theorem daysBefore_month (year : Int) (month : Nat) :
    daysBefore year month = daysBefore year 1 +
      ((((List.range (month - 1)).map (fun m => daysIn (m + 1) year)).sum : Nat) : Int) := by
  simp [daysBefore]

theorem expectChar_cons (c : Char) (s : Str) : expectChar c (c :: s) = some s := by
  simp [expectChar]

theorem daysIn_le (m : Nat) (y : Int) : daysIn m y ≤ 31 := by
  unfold daysIn
  split_ifs <;> omega

theorem parseRFC3339Nano_nil : parseRFC3339Nano [] = none := by
  rfl

/-! ## Numbers too long for their field -/

theorem toDigits_isDigit (n : Nat) : ∀ c ∈ Nat.toDigits 10 n, (digitVal c).isSome = true := by
  induction n using Nat.strong_induction_on with
  | _ n ih =>
    intro c hc
    rw [toDigits_step] at hc
    by_cases h : n < 10
    · rw [if_pos h, List.mem_singleton] at hc
      rw [hc, digitVal_digitChar _ h]
      rfl
    · rw [if_neg h] at hc
      rcases List.mem_append.1 hc with h1 | h1
      · exact ih (n / 10) (by omega) c h1
      · rw [List.mem_singleton] at h1
        rw [h1, digitVal_digitChar _ (by omega)]
        rfl

theorem toDigits_length_ge (k n : Nat) (h : 10 ^ k ≤ n) :
    k + 1 ≤ (Nat.toDigits 10 n).length := by
  induction k generalizing n with
  | zero =>
    rw [toDigits_step]
    split <;> simp
  | succ k ih =>
    rw [toDigits_step]
    rw [Nat.pow_succ] at h
    have hpos : 0 < 10 ^ k := pow_pos (by decide) k
    have h10 : ¬ n < 10 := by omega
    rw [if_neg h10, List.length_append, List.length_singleton]
    have := ih (n / 10) (by omega)
    omega

theorem padNat_long (width n : Nat) (h : width ≤ (Nat.toDigits 10 n).length) :
    padNat width n = Nat.toDigits 10 n := by
  unfold padNat
  simp only
  rw [Nat.sub_eq_zero_of_le h]
  rfl

theorem digit_ne_colon (c : Char) (h : (digitVal c).isSome = true) : c ≠ ':' := by
  intro hc
  rw [hc] at h
  exact absurd h (by decide)

theorem digit_ne_dash (c : Char) (h : (digitVal c).isSome = true) : c ≠ '-' := by
  intro hc
  rw [hc] at h
  exact absurd h (by decide)

/-- A zone whose hour field has three digits or more is not read. -/
theorem getZone_long_hours (sign : Char) (hs : sign ≠ 'Z') (hours rest : Str)
    (hlen : 3 ≤ hours.length) (hd : ∀ c ∈ hours, (digitVal c).isSome = true) :
    getZone (sign :: (hours ++ rest)) = none := by
  rcases hours with _ | ⟨d1, _ | ⟨d2, _ | ⟨d3, ds⟩⟩⟩
  · simp at hlen
  · simp at hlen
  · simp at hlen
  · have h3 : d3 ≠ ':' := digit_ne_colon d3 (hd d3 (by simp))
    simp only [List.cons_append]
    unfold getZone
    split
    · rename_i r heq
      simp only [List.cons.injEq] at heq
      exact absurd heq.1 hs
    · rename_i s2 a b colon m1 m2 r heq
      simp only [List.cons.injEq] at heq
      obtain ⟨_, _, _, h4, _⟩ := heq
      rw [if_pos (by rw [← h4]; exact h3)]
    · rfl

/-- The zone that `formatZone` writes is read back, with the seconds of the
offset dropped, if its hours are at most 24, and is not read otherwise. -/
theorem getZone_formatZone (offset : Int) :
    getZone (formatZone offset) =
      if (offset.tdiv 60).natAbs ≤ 1499 then some (60 * offset.tdiv 60, []) else none := by
  unfold formatZone
  simp only
  by_cases h0 : offset = 0
  · rw [if_pos h0, h0]
    rfl
  · rw [if_neg h0]
    generalize offset.tdiv 60 = k
    have hsign : (if k < 0 then '-' else '+') ≠ 'Z' := by
      split <;> decide
    by_cases hbig : 100 ≤ k.natAbs / 60
    · have hlen := toDigits_length_ge 2 (k.natAbs / 60) hbig
      rw [padNat_long 2 _ (by omega), List.append_assoc,
        getZone_long_hours _ hsign _ _ hlen (toDigits_isDigit _),
        if_neg (show ¬ k.natAbs ≤ 1499 from by omega)]
    · have hhr : k.natAbs / 60 < 100 := by omega
      have hmm : k.natAbs % 60 < 100 := by omega
      rw [padNat_eq_digitsW 2 _ hhr (by decide), padNat_eq_digitsW 2 _ hmm (by decide)]
      have g1 := getnum2_digits (k.natAbs / 60) [] hhr
      have g2 := getnum2_digits (k.natAbs % 60) [] hmm
      rw [digitsW_two] at g1 g2 ⊢
      rw [digitsW_two]
      simp only [List.cons_append, List.nil_append] at g1 g2 ⊢
      rw [getZone_signed _ hsign, g1, g2]
      have hdm : k.natAbs / 60 * 60 + k.natAbs % 60 = k.natAbs := Nat.div_add_mod' _ _
      by_cases hr : k.natAbs / 60 > 24
      · have c1 : k.natAbs / 60 > 24 ∨ k.natAbs % 60 > 60 := Or.inl hr
        simp only [c1, if_true]
        rw [if_neg (show ¬ k.natAbs ≤ 1499 from by omega)]
      · have c1 : ¬ (k.natAbs / 60 > 24 ∨ k.natAbs % 60 > 60) := by omega
        simp only [c1, if_false, hdm]
        rw [if_pos (show k.natAbs ≤ 1499 from by omega)]
        by_cases hneg : k < 0
        · have hpm : ¬ ('-' = '+') := by decide
          simp only [hneg, hpm, if_true, if_false, Option.some.injEq, Prod.mk.injEq, and_true]
          have habs : ((k.natAbs : Nat) : Int) = -k := by omega
          rw [Nat.cast_mul, habs]
          ring
        · simp only [hneg, if_true, if_false, Option.some.injEq, Prod.mk.injEq, and_true]
          have habs : ((k.natAbs : Nat) : Int) = k := by omega
          rw [Nat.cast_mul, habs]
          ring


/-- The year of a day number is in 0 to 9999 exactly for the day numbers from
the first day of year 0 to the last day of year 9999. -/
theorem yearOfDays_range (days : Int) :
    (0 ≤ (yearOfDays days).1 ↔ -366 ≤ days) ∧
    ((yearOfDays days).1 < 10000 ↔ days < 3652059) := by
  obtain ⟨h1, h2⟩ := yearOfDays_spec days
  rw [daysBefore_one] at h1
  generalize (yearOfDays days).1 = y at *
  generalize (yearOfDays days).2 = yd at *
  have h3 : yd < 366 := by
    split at h2 <;> omega
  refine ⟨⟨?_, ?_⟩, ⟨?_, ?_⟩⟩
  · intro hy
    by_cases hy0 : y = 0
    · subst hy0
      omega
    · omega
  · intro hd
    by_contra hy
    by_cases hy1 : y = -1
    · subst hy1
      rw [show isLeap (-1) = false from by decide] at h2
      simp only [Bool.false_eq_true, if_false] at h2
      omega
    · omega
  · intro hy
    by_cases hy1 : y = 9999
    · subst hy1
      rw [show isLeap 9999 = false from by decide] at h2
      simp only [Bool.false_eq_true, if_false] at h2
      omega
    · omega
  · intro hd
    by_contra hy
    omega


/-- Parsing a text assembled from valid date and time fields, a fraction and a
zone: the result is the instant of those fields in the zone read, if the zone is
read and nothing follows it, and an error otherwise. -/
theorem parse_fields (Y M D h mi s frac : Nat) (z : Char) (zs : Str)
    (hY : Y < 10000) (hM1 : 1 ≤ M) (hM2 : M ≤ 12) (hD1 : 1 ≤ D) (hD2 : D ≤ daysIn M Y)
    (hh : h < 24) (hmi : mi < 60) (hs : s < 60) (hfrac : frac < 10 ^ 9)
    (hz : digitVal z = none) (hz1 : z ≠ '.') (hz2 : z ≠ ',') :
    parseRFC3339Nano (digitsW 4 Y ++ ('-' :: (digitsW 2 M ++ ('-' :: (digitsW 2 D ++
      ('T' :: (digitsW 2 h ++ (':' :: (digitsW 2 mi ++ (':' :: (digitsW 2 s ++
        (formatFraction frac ++ z :: zs)))))))))))) =
      match getZone (z :: zs) with
      | some (zone, []) =>
        some
          { nsec := ((daysBefore Y M + ((D - 1 : Nat) : Int)) * 86400 +
              ((h * 3600 + mi * 60 + s : Nat) : Int) - zone) * 1000000000 + (frac : Int)
            offset := zone }
      | _ => none := by
  unfold parseRFC3339Nano
  rw [getYear_digits Y _ hY]
  rw [Option.bind_eq_bind, Option.some_bind]
  dsimp only
  rw [expectChar_cons, Option.bind_eq_bind, Option.some_bind, getnum2_digits M _ (by omega),
    Option.bind_eq_bind, Option.some_bind]
  dsimp only
  rw [if_neg (by omega), Option.pure_def, Option.some_bind, expectChar_cons, Option.some_bind,
    getnum2_digits D _ (by have := daysIn_le M Y; omega),
    Option.some_bind]
  dsimp only
  rw [expectChar_cons, Option.some_bind, getnum1_digits h _ (by omega), Option.some_bind]
  dsimp only
  rw [if_neg (by omega), Option.some_bind, expectChar_cons, Option.some_bind,
    getnum2_digits mi _ (by omega), Option.some_bind]
  dsimp only
  rw [if_neg (by omega), Option.some_bind, expectChar_cons, Option.some_bind,
    getnum2_digits s _ (by omega), Option.some_bind]
  dsimp only
  rw [if_neg (by omega), Option.some_bind, getFraction_formatFraction frac z zs hfrac hz hz1 hz2]
  dsimp only
  generalize getZone (z :: zs) = zr
  rcases zr with _ | ⟨zone, _ | ⟨c, cs⟩⟩
  · rfl
  · rw [Option.bind_eq_bind, Option.some_bind]
    dsimp only
    rw [if_neg (by simp), Option.some_bind, if_neg (by omega), Option.some_bind]
  · rw [Option.bind_eq_bind, Option.some_bind]
    dsimp only
    rw [if_pos (by simp)]
    rfl

theorem getYear_dash (s : Str) : getYear ('-' :: s) = none := by
  rcases s with _ | ⟨a, _ | ⟨b, _ | ⟨c, rest⟩⟩⟩ <;> rfl

/-- A text that starts with a minus sign, as a negative year does, is not a
timestamp. -/
theorem parse_dash (s : Str) : parseRFC3339Nano ('-' :: s) = none := by
  unfold parseRFC3339Nano
  rw [getYear_dash]
  rfl

/-- A text that starts with five digits or more, as a year above 9999 does, is
not a timestamp. -/
theorem parse_long_year (digits rest : Str) (hlen : 5 ≤ digits.length)
    (hd : ∀ c ∈ digits, (digitVal c).isSome = true) :
    parseRFC3339Nano (digits ++ rest) = none := by
  rcases digits with _ | ⟨a, _ | ⟨b, _ | ⟨c, _ | ⟨d, _ | ⟨e, ds⟩⟩⟩⟩⟩
  · simp at hlen
  · simp at hlen
  · simp at hlen
  · simp at hlen
  · simp at hlen
  · have he : e ≠ '-' := digit_ne_dash e (hd e (by simp))
    have hexp : expectChar '-' (e :: (ds ++ rest)) = none := by
      simp only [expectChar, he, if_false]
    obtain ⟨wa, ha⟩ := Option.isSome_iff_exists.1 (hd a (by simp))
    obtain ⟨wb, hb⟩ := Option.isSome_iff_exists.1 (hd b (by simp))
    obtain ⟨wc, hc⟩ := Option.isSome_iff_exists.1 (hd c (by simp))
    obtain ⟨wd, hdd⟩ := Option.isSome_iff_exists.1 (hd d (by simp))
    have hy : getYear (a :: b :: c :: d :: e :: (ds ++ rest)) =
        some (1000 * wa + 100 * wb + 10 * wc + wd, e :: (ds ++ rest)) := by
      simp only [getYear, ha, hb, hc, hdd]
    simp only [List.cons_append]
    unfold parseRFC3339Nano
    rw [hy, Option.bind_eq_bind, Option.some_bind]
    dsimp only
    rw [hexp]
    rfl


/-- What parsing makes of a formatted timestamp.  The text is read exactly when
the local date lies in years 0 to 9999 and the hours of the zone offset are at
most 24; what is read is the local time in the zone of the offset's whole
minutes, so the instant moves by the seconds of the offset. -/
theorem parse_format (t : Time) :
    parseRFC3339Nano (formatRFC3339Nano t) =
      if -31622400000000000 ≤ t.nsec + t.offset * 1000000000 ∧
          t.nsec + t.offset * 1000000000 < 315537897600000000000 ∧
          (t.offset.tdiv 60).natAbs ≤ 1499 then
        some
          { nsec := t.nsec + (t.offset - 60 * t.offset.tdiv 60) * 1000000000
            offset := 60 * t.offset.tdiv 60 }
      else none := by
  obtain ⟨z, zs, hzf, hz, hz1, hz2⟩ := formatZone_head t.offset
  have hzone := getZone_formatZone t.offset
  rw [hzf] at hzone
  unfold formatRFC3339Nano
  dsimp only
  have hlocv : t.nsec = t.nsec + t.offset * 1000000000 - t.offset * 1000000000 := by omega
  generalize hloc : t.nsec + t.offset * 1000000000 = loc at hlocv ⊢
  have hrem : (loc / 1000000000 % 86400).toNat < 86400 := by omega
  have hremv : (((loc / 1000000000 % 86400).toNat : Nat) : Int) = loc / 1000000000 % 86400 := by
    omega
  have hnan : (loc % 1000000000).toNat < 10 ^ 9 := by omega
  have hnanv : (((loc % 1000000000).toNat : Nat) : Int) = loc % 1000000000 := by omega
  generalize (loc / 1000000000 % 86400).toNat = rem at hrem hremv ⊢
  generalize (loc % 1000000000).toNat = nanos at hnan hnanv ⊢
  obtain ⟨hy1, hy2⟩ := yearOfDays_range (loc / 1000000000 / 86400)
  have hlo : -366 ≤ loc / 1000000000 / 86400 ↔ -31622400000000000 ≤ loc := by omega
  have hhi : loc / 1000000000 / 86400 < 3652059 ↔ loc < 315537897600000000000 := by omega
  rw [hlo] at hy1
  rw [hhi] at hy2
  obtain ⟨hs1, hs2⟩ := yearOfDays_spec (loc / 1000000000 / 86400)
  generalize (yearOfDays (loc / 1000000000 / 86400)).1 = year at hy1 hy2 hs1 hs2 ⊢
  generalize (yearOfDays (loc / 1000000000 / 86400)).2 = yd at hs1 hs2 ⊢
  obtain ⟨m1, m2, d1, d2, hsum⟩ := monthOfYday_spec year yd hs2
  generalize (monthOfYday year 11 1 yd).1 = month at m1 m2 d1 d2 hsum ⊢
  generalize (monthOfYday year 11 1 yd).2 = day at d1 d2 hsum ⊢
  by_cases hneg : year < 0
  · rw [if_pos hneg]
    simp only [List.cons_append]
    rw [parse_dash, if_neg]
    intro hc
    have := hy1.2 hc.1
    omega
  · rw [if_neg hneg]
    by_cases hbig : 10000 ≤ year
    · have hlen := toDigits_length_ge 4 year.natAbs (by omega)
      rw [padNat_long 4 _ (by omega)]
      simp only [List.append_assoc]
      rw [parse_long_year _ _ hlen (toDigits_isDigit _), if_neg]
      intro hc
      have := hy2.2 hc.2.1
      omega
    · have hyv : ((year.natAbs : Nat) : Int) = year := by omega
      have hd31 := daysIn_le month year
      have hin1 : -31622400000000000 ≤ loc := hy1.1 (by omega)
      have hin2 : loc < 315537897600000000000 := hy2.1 (by omega)
      rw [padNat_eq_digitsW 4 _ (by omega) (by decide),
        padNat_eq_digitsW 2 month (by omega) (by decide),
        padNat_eq_digitsW 2 day (by omega) (by decide),
        padNat_eq_digitsW 2 (rem / 3600) (by omega) (by decide),
        padNat_eq_digitsW 2 (rem % 3600 / 60) (by omega) (by decide),
        padNat_eq_digitsW 2 (rem % 60) (by omega) (by decide), hzf]
      simp only [List.append_assoc, List.singleton_append, List.cons_append, List.nil_append]
      rw [parse_fields year.natAbs month day (rem / 3600) (rem % 3600 / 60) (rem % 60) nanos
        z zs (by omega) m1 m2 d1 (by rw [hyv]; exact d2) (by omega) (by omega) (by omega)
        hnan hz hz1 hz2, hzone]
      by_cases hk : (t.offset.tdiv 60).natAbs ≤ 1499
      · rw [if_pos hk, if_pos ⟨hin1, hin2, hk⟩]
        dsimp only
        rw [hyv, daysBefore_month]
        have hfin : ((daysBefore year 1 +
            ((((List.range (month - 1)).map (fun m => daysIn (m + 1) year)).sum : Nat) : Int) +
              ((day - 1 : Nat) : Int)) * 86400 +
            ((rem / 3600 * 3600 + rem % 3600 / 60 * 60 + rem % 60 : Nat) : Int) -
              60 * t.offset.tdiv 60) * 1000000000 + (nanos : Int) =
            t.nsec + (t.offset - 60 * t.offset.tdiv 60) * 1000000000 := by
          have e1 : rem / 3600 * 3600 + rem % 3600 / 60 * 60 + rem % 60 = rem := by omega
          rw [e1, hremv, hnanv]
          have e2 : ((((List.range (month - 1)).map
              (fun m => daysIn (m + 1) year)).sum : Nat) : Int) +
              ((day - 1 : Nat) : Int) = (yd : Int) := by
            rw [← hsum]
            push_cast
            rfl
          rw [add_assoc, e2, hs1]
          generalize t.offset.tdiv 60 = k
          omega
        rw [hfin]
      · rw [if_neg hk, if_neg (fun hc => hk hc.2.2)]


theorem tdiv_sixty (a : Int) :
    a.tdiv 60 = if 0 ≤ a then a / 60 else -((-a) / 60) := by
  by_cases h : 0 ≤ a
  · rw [if_pos h, Int.tdiv_eq_ediv h (by decide)]
  · rw [if_neg h]
    have h2 : 0 ≤ -a := by omega
    have h3 := Int.tdiv_eq_ediv h2 (show (0 : Int) ≤ 60 from by decide)
    rw [Int.neg_tdiv] at h3
    omega

/-- What `GetCursor` returns after a successful `SetCursor`, with `time.Format`
and `time.Parse` as the codec: the stored text parsed, or the zero time if it
does not parse. -/
theorem GetCursor_SetCursor (env : Env) (store : Store) (tableName : Str) (t : Time)
    (hparse : env.parse = parseRFC3339Nano) (hformat : env.format = formatRFC3339Nano)
    (hset : (SetCursor env store tableName t).2 = none)
    (hget : env.getKeyErr (CursorKey env.Bucket tableName) = none) :
    GetCursor env (SetCursor env store tableName t).1 tableName =
      ((parseRFC3339Nano (formatRFC3339Nano t)).getD Time.zero, none) := by
  have hs : env.setKeyErr (CursorKey env.Bucket tableName) = none := by
    unfold SetCursor at hset
    rcases hk : env.setKeyErr (CursorKey env.Bucket tableName) with _ | e
    · rfl
    · simp [hk] at hset
  have hstore : (SetCursor env store tableName t).1 =
      store.set (CursorKey env.Bucket tableName) (formatRFC3339Nano t) := by
    simp [SetCursor, hs, hformat]
  have hval : (store.set (CursorKey env.Bucket tableName) (formatRFC3339Nano t)).get
      (CursorKey env.Bucket tableName) = formatRFC3339Nano t := by
    simp [Store.set, Store.get, List.lookup_cons]
  rw [hstore]
  by_cases hne : formatRFC3339Nano t = []
  · rw [hne] at hval ⊢
    simp [GetCursor, hget, hval, parseRFC3339Nano_nil]
  · rcases hp : parseRFC3339Nano (formatRFC3339Nano t) with _ | u
    · simp [GetCursor, hget, hval, hne, hparse, hp]
    · simp [GetCursor, hget, hval, hne, hparse, hp]

/-- C22 (amended): after a successful `SetCursor` of a timestamp `t`, `GetCursor`
on the resulting store (with `GetKey` succeeding, and `time.Format` and
`time.Parse` of layout RFC3339Nano as the codec) returns no error; it returns
`t` itself, the same instant in the same zone offset, exactly when the local
date of `t` lies in years 0 to 9999 and the zone offset is a whole number of
minutes from 24:59 west to 24:59 east; and the time it returns is the instant
of `t` exactly for those timestamps and for the zero instant held in a zone of
25 hours or more, whose text does not parse, so that the zero time returned in
its place happens to be the same instant. -/
theorem cursor_roundtrip (env : Env) (store : Store) (tableName : Str) (t : Time)
    (hparse : env.parse = parseRFC3339Nano) (hformat : env.format = formatRFC3339Nano)
    (hset : (SetCursor env store tableName t).2 = none)
    (hget : env.getKeyErr (CursorKey env.Bucket tableName) = none) :
    (GetCursor env (SetCursor env store tableName t).1 tableName).2 = none ∧
    (GetCursor env (SetCursor env store tableName t).1 tableName = (t, none) ↔
      -31622400000000000 ≤ t.nsec + t.offset * 1000000000 ∧
      t.nsec + t.offset * 1000000000 < 315537897600000000000 ∧
      t.offset % 60 = 0 ∧ -89940 ≤ t.offset ∧ t.offset ≤ 89940) ∧
    ((GetCursor env (SetCursor env store tableName t).1 tableName).1.nsec = t.nsec ↔
      (-31622400000000000 ≤ t.nsec + t.offset * 1000000000 ∧
        t.nsec + t.offset * 1000000000 < 315537897600000000000 ∧
        t.offset % 60 = 0 ∧ -89940 ≤ t.offset ∧ t.offset ≤ 89940) ∨
      (t.nsec = 0 ∧ (t.offset ≤ -90000 ∨ 90000 ≤ t.offset))) := by
  rw [GetCursor_SetCursor env store tableName t hparse hformat hset hget, parse_format,
    tdiv_sixty]
  obtain ⟨nsec, offset⟩ := t
  simp only
  refine ⟨trivial, ?_, ?_⟩
  · by_cases hpos : 0 ≤ offset
    · rw [if_pos hpos]
      split
      · rename_i hc
        simp only [Option.getD_some, Prod.mk.injEq, Time.mk.injEq, and_true]
        constructor
        · rintro ⟨h1, h2⟩
          omega
        · intro h
          constructor <;> omega
      · rename_i hc
        simp only [Option.getD_none, Prod.mk.injEq, and_true, Time.zero, Time.mk.injEq]
        constructor
        · rintro ⟨h1, h2⟩
          subst h1 h2
          exact absurd (by decide) hc
        · intro h
          exact absurd (by omega) hc
    · rw [if_neg hpos]
      split
      · rename_i hc
        simp only [Option.getD_some, Prod.mk.injEq, Time.mk.injEq, and_true]
        constructor
        · rintro ⟨h1, h2⟩
          omega
        · intro h
          constructor <;> omega
      · rename_i hc
        simp only [Option.getD_none, Prod.mk.injEq, and_true, Time.zero, Time.mk.injEq]
        constructor
        · rintro ⟨h1, h2⟩
          omega
        · intro h
          exact absurd (by omega) hc
  · by_cases hpos : 0 ≤ offset
    · rw [if_pos hpos]
      split
      · rename_i hc
        simp only [Option.getD_some]
        omega
      · rename_i hc
        simp only [Option.getD_none, Time.zero]
        constructor
        · intro h
          right
          refine ⟨h.symm, ?_⟩
          by_contra hb
          exact hc (by omega)
        · rintro (h | h)
          · exact absurd (by omega) hc
          · exact h.1.symm
    · rw [if_neg hpos]
      split
      · rename_i hc
        simp only [Option.getD_some]
        omega
      · rename_i hc
        simp only [Option.getD_none, Time.zero]
        constructor
        · intro h
          right
          refine ⟨h.symm, ?_⟩
          by_contra hb
          exact hc (by omega)
        · rintro (h | h)
          · exact absurd (by omega) hc
          · exact h.1.symm


theorem cursor_roundtrip_witness :
    envAll.parse = parseRFC3339Nano ∧ envAll.format = formatRFC3339Nano ∧
    (SetCursor envAll storeA "data".toList timeZoned).2 = none ∧
    (SetCursor envAll storeA "data".toList timeYear0).2 = none ∧
    envAll.getKeyErr (CursorKey envAll.Bucket "data".toList) = none ∧
    formatRFC3339Nano timeZoned = "2024-06-01T05:30:00.123+05:30".toList ∧
    GetCursor envAll (SetCursor envAll storeA "data".toList timeZoned).1 "data".toList =
      (timeZoned, none) ∧
    formatRFC3339Nano timeYear0 = "0000-01-01T00:00:00+24:00".toList ∧
    GetCursor envAll (SetCursor envAll storeA "data".toList timeYear0).1 "data".toList =
      (timeYear0, none) :=
  ⟨rfl, rfl, by decide, by decide, by decide, by decide,
    (cursor_roundtrip envAll storeA "data".toList timeZoned rfl rfl (by decide)
      (by decide)).2.1.2 (by decide),
    by decide,
    (cursor_roundtrip envAll storeA "data".toList timeYear0 rfl rfl (by decide)
      (by decide)).2.1.2 (by decide)⟩

/-- C22 (as stated) fails: the first instant of year 10000 is written by a
successful `SetCursor` as `10000-01-01T00:00:00Z`, a text that `time.Parse`
rejects (the layout has a four-digit year), so `GetCursor` on that store returns
the zero time, which is not the timestamp stored. -/
theorem cursor_roundtrip_counterexample :
    (SetCursor envAll [] "data".toList timeYear10000).2 = none ∧
    (SetCursor envAll [] "data".toList timeYear10000).1 =
      [("s3/b/data/last_modified_cursor".toList, "10000-01-01T00:00:00Z".toList)] ∧
    parseRFC3339Nano "10000-01-01T00:00:00Z".toList = none ∧
    GetCursor envAll (SetCursor envAll [] "data".toList timeYear10000).1 "data".toList =
      (Time.zero, none) ∧
    Time.zero ≠ timeYear10000 ∧ Time.zero.nsec ≠ timeYear10000.nsec := by
  decide

end S3Source
